import Mathlib

/-! go-appsec-scout: the aggregation engine, the option record and the source registry.

A shallow embedding of `scout.go`, `options.go` and `sources/source.go`.

* Go maps are finite association lists with pairwise distinct keys; a `range`
  over a map visits its entries in an order chosen by a `seed` argument, so a
  statement quantified over every seed holds for every iteration order.
* A Go slice that may be `nil` is an `Option (List _)`: `none` is the nil slice.
* The goroutines of `Query` are run by an explicit schedule (a list of events);
  the items they put on the results channel, in the order the delivery loop
  receives them, form the arrival sequence.
* The caller of an iterator is a `yield` function over an explicit caller
  state; every call of it is recorded in a trace together with its answer.
* `strings.ToLower`, `strings.TrimSpace` and `runtime.NumCPU` belong to the Go
  runtime and are taken as parameters (`GoEnv`).
-/

namespace Scout

/-! ## Go runtime -/

/-- The parts of the Go standard library the engine calls. -/
structure GoEnv where
  /-- Go function `strings.ToLower`. -/
  ToLower : String → String
  /-- Go function `strings.TrimSpace`. -/
  TrimSpace : String → String
  /-- Go function `runtime.NumCPU()`. -/
  NumCPU : Nat

/-- White space in the sense of `unicode.IsSpace`. -/
def isSpace (c : Char) : Bool :=
  c == '\t' || c == '\n' || c.toNat == 0x0B || c.toNat == 0x0C || c == '\r' || c == ' ' ||
  c.toNat == 0x85 || c.toNat == 0xA0 || c.toNat == 0x1680 ||
  (0x2000 ≤ c.toNat && c.toNat ≤ 0x200A) ||
  c.toNat == 0x2028 || c.toNat == 0x2029 || c.toNat == 0x202F || c.toNat == 0x205F ||
  c.toNat == 0x3000

/-- Go function `strings.TrimSpace`: leading and trailing white space removed. -/
def trimSpace (s : String) : String :=
  ⟨((s.data.dropWhile isSpace).reverse.dropWhile isSpace).reverse⟩

/-- Go function `strings.ToLower` on ASCII letters (other characters are kept). -/
def asciiToLower (s : String) : String :=
  ⟨s.data.map Char.toLower⟩

/-- A concrete runtime for evaluating the definitions on ASCII inputs. -/
def asciiEnv : GoEnv :=
  { ToLower := asciiToLower, TrimSpace := trimSpace, NumCPU := 4 }

/-- A Go `error` value, identified by its message; `nil` is `none` of `Option GoError`. -/
abbrev GoError := String

/-! ## Go maps -/

/-- The order in which a `range` visits a list of map entries: the head is put
at position `seed % length` of the order chosen for the tail by `seed / length`. -/
def rangeOrder {α : Type} : List α → Nat → List α
  | [], _ => []
  | x :: xs, seed =>
    let rest := rangeOrder xs (seed / (xs.length + 1))
    rest.take (seed % (xs.length + 1)) ++ x :: rest.drop (seed % (xs.length + 1))

/-- A Go `map[string]V`: entries with pairwise distinct keys. -/
structure GoMap (V : Type) where
  entries : List (String × V)
  nodupKeys : (entries.map Prod.fst).Nodup

namespace GoMap

/-- The map `make(map[string]V)`. -/
def empty {V : Type} : GoMap V := ⟨[], List.nodup_nil⟩

/-- The keys of the map. -/
def keys {V : Type} (m : GoMap V) : List String := m.entries.map Prod.fst

/-- The lookup `v, ok := m[k]`. -/
def get? {V : Type} (m : GoMap V) (k : String) : Option V :=
  (m.entries.find? (fun e => e.1 == k)).map Prod.snd

/-- Entries of a list under keys other than `k`. -/
def others {V : Type} (k : String) (l : List (String × V)) : List (String × V) :=
  l.filter (fun e => e.1 != k)

/-- The assignment `m[k] = v`: inserts, or replaces the entry under `k`. -/
def set {V : Type} (m : GoMap V) (k : String) (v : V) : GoMap V :=
  ⟨(k, v) :: others k m.entries, by
    refine List.nodup_cons.2 ⟨?_, ?_⟩
    · intro h
      obtain ⟨e, he, hk⟩ := List.mem_map.1 h
      have := (List.mem_filter.1 he).2
      simp [others, hk] at this
    · exact ((List.filter_sublist m.entries).map Prod.fst).nodup m.nodupKeys⟩

/-- The entries in the order a `for k, v := range m` visits them. -/
def range {V : Type} (m : GoMap V) (seed : Nat) : List (String × V) :=
  rangeOrder m.entries seed

end GoMap

/-! ## sources/source.go -/

/-- Go type `ResultType uint8`: a set of kind flags. -/
abbrev ResultType := Nat

/-- Flag `Subdomain ResultType = 1 << iota`. -/
def Subdomain : ResultType := 1

/-- Flag `URL`, the second `1 << iota`. -/
def URL : ResultType := 2

/-- Go struct `Result` (`Kind` is its field `Type`); the zero value `Result{}`
is `default`. -/
structure Result where
  Kind : ResultType := 0
  Value : String := ""
  Source : String := ""
  deriving DecidableEq, Repr, Inhabited

/-- One element of an `iter.Seq2[Result, error]`, also the `resultItem` of `Query`. -/
structure resultItem where
  result : Result
  err : Option GoError
  deriving DecidableEq, Repr, Inhabited

/-- Go type `time.Duration`, in nanoseconds. -/
abbrev Duration := Int

/-- Go type `rate.Limit`, requests per second. -/
abbrev Limit := Rat

/-- The state of a `context.Context` that the engine and the adapters observe. -/
structure Context where
  /-- Whether `Done()` is closed. -/
  done : Bool
  /-- The tightest timeout applied with `context.WithTimeout`, if any. -/
  timeout : Option Duration
  deriving DecidableEq, Repr

/-- Go function `context.WithTimeout`: the derived context is done when the
parent is, and at once when the duration is not positive (its deadline has
passed). -/
def Context.WithTimeout (ctx : Context) (d : Duration) : Context :=
  { done := ctx.done || decide (d ≤ 0)
    timeout := match ctx.timeout with
               | none => some d
               | some t => some (min t d) }

/-- An HTTP request as far as the client layers touch it. -/
structure Request where
  Method : String
  URL : String
  Header : List (String × String)
  Body : String
  deriving DecidableEq, Repr

/-- Go type `*rate.Limiter`, as built by `rate.NewLimiter(limit, burst)`. -/
structure Limiter where
  limit : Limit
  burst : Nat
  deriving DecidableEq

/-- The `http.RoundTripper` values of the engine: the two wrappers of
`scout.go` over a base transport. -/
inductive RoundTripper where
  /-- Go variable `http.DefaultTransport`. -/
  | DefaultTransport
  /-- A transport supplied by the caller. -/
  | custom (name : String)
  /-- Go struct `userAgentTransport`. -/
  | userAgentTransport (base : RoundTripper) (userAgent : String)
  /-- Go struct `rateLimitTransport`. -/
  | rateLimitTransport (base : RoundTripper) (limiter : Limiter)
  deriving DecidableEq

/-- Go type `http.Client`; a nil `Transport`, `CheckRedirect` or `Jar` is `none`. -/
structure Client where
  Transport : Option RoundTripper
  CheckRedirect : Option (Request → List Request → Option GoError)
  Jar : Option String
  Timeout : Duration

/-- Go struct `Source`. `Run` gives the items its iterator yields when it is
never stopped. -/
structure Source where
  Name : String
  Yields : ResultType
  Run : Context → Client → String → String → List resultItem

/-- The registry: Go variable `registry = make(map[string]Source)`. -/
abbrev Registry := GoMap Source

/-- Go function `Register`. -/
def Register (registry : Registry) (s : Source) : Registry :=
  registry.set s.Name s

/-- Go function `Names` (`bulk.MapKeysSlice`). -/
def Names (registry : Registry) (seed : Nat) : List String :=
  (registry.range seed).map Prod.fst

/-- Go function `ByName`: `none` is the nil pointer. -/
def ByName (registry : Registry) (name : String) : Option Source :=
  match registry.get? name with
  | some s => some s
  | none => none

/-- Go function `All` (`bulk.MapValuesSlice`). -/
def All (registry : Registry) (seed : Nat) : List Source :=
  (registry.range seed).map Prod.snd

/-- The loop of `ByNames`, appending to `result`. -/
def ByNames.loop (registry : Registry) : List String → List Source → List Source
  | [], result => result
  | name :: names, result =>
    match registry.get? name with
    | some s => ByNames.loop registry names (result ++ [s])
    | none => ByNames.loop registry names result

/-- Go function `ByNames`; the slice it returns is never nil. -/
def ByNames (registry : Registry) (names : List String) : List Source :=
  ByNames.loop registry names []

/-- The loop of `ByType` over the visited entries, appending to `result`. -/
def ByType.loop (want : ResultType) : List (String × Source) → List Source → List Source
  | [], result => result
  | (_, s) :: rest, result =>
    if s.Yields &&& want != 0 then ByType.loop want rest (result ++ [s])
    else ByType.loop want rest result

/-- Go function `ByType`; the slice it returns is never nil. -/
def ByType (registry : Registry) (want : ResultType) (seed : Nat) : List Source :=
  ByType.loop want (registry.range seed) []

/-! ## options.go -/

/-- Go constant `Version`. -/
def Version : String := "0.1.0"

/-- Go struct `Options`; a nil slice, pointer or map is `none`. -/
structure Options where
  Sources : Option (List Source)
  HTTPClient : Option Client
  Parallelism : Int
  GlobalRateLimit : Limit
  SourceRateLimits : Option (GoMap Limit)
  Timeout : Duration
  UserAgent : String
  APIKeys : Option (GoMap String)

/-- Go type `Option func(*Options)`: an update of the option record. -/
abbrev ScoutOption := Options → Options

/-- Go function `WithSources`. -/
def WithSources (srcs : Option (List Source)) : ScoutOption :=
  fun o => { o with Sources := srcs }

/-- Go function `WithHTTPClient`. -/
def WithHTTPClient (c : Option Client) : ScoutOption :=
  fun o => { o with HTTPClient := c }

/-- Go function `WithParallelism`. -/
def WithParallelism (n : Int) : ScoutOption :=
  fun o => { o with Parallelism := n }

/-- Go function `WithGlobalRateLimit`. -/
def WithGlobalRateLimit (rps : Limit) : ScoutOption :=
  fun o => { o with GlobalRateLimit := rps }

/-- Go function `WithSourceRateLimit`. -/
def WithSourceRateLimit (source : String) (rps : Limit) : ScoutOption :=
  fun o =>
    let m := match o.SourceRateLimits with
      | none => GoMap.empty
      | some m => m
    { o with SourceRateLimits := some (m.set source rps) }

/-- Go function `WithTimeout`. -/
def WithTimeout (d : Duration) : ScoutOption :=
  fun o => { o with Timeout := d }

/-- Go function `WithUserAgent`. -/
def WithUserAgent (ua : String) : ScoutOption :=
  fun o => { o with UserAgent := ua }

/-- Go function `WithAPIKey`. -/
def WithAPIKey (source key : String) : ScoutOption :=
  fun o =>
    let m := match o.APIKeys with
      | none => GoMap.empty
      | some m => m
    { o with APIKeys := some (m.set source key) }

/-- Go function `defaultOptions`; the fields it does not name have their zero value. -/
def defaultOptions (env : GoEnv) (registry : Registry) (seed : Nat) : Options :=
  { Sources := some (All registry seed)
    HTTPClient := none
    Parallelism := (env.NumCPU : Int) * 2
    GlobalRateLimit := 0
    SourceRateLimits := none
    Timeout := 30 * 1000000000
    UserAgent := "Mozilla/5.0 (compatible; go-harden/scout-v" ++ Version ++ ")"
    APIKeys := none }

/-- The first statements of `Query`: `cfg := defaultOptions()` and then every
option applied to it in order. -/
def configure (env : GoEnv) (registry : Registry) (seed : Nat)
    (opts : List ScoutOption) : Options :=
  opts.foldl (fun cfg opt => opt cfg) (defaultOptions env registry seed)

/-- A call of one of the eight option constructors, with its arguments. -/
inductive OptionCall where
  | withSources (srcs : Option (List Source))
  | withHTTPClient (c : Option Client)
  | withParallelism (n : Int)
  | withGlobalRateLimit (rps : Limit)
  | withSourceRateLimit (source : String) (rps : Limit)
  | withTimeout (d : Duration)
  | withUserAgent (ua : String)
  | withAPIKey (source key : String)

/-- The option a constructor call evaluates to. -/
def OptionCall.toOption : OptionCall → ScoutOption
  | .withSources srcs => WithSources srcs
  | .withHTTPClient c => WithHTTPClient c
  | .withParallelism n => WithParallelism n
  | .withGlobalRateLimit rps => WithGlobalRateLimit rps
  | .withSourceRateLimit source rps => WithSourceRateLimit source rps
  | .withTimeout d => WithTimeout d
  | .withUserAgent ua => WithUserAgent ua
  | .withAPIKey source key => WithAPIKey source key

/-- The argument of the last `WithSources` call of an options list, if there is one. -/
def lastWithSources : List OptionCall → Option (Option (List Source))
  | [] => none
  | c :: rest =>
    match lastWithSources rest with
    | some srcs => some srcs
    | none =>
      match c with
      | .withSources srcs => some srcs
      | _ => none

/-! ## scout.go: client composition -/

/-- Go function `wrapClientWithRateLimiter`. -/
def wrapClientWithRateLimiter (client : Client) (limiter : Limiter) : Client :=
  let transport := match client.Transport with
    | none => RoundTripper.DefaultTransport
    | some t => t
  { Transport := some (RoundTripper.rateLimitTransport transport limiter)
    CheckRedirect := client.CheckRedirect
    Jar := client.Jar
    Timeout := client.Timeout }

/-- Go function `wrapClientWithUserAgent`. -/
def wrapClientWithUserAgent (client : Client) (userAgent : String) : Client :=
  let transport := match client.Transport with
    | none => RoundTripper.DefaultTransport
    | some t => t
  { Transport := some (RoundTripper.userAgentTransport transport userAgent)
    CheckRedirect := client.CheckRedirect
    Jar := client.Jar
    Timeout := client.Timeout }

/-- The client of `Query` before the wrappers (scout.go, lines 30-39). -/
def baseClient (cfg : Options) : Client :=
  match cfg.HTTPClient with
  | some client => client
  | none =>
    { Timeout := cfg.Timeout
      Transport := some RoundTripper.DefaultTransport
      CheckRedirect := some (fun _ _ => some "redirects not allowed")
      Jar := none }

/-- The client shared by all sources (scout.go, lines 30-47). -/
def sharedClient (cfg : Options) : Client :=
  let client := baseClient cfg
  let client := if cfg.UserAgent != "" then wrapClientWithUserAgent client cfg.UserAgent
    else client
  if cfg.GlobalRateLimit > 0 then
    wrapClientWithRateLimiter client { limit := cfg.GlobalRateLimit, burst := 1 }
  else client

/-- The client handed to one source (scout.go, lines 76-80). -/
def sourceClient (cfg : Options) (client : Client) (s : Source) : Client :=
  match cfg.SourceRateLimits.bind (fun m => m.get? s.Name) with
  | some limit => wrapClientWithRateLimiter client { limit := limit, burst := 1 }
  | none => client

/-- The API key handed to one source (scout.go, lines 82-86). -/
def sourceAPIKey (cfg : Options) (s : Source) : String :=
  match cfg.APIKeys with
  | some keys => (keys.get? s.Name).getD ""
  | none => ""

/-- The items the goroutine of one source ranges over (scout.go, lines 72-88). -/
def sourceItems (cfg : Options) (ctx : Context) (client : Client) (domain : String)
    (s : Source) : List resultItem :=
  s.Run (ctx.WithTimeout cfg.Timeout) (sourceClient cfg client s) domain (sourceAPIKey cfg s)

/-! ## scout.go: the source goroutines -/

/-- What the scheduler can let happen next. -/
inductive Event where
  /-- Goroutine `i` gets past `sem <- struct{}{}`. -/
  | acquire (i : Nat)
  /-- The `select` of goroutine `i` takes `results <- item`: the delivery loop
  receives the item. -/
  | send (i : Nat)
  /-- The `select` of goroutine `i` takes `<-ctx.Done()`. -/
  | done (i : Nat)
  /-- The caller cancels the context it passed to `Query`. -/
  | cancel
  deriving DecidableEq, Repr

/-- Where the goroutine of one source stands. -/
inductive Goroutine where
  /-- Blocked on the semaphore. -/
  | waiting
  /-- Inside the `range` over `s.Run(...)`, with these items still to send. -/
  | running (pending : List resultItem)
  /-- Returned: its slot is released and `wg.Done()` has run. -/
  | finished
  deriving DecidableEq, Repr

/-- The state of the goroutines of one `Query` call. -/
structure Sched where
  /-- Whether the engine context is cancelled. -/
  ctxDone : Bool
  /-- The number of semaphore slots taken. -/
  inUse : Nat
  routines : List Goroutine
  /-- The items received by the delivery loop so far. -/
  arrived : List resultItem

/-- One scheduling step. `cap` is the capacity of `sem`; `run ctxDone i` are the
items of source `i` when its `Run` starts under that context state. An event
that cannot happen in the current state changes nothing. -/
def Sched.step (cap : Nat) (run : Bool → Nat → List resultItem) (st : Sched) : Event → Sched
  | .cancel => { st with ctxDone := true }
  | .acquire i =>
    match st.routines.get? i with
    | some .waiting =>
      if st.inUse < cap then
        match run st.ctxDone i with
        | [] => { st with routines := st.routines.set i .finished }
        | item :: items =>
          { st with inUse := st.inUse + 1
                    routines := st.routines.set i (.running (item :: items)) }
      else st
    | _ => st
  | .send i =>
    match st.routines.get? i with
    | some (.running (item :: items)) =>
      if items.isEmpty then
        { st with inUse := st.inUse - 1
                  routines := st.routines.set i .finished
                  arrived := st.arrived ++ [item] }
      else
        { st with routines := st.routines.set i (.running items)
                  arrived := st.arrived ++ [item] }
    | _ => st
  | .done i =>
    match st.routines.get? i with
    | some (.running _) =>
      if st.ctxDone then
        { st with inUse := st.inUse - 1, routines := st.routines.set i .finished }
      else st
    | _ => st

/-- The items a running goroutine still has to send. -/
def Goroutine.pending : Goroutine → List resultItem
  | .running items => items
  | _ => []

/-- The indices of the goroutines still blocked on the semaphore. -/
def Sched.waiting (st : Sched) : List Nat :=
  (List.range st.routines.length).filter (fun i => st.routines.get? i == some .waiting)

/-- The rest of the run once the given schedule is used up: the running
goroutines send what they have left, then the waiting ones run one after the
other in source order. The flag tells whether some goroutine stays blocked on
the semaphore for ever, so that `results` is never closed. -/
def Sched.finish (cap : Nat) (run : Bool → Nat → List resultItem) (st : Sched) :
    List resultItem × Bool :=
  let flushed := st.arrived ++ (st.routines.map Goroutine.pending).flatten
  if st.waiting.isEmpty then (flushed, false)
  else if cap == 0 then (flushed, true)
  else (flushed ++ (st.waiting.map (run st.ctxDone)).flatten, false)

/-- The arrival sequence of a run of `n` source goroutines under a schedule,
and whether the channel is never closed. -/
def arrivals (cap : Nat) (run : Bool → Nat → List resultItem) (n : Nat) (ctxDone : Bool)
    (sched : List Event) : List resultItem × Bool :=
  (sched.foldl (Sched.step cap run)
    { ctxDone := ctxDone, inUse := 0, routines := List.replicate n .waiting,
      arrived := [] }).finish cap run

/-! ## scout.go: deduplication and delivery -/

/-- Go struct `deduplicator`: the keys stored in its `sync.Map`. -/
structure deduplicator where
  values : List String := []
  deriving DecidableEq, Repr

/-- Go method `deduplicator.seen`: the answer and the deduplicator afterwards
(`LoadOrStore` stores the key when it is not there). -/
def deduplicator.seen (env : GoEnv) (d : deduplicator) (value : String) :
    Bool × deduplicator :=
  let normalized := env.ToLower (env.TrimSpace value)
  if normalized ∈ d.values then (true, d)
  else (false, { values := d.values ++ [normalized] })

/-- The `yield` function a caller passes to an `iter.Seq2[α, error]`, over the
caller's state: its answer and the caller's state afterwards. -/
abbrev Yield (α σ : Type) := σ → α → Option GoError → Bool × σ

/-- One call of `yield`: its arguments and its answer. -/
structure YieldCall (α : Type) where
  value : α
  err : Option GoError
  ret : Bool
  deriving DecidableEq, Repr

/-- What the delivery loop of `Query` has done when it is left. -/
structure Delivery (σ : Type) where
  /-- The calls of `yield`, in order. -/
  trace : List (YieldCall Result)
  caller : σ
  dedupe : deduplicator
  /-- The number of items taken from the results channel. -/
  received : Nat
  /-- Whether the loop was left by `return` after `yield` answered false. -/
  stopped : Bool

/-- The delivery after one more item was received first, with the call of
`yield` made for it, if any. -/
def Delivery.after {σ : Type} (call : Option (YieldCall Result)) (d : Delivery σ) :
    Delivery σ :=
  { d with trace := call.toList ++ d.trace, received := d.received + 1 }

/-- The delivery loop of `Query` (scout.go, lines 105-120) over the items that
arrive on `results` until it is closed. -/
def deliver {σ : Type} (env : GoEnv) (yield : Yield Result σ) :
    List resultItem → deduplicator → σ → Delivery σ
  | [], dedupe, s =>
    { trace := [], caller := s, dedupe := dedupe, received := 0, stopped := false }
  | r :: rest, dedupe, s =>
    match r.err with
    | some err =>
      if !(yield s default (some err)).1 then
        { trace := [⟨default, some err, false⟩], caller := (yield s default (some err)).2,
          dedupe := dedupe, received := 1, stopped := true }
      else
        (deliver env yield rest dedupe (yield s default (some err)).2).after
          (some ⟨default, some err, true⟩)
    | none =>
      if (dedupe.seen env r.result.Value).1 then
        (deliver env yield rest (dedupe.seen env r.result.Value).2 s).after none
      else if !(yield s r.result none).1 then
        { trace := [⟨r.result, none, false⟩], caller := (yield s r.result none).2,
          dedupe := (dedupe.seen env r.result.Value).2, received := 1, stopped := true }
      else
        (deliver env yield rest (dedupe.seen env r.result.Value).2
          (yield s r.result none).2).after (some ⟨r.result, none, true⟩)

/-! ## scout.go: Query, Subdomains, URLs -/

/-- How a call of an iterator ends. -/
inductive Status where
  /-- The iterator function returns. -/
  | returned
  /-- The iterator waits for ever on a channel that is never closed. -/
  | blocked
  /-- A run-time panic. -/
  | panicked
  deriving DecidableEq, Repr

/-- One call of an iterator: how it ends, the calls of `yield` it makes and the
caller's state afterwards. -/
structure IterRun (α σ : Type) where
  status : Status
  trace : List (YieldCall α)
  caller : σ

/-- The items source number `i` of the configured list sends, when its `Run`
starts under the given state of the engine context. -/
def sourceRun (cfg : Options) (ctx : Context) (domain : String) (ctxDone : Bool) (i : Nat) :
    List resultItem :=
  match (cfg.Sources.getD []).get? i with
  | some s => sourceItems cfg { ctx with done := ctxDone } (sharedClient cfg) domain s
  | none => []

/-- The iterator `Query` returns, for a configuration (scout.go, lines 25-121).
`make(chan struct{}, cfg.Parallelism)` panics for a negative capacity. -/
def Query.iterator {σ : Type} (env : GoEnv) (cfg : Options) (ctx : Context) (domain : String)
    (sched : List Event) (yield : Yield Result σ) (s : σ) : IterRun Result σ :=
  if cfg.Parallelism < 0 then { status := .panicked, trace := [], caller := s }
  else
    let arrived := arrivals cfg.Parallelism.toNat (sourceRun cfg ctx domain)
      (cfg.Sources.getD []).length ctx.done sched
    let d := deliver env yield arrived.1 {} s
    { status := if d.stopped then .returned else if arrived.2 then .blocked else .returned
      trace := d.trace
      caller := d.caller }

/-- Go function `Query`, and one call of the iterator it returns: `sched` is
the schedule of its goroutines, `yield` and `s` are the caller. -/
def Query {σ : Type} (env : GoEnv) (registry : Registry) (seed : Nat) (ctx : Context)
    (domain : String) (opts : List ScoutOption) (sched : List Event)
    (yield : Yield Result σ) (s : σ) : IterRun Result σ :=
  Query.iterator env (configure env registry seed opts) ctx domain sched yield s

/-- The body of the `range` loops of `Subdomains` and `URLs` as the `yield`
function `Query` is called with: it answers false where the body returns. The
state is the trace of the calls of the caller's `yield` and the caller's state. -/
def filterBody {σ : Type} (kind : ResultType) (yield : Yield String σ) :
    Yield Result (List (YieldCall String) × σ) :=
  fun st result err =>
    match err with
    | some e =>
      ((yield st.2 "" (some e)).1,
        (st.1 ++ [⟨"", some e, (yield st.2 "" (some e)).1⟩], (yield st.2 "" (some e)).2))
    | none =>
      if result.Kind == kind then
        ((yield st.2 result.Value none).1,
          (st.1 ++ [⟨result.Value, none, (yield st.2 result.Value none).1⟩],
            (yield st.2 result.Value none).2))
      else (true, st)

/-- Go function `Subdomains`, and one call of the iterator it returns. `seed`
is the order of the `range` inside `ByType`, `seedAll` the one inside `All`. -/
def Subdomains {σ : Type} (env : GoEnv) (registry : Registry) (seed seedAll : Nat)
    (ctx : Context) (domain : String) (opts : List ScoutOption) (sched : List Event)
    (yield : Yield String σ) (s : σ) : IterRun String σ :=
  let opts := WithSources (some (ByType registry Subdomain seed)) :: opts
  let q := Query env registry seedAll ctx domain opts sched (filterBody Subdomain yield) ([], s)
  { status := q.status, trace := q.caller.1, caller := q.caller.2 }

/-- Go function `URLs`, and one call of the iterator it returns. -/
def URLs {σ : Type} (env : GoEnv) (registry : Registry) (seed seedAll : Nat)
    (ctx : Context) (domain : String) (opts : List ScoutOption) (sched : List Event)
    (yield : Yield String σ) (s : σ) : IterRun String σ :=
  let opts := WithSources (some (ByType registry URL seed)) :: opts
  let q := Query env registry seedAll ctx domain opts sched (filterBody URL yield) ([], s)
  { status := q.status, trace := q.caller.1, caller := q.caller.2 }

/-! ## scout_test.go: callers and mock sources -/

/-- Go function `mockSource` of the tests: a source that yields the errors and
then the results. -/
def mockSource (name : String) (yields : ResultType) (results : List Result)
    (errs : List GoError) : Source :=
  { Name := name
    Yields := yields
    Run := fun _ _ _ _ =>
      errs.map (fun e => ⟨default, some e⟩) ++ results.map (fun r => ⟨r, none⟩) }

/-- A caller that consumes every item: a `for ... range` loop without `break`. -/
def consumeAll {α : Type} : Yield α Unit :=
  fun _ _ _ => (true, ())

/-- A caller that breaks out of its loop in the iteration that brings its
count of items to `n`; the state is the count. -/
def breakAt {α : Type} (n : Nat) : Yield α Nat :=
  fun count _ _ => (!(count + 1 == n), count + 1)

/-! ## Vocabulary of the specification -/

/-- The dedup key of the specification: `lowercase(trim(value))`. -/
def dedupKey (env : GoEnv) (value : String) : String :=
  env.ToLower (env.TrimSpace value)

/-- The successful results among the calls of `yield`, in order. -/
def successes (trace : List (YieldCall Result)) : List Result :=
  trace.filterMap (fun c => if c.err = none then some c.value else none)

/-- The arguments of the calls of `yield` that carry an error, in order. -/
def failures (trace : List (YieldCall Result)) : List (Result × GoError) :=
  trace.filterMap (fun c => c.err.map (fun e => (c.value, e)))

/-- The successful items of a sequence whose dedup key did not occur in an
earlier successful item; `earlier` are the items that came before the sequence. -/
def firstOccurrencesFrom (env : GoEnv) (earlier : List resultItem) :
    List resultItem → List Result
  | [] => []
  | r :: rest =>
    if r.err = none ∧
        ∀ e ∈ earlier, ¬ (e.err = none ∧ dedupKey env e.result.Value = dedupKey env r.result.Value)
    then r.result :: firstOccurrencesFrom env (earlier ++ [r]) rest
    else firstOccurrencesFrom env (earlier ++ [r]) rest

/-- The successful items of an arrival sequence whose dedup key did not occur
in an earlier successful item of the sequence. -/
def firstOccurrences (env : GoEnv) (arrived : List resultItem) : List Result :=
  firstOccurrencesFrom env [] arrived

/-- The errors of an arrival sequence, in order, each with the empty result. -/
def errorsOf (arrived : List resultItem) : List (Result × GoError) :=
  arrived.filterMap (fun r => r.err.map (fun e => (default, e)))

/-- The projection of one call of `Query`'s `yield` to a kind: an error is
passed on with the empty string, a result of that kind with its value, any
other result is dropped. -/
def projectCall (kind : ResultType) (c : YieldCall Result) : Option (YieldCall String) :=
  match c.err with
  | some e => some ⟨"", some e, c.ret⟩
  | none => if c.value.Kind = kind then some ⟨c.value.Value, none, c.ret⟩ else none

/-- The arrival sequence of one call of `Query`'s iterator: the items that
reach the delivery loop when the caller never stops. -/
def Query.arrived (env : GoEnv) (registry : Registry) (seed : Nat) (ctx : Context)
    (domain : String) (opts : List ScoutOption) (sched : List Event) : List resultItem :=
  let cfg := configure env registry seed opts
  if cfg.Parallelism < 0 then []
  else (arrivals cfg.Parallelism.toNat (sourceRun cfg ctx domain)
    (cfg.Sources.getD []).length ctx.done sched).1

/-- The deduplicator holds exactly the keys of the successful items in `earlier`. -/
def Tracks (env : GoEnv) (d : deduplicator) (earlier : List resultItem) : Prop :=
  ∀ k, k ∈ d.values ↔ ∃ e ∈ earlier, e.err = none ∧ dedupKey env e.result.Value = k

/-! ## Option lists -/

/-- The value given by the last call of an options list that `pick` selects. -/
def lastCall {α : Type} (pick : OptionCall → Option α) : List OptionCall → Option α
  | [] => none
  | c :: rest =>
    match lastCall pick rest with
    | some a => some a
    | none => pick c

/-- The argument of a `WithSources` call. -/
def OptionCall.sources : OptionCall → Option (Option (List Source))
  | .withSources srcs => some srcs
  | _ => none

/-- The argument of a `WithHTTPClient` call. -/
def OptionCall.httpClient : OptionCall → Option (Option Client)
  | .withHTTPClient c => some c
  | _ => none

/-- The argument of a `WithParallelism` call. -/
def OptionCall.parallelism : OptionCall → Option Int
  | .withParallelism n => some n
  | _ => none

/-- The argument of a `WithGlobalRateLimit` call. -/
def OptionCall.globalRateLimit : OptionCall → Option Limit
  | .withGlobalRateLimit rps => some rps
  | _ => none

/-- The argument of a `WithTimeout` call. -/
def OptionCall.timeout : OptionCall → Option Duration
  | .withTimeout d => some d
  | _ => none

/-- The argument of a `WithUserAgent` call. -/
def OptionCall.userAgent : OptionCall → Option String
  | .withUserAgent ua => some ua
  | _ => none

/-- The rate of a `WithSourceRateLimit` call for the source `name`. -/
def OptionCall.sourceRateLimit (name : String) : OptionCall → Option Limit
  | .withSourceRateLimit source rps => if source = name then some rps else none
  | _ => none

/-- The key of a `WithAPIKey` call for the source `name`. -/
def OptionCall.apiKey (name : String) : OptionCall → Option String
  | .withAPIKey source key => if source = name then some key else none
  | _ => none

/-- The lookup `limit, ok := o.SourceRateLimits[name]` (a nil map has no entry). -/
def Options.sourceRateLimit (o : Options) (name : String) : Option Limit :=
  o.SourceRateLimits.bind (fun m => m.get? name)

/-- The lookup `key, ok := o.APIKeys[name]` (a nil map has no entry). -/
def Options.apiKey (o : Options) (name : String) : Option String :=
  o.APIKeys.bind (fun m => m.get? name)

/-! ## net/http: round trips through the engine's transports -/

/-- Go method `http.Header.Set` on a canonical key: the values under the key
are replaced by the one value. -/
def Header.Set (h : List (String × String)) (key value : String) : List (String × String) :=
  h.filter (fun e => e.1 != key) ++ [(key, value)]

/-- Go method `http.Header.Get` on a canonical key: the first value under the
key, the empty string when there is none. -/
def Header.Get (h : List (String × String)) (key : String) : String :=
  ((h.find? (fun e => e.1 == key)).map Prod.snd).getD ""

/-- Go method `Request.Clone`: a new request object with the same contents. -/
def Request.Clone (req : Request) : Request := req

/-- What happens during one `RoundTrip`, in order. -/
inductive TransportEvent where
  /-- The call `limiter.Wait(req.Context())`. -/
  | wait (limiter : Limiter)
  /-- The round trip returns `(nil, err)` with the error of `Wait`. -/
  | failed (err : GoError)
  /-- A base transport (`http.DefaultTransport` or one of the caller) is handed
  the request. -/
  | sent (transport : RoundTripper) (req : Request)
  deriving DecidableEq

/-- The outcome of one `RoundTrip`. -/
structure RoundTripOutcome where
  /-- The request object the caller passed in, as it is after the call. -/
  original : Request
  events : List TransportEvent
  deriving DecidableEq

/-- Go methods `userAgentTransport.RoundTrip` and `rateLimitTransport.RoundTrip`
(scout.go, lines 184-201). `wait` tells for each limiter whether its `Wait`
fails. The user-agent transport writes the header into a clone, so the
caller's request object is left as it was. -/
def RoundTripper.RoundTrip (wait : Limiter → Option GoError) :
    RoundTripper → Request → RoundTripOutcome
  | .DefaultTransport, req =>
    { original := req, events := [.sent .DefaultTransport req] }
  | .custom name, req =>
    { original := req, events := [.sent (.custom name) req] }
  | .userAgentTransport base userAgent, req =>
    let clone := req.Clone
    let clone := { clone with Header := Header.Set clone.Header "User-Agent" userAgent }
    { original := req, events := (base.RoundTrip wait clone).events }
  | .rateLimitTransport base limiter, req =>
    match wait limiter with
    | some err => { original := req, events := [.wait limiter, .failed err] }
    | none =>
      { original := (base.RoundTrip wait req).original
        events := .wait limiter :: (base.RoundTrip wait req).events }

/-- The transport a client sends with: its `Transport`, or
`http.DefaultTransport` when that is nil. -/
def Client.transport (c : Client) : RoundTripper :=
  match c.Transport with
  | some t => t
  | none => .DefaultTransport

/-- One request sent with `client.Do(req)`, as far as the transports go. -/
def Client.Do (wait : Limiter → Option GoError) (c : Client) (req : Request) :
    RoundTripOutcome :=
  c.transport.RoundTrip wait req

/-- The events of a round trip that has to pass a limiter first, if there is
one: the wait, and then either its error or the events that follow. -/
def gated (wait : Limiter → Option GoError) (limiter : Option Limiter)
    (rest : List TransportEvent) : List TransportEvent :=
  match limiter with
  | none => rest
  | some l =>
    match wait l with
    | some err => [.wait l, .failed err]
    | none => .wait l :: rest

/-- The client `Query` hands to the source `s` under a configuration. -/
def clientOf (cfg : Options) (s : Source) : Client :=
  sourceClient cfg (sharedClient cfg) s

/-- The invariant of the specification for one result, against a registry: a
non-empty source name, a non-empty value, and a kind that is a non-empty set
of flags contained in the `Yields` of the descriptor registered under the
source name. -/
def wellFormed (registry : Registry) (r : Result) : Prop :=
  r.Source ≠ "" ∧ r.Value ≠ "" ∧
    ∃ d : Source, ByName registry r.Source = some d ∧ r.Kind ≠ 0 ∧ r.Kind &&& d.Yields = r.Kind

/-- The deduplicator after `seen` was called, on a new deduplicator, with each
of the values in turn. -/
def deduplicator.afterCalls (env : GoEnv) (values : List String) : deduplicator :=
  values.foldl (fun d value => (d.seen env value).2) {}

/-! ## Go strings -/

/-- The scan of `strings.Split` for a non-empty separator: `skip` characters
of a separator just found are still to be passed over, `cur` is the current
field, reversed. -/
def Split.go (sep : List Char) : Nat → List Char → List Char → List (List Char)
  | _, [], cur => [cur.reverse]
  | skip + 1, _ :: cs, cur => Split.go sep skip cs cur
  | 0, c :: cs, cur =>
    if sep.isPrefixOf (c :: cs) then cur.reverse :: Split.go sep (sep.length - 1) cs []
    else Split.go sep 0 cs (c :: cur)

/-- Go function `strings.Split`. -/
def Split (s sep : String) : List String :=
  if sep.data.isEmpty then s.data.map (fun c => String.singleton c)
  else (Split.go sep.data 0 s.data []).map String.mk

/-- Go function `strconv.Atoi` (64-bit `int`): an optional sign and at least
one decimal digit, within the range of `int`; `none` is an error. -/
def Atoi (s : String) : Option Int :=
  match s.data with
  | [] => none
  | c :: rest =>
    let digits := if c = '-' ∨ c = '+' then rest else c :: rest
    if digits.isEmpty || !digits.all Char.isDigit then none
    else
      let n : Int := digits.foldl (fun n ch => n * 10 + ((ch.toNat : Int) - 48)) 0
      if c = '-' then (if n ≤ 9223372036854775808 then some (-n) else none)
      else (if n ≤ 9223372036854775807 then some n else none)

/-- The scan of `strings.ReplaceAll` for a non-empty `old`: `skip` characters
of an occurrence just replaced are still to be passed over. -/
def ReplaceAll.go (old new : List Char) : Nat → List Char → List Char
  | _, [] => []
  | skip + 1, _ :: cs => ReplaceAll.go old new skip cs
  | 0, c :: cs =>
    if old.isPrefixOf (c :: cs) then new ++ ReplaceAll.go old new (old.length - 1) cs
    else c :: ReplaceAll.go old new 0 cs

/-- Go function `strings.ReplaceAll`: the non-overlapping occurrences of `old`
are replaced from left to right; an empty `old` matches before every character
and at the end. -/
def ReplaceAll (s old new : String) : String :=
  if old.data.isEmpty then
    ⟨new.data ++ (s.data.map (fun c => c :: new.data)).flatten⟩
  else ⟨ReplaceAll.go old.data new.data 0 s.data⟩

/-- Go function `strings.Contains`. -/
def Contains (s substr : String) : Prop :=
  substr.data <:+: s.data

/-- Go function `strings.TrimLeft`. -/
def TrimLeft (s cutset : String) : String :=
  ⟨s.data.dropWhile (fun c => cutset.data.contains c)⟩

/-- Go function `strings.HasPrefix`. -/
def HasPrefix (s pre : String) : Bool :=
  pre.data.isPrefixOf s.data

/-- The value of a hexadecimal digit (`unhex` of `net/url`). -/
def unhex (c : Char) : Nat :=
  if '0' ≤ c ∧ c ≤ '9' then c.toNat - 48
  else if 'a' ≤ c ∧ c ≤ 'f' then c.toNat - 97 + 10
  else if 'A' ≤ c ∧ c ≤ 'F' then c.toNat - 65 + 10
  else 0

/-- Whether a character is a hexadecimal digit (`ishex` of `net/url`). -/
def ishex (c : Char) : Bool :=
  ('0' ≤ c ∧ c ≤ '9') || ('a' ≤ c ∧ c ≤ 'f') || ('A' ≤ c ∧ c ≤ 'F')

/-- The scan of `url.QueryUnescape`: `%XX` becomes the character with that
code, `+` becomes a blank; `none` when a `%` is not followed by two
hexadecimal digits. -/
def queryUnescape.go : List Char → Option (List Char)
  | [] => some []
  | c :: rest =>
    if c = '%' then
      match rest with
      | h1 :: h2 :: rest1 =>
        if ishex h1 && ishex h2 then
          (queryUnescape.go rest1).map (fun l => Char.ofNat (unhex h1 * 16 + unhex h2) :: l)
        else none
      | _ => none
    else if c = '+' then (queryUnescape.go rest).map (fun l => ' ' :: l)
    else (queryUnescape.go rest).map (fun l => c :: l)

/-- Go function `url.QueryUnescape`, exact where the escapes stand for ASCII
characters (an escaped byte above 127 is kept as the character with that code). -/
def queryUnescape (s : String) : Except GoError String :=
  match queryUnescape.go s.data with
  | some l => .ok ⟨l⟩
  | none => .error "invalid URL escape"

/-! ## sources/commoncrawl.go: helpers -/

/-- Go function `parseCommonCrawlYear`. -/
def parseCommonCrawlYear (id : String) : Int :=
  let parts := Split id "-"
  if parts.length ≥ 3 then
    match Atoi (parts.getD 2 "") with
    | some year => if year ≥ 2000 ∧ year ≤ 2100 then year else 0
    | none => 0
  else 0

/-- Go function `decodeCommonCrawlURL`, over the library function
`url.QueryUnescape`. -/
def decodeCommonCrawlURL (QueryUnescape : String → Except GoError String) (raw : String) :
    String :=
  let decoded := match QueryUnescape raw with
    | .ok decoded => decoded
    | .error _ => raw
  let decoded := ReplaceAll decoded "%25" "%"
  let decoded := ReplaceAll decoded "%2f" "/"
  let decoded := ReplaceAll decoded "%2F" "/"
  decoded

/-- The year of an index id in the words of the specification: the value of
the third `-`-separated field when it is a decimal integer from 2000 to 2100,
and 0 in every other case. -/
def yearOfThirdField (id : String) : Int :=
  match (Split id "-").get? 2 with
  | none => 0
  | some field =>
    match Atoi field with
    | none => 0
    | some n => if 2000 ≤ n ∧ n ≤ 2100 then n else 0

/-! ## sources: what an adapter runs against -/

/-- The answer to one `client.Do(req)`: an error, or a response with its
status code and its body. -/
inductive Reply where
  | failed (err : GoError)
  | response (StatusCode : Int) (Body : String)
  deriving DecidableEq, Repr

/-- Go type `*SubdomainExtractor`, by its method `Extract`. -/
abbrev SubdomainExtractor := String → List String

/-- Go struct `thcRequest`. -/
structure thcRequest where
  Domain : String
  PageState : String
  Limit : Int
  deriving DecidableEq, Repr

/-- Go struct `thcResponse`. -/
structure thcResponse where
  Domains : List String
  NextPageState : String
  deriving DecidableEq, Repr

/-- Go struct `ccIndex`. -/
structure ccIndex where
  id : String
  cdxAPI : String
  year : Int
  deriving DecidableEq, Repr

/-- What a run of an adapter depends on besides the adapter's code: the
constructor of the extractor, the answers of the upstream and the standard
library. -/
structure Upstream extends GoEnv where
  /-- Go function `NewSubdomainExtractor` of package `sources`. -/
  NewSubdomainExtractor : String → Except GoError SubdomainExtractor
  /-- The error of `http.NewRequestWithContext` for a method, a URL and a body
  (`none` is a nil body), if any. -/
  NewRequestWithContext : Context → String → String → Option String → Option GoError
  /-- The answers to the successive calls of `client.Do` during the run. The
  run is followed until it makes a call beyond them. -/
  Do : Context → Client → List Reply
  /-- Go expression `time.Now().Year()`. -/
  Year : Int
  /-- Go function `url.QueryUnescape`. -/
  QueryUnescape : String → Except GoError String
  /-- A `bufio.Scanner` over a body: the texts of the successful `Scan` calls
  and the final `Err()`. -/
  Scan : String → List String × Option GoError
  /-- Go function `io.ReadAll` on a body. -/
  ReadAll : String → Except GoError String
  /-- Go function `json.Marshal` on a `thcRequest`. -/
  Marshal : thcRequest → Except GoError String
  /-- `json.Decoder.Decode` into the response struct of `runAlienVault`: the
  `url` fields of `url_list`, and `has_next`. -/
  DecodeURLList : String → Except GoError (List String × Bool)
  /-- `json.Decoder.Decode` into a `[]string` (`runAnubis`). -/
  DecodeStrings : String → Except GoError (List String)
  /-- `json.Decoder.Decode` into the records of `fetchCommonCrawlIndexes`: the
  fields `id` and `cdx-api`. -/
  DecodeCollinfo : String → Except GoError (List (String × String))
  /-- `json.Decoder.Decode` into the records of `runCrtSh`: the `name_value`
  fields. -/
  DecodeRecords : String → Except GoError (List String)
  /-- `json.Decoder.Decode` into the response struct of `runHudsonRock`: the
  `url` fields of `employees_urls` and of `clients_urls`. -/
  DecodeHudsonRock : String → Except GoError (List String × List String)
  /-- `json.Decoder.Decode` into the response struct of `runReconeer`: the
  `subdomain` fields. -/
  DecodeReconeer : String → Except GoError (List String)
  /-- `json.Decoder.Decode` into a `thcResponse`. -/
  DecodeTHC : String → Except GoError thcResponse
  /-- `rapidDNSPagePattern.FindAllStringSubmatch(body, -1)`. -/
  FindAllStringSubmatch : String → List (List String)
  /-- `siteDossierNextPattern.FindStringSubmatch(body)`. -/
  FindStringSubmatch : String → List String

/-- The item of `yield(Result{}, err)`. -/
def yieldError (err : GoError) : resultItem :=
  ⟨default, some err⟩

/-- The item of `yield(Result{Type: kind, Value: value, Source: source}, nil)`. -/
def yieldResult (kind : ResultType) (value source : String) : resultItem :=
  ⟨⟨kind, value, source⟩, none⟩

/-! ## sources/alienvault.go

In the adapters `ctx.Err() != nil` is `ctx.done`, and a run is the list of
the items it yields to a caller that never stops it. -/

/-- The loop over the pages of `runAlienVault` (alienvault.go, lines 30-93). -/
def runAlienVault.pages (up : Upstream) (ctx : Context) (domain : String)
    (extractor : SubdomainExtractor) : Nat → List Reply → List resultItem
  | page, replies =>
    if ctx.done then []
    else
      let url := "https://otx.alienvault.com/api/v1/indicators/domain/" ++ domain ++
        "/url_list?page=" ++ toString page
      match up.NewRequestWithContext ctx "GET" url none with
      | some err => [yieldError ("alienvault: " ++ err)]
      | none =>
        match replies with
        | [] => []
        | .failed err :: _ => [yieldError ("alienvault: " ++ err)]
        | .response StatusCode Body :: rest =>
          if StatusCode ≠ 200 then
            [yieldError ("alienvault: unexpected status " ++ toString StatusCode)]
          else
            match up.DecodeURLList Body with
            | .error err => [yieldError ("alienvault: " ++ err)]
            | .ok response =>
              (response.1.flatMap (fun u =>
                if u = "" then []
                else yieldResult URL u "alienvault" ::
                  (extractor u).map (fun sub => yieldResult Subdomain sub "alienvault"))) ++
              (if !response.2 then []
               else runAlienVault.pages up ctx domain extractor (page + 1) rest)

/-- Go function `runAlienVault`. -/
def runAlienVault (up : Upstream) (ctx : Context) (client : Client) (domain : String)
    (_ : String) : List resultItem :=
  match up.NewSubdomainExtractor domain with
  | .error err => [yieldError ("alienvault: " ++ err)]
  | .ok extractor => runAlienVault.pages up ctx domain extractor 1 (up.Do ctx client)

/-- Go variable `AlienVault`. -/
def AlienVault (up : Upstream) : Source :=
  { Name := "alienvault", Yields := Subdomain ||| URL, Run := runAlienVault up }

/-! ## sources/anubis.go -/

/-- Go function `runAnubis`. -/
def runAnubis (up : Upstream) (ctx : Context) (client : Client) (domain : String)
    (_ : String) : List resultItem :=
  let url := "https://jonlu.ca/anubis/subdomains/" ++ domain
  match up.NewRequestWithContext ctx "GET" url none with
  | some err => [yieldError ("anubis: " ++ err)]
  | none =>
    match up.Do ctx client with
    | [] => []
    | .failed err :: _ => [yieldError ("anubis: " ++ err)]
    | .response StatusCode Body :: _ =>
      if StatusCode ≠ 200 then
        [yieldError ("anubis: unexpected status " ++ toString StatusCode)]
      else
        match up.DecodeStrings Body with
        | .error err => [yieldError ("anubis: " ++ err)]
        | .ok subdomains => subdomains.map (fun sub => yieldResult Subdomain sub "anubis")

/-- Go variable `Anubis`. -/
def Anubis (up : Upstream) : Source :=
  { Name := "anubis", Yields := Subdomain, Run := runAnubis up }

/-! ## sources/commoncrawl.go -/

/-- Go function `fetchCommonCrawlIndexes`, for the answer to its request; `none`
when the run is not followed up to the answer. -/
def fetchCommonCrawlIndexes (up : Upstream) (ctx : Context) (reply : Option Reply) :
    Option (Except GoError (List ccIndex)) :=
  match up.NewRequestWithContext ctx "GET" "https://index.commoncrawl.org/collinfo.json" none with
  | some err => some (.error err)
  | none =>
    match reply with
    | none => none
    | some (.failed err) => some (.error err)
    | some (.response StatusCode Body) =>
      if StatusCode ≠ 200 then some (.error ("unexpected status " ++ toString StatusCode))
      else
        match up.DecodeCollinfo Body with
        | .error err => some (.error err)
        | .ok raw =>
          some (.ok (raw.filterMap (fun r =>
            let year := parseCommonCrawlYear r.1
            if year > 0 then some { id := r.1, cdxAPI := r.2, year := year } else none)))

/-- The loop over the recent indexes of `runCommonCrawl` (commoncrawl.go,
lines 56-113). -/
def runCommonCrawl.indexes (up : Upstream) (ctx : Context) (domain : String)
    (extractor : SubdomainExtractor) : List ccIndex → List Reply → List resultItem
  | [], _ => []
  | idx :: more, replies =>
    if ctx.done then []
    else
      let endpoint := idx.cdxAPI ++ "?url=*." ++ domain ++ "&output=text&fl=url"
      match up.NewRequestWithContext ctx "GET" endpoint none with
      | some err => [yieldError ("commoncrawl: " ++ err)]
      | none =>
        match replies with
        | [] => []
        | .failed err :: _ => [yieldError ("commoncrawl: index " ++ idx.id ++ ": " ++ err)]
        | .response StatusCode Body :: rest =>
          if StatusCode ≠ 200 then runCommonCrawl.indexes up ctx domain extractor more rest
          else
            ((up.Scan Body).1.flatMap (fun text =>
              let line := up.TrimSpace text
              if line = "" then []
              else
                let decoded := decodeCommonCrawlURL up.QueryUnescape line
                if decoded = "" then []
                else yieldResult URL decoded "commoncrawl" ::
                  (extractor decoded).map (fun sub =>
                    yieldResult Subdomain sub "commoncrawl"))) ++
            (match (up.Scan Body).2 with
             | some err => [yieldError ("commoncrawl: " ++ err)]
             | none => runCommonCrawl.indexes up ctx domain extractor more rest)

/-- Go function `runCommonCrawl`. -/
def runCommonCrawl (up : Upstream) (ctx : Context) (client : Client) (domain : String)
    (_ : String) : List resultItem :=
  match fetchCommonCrawlIndexes up ctx (up.Do ctx client).head? with
  | none => []
  | some (.error err) => [yieldError ("commoncrawl: " ++ err)]
  | some (.ok indexes) =>
    let cutoffYear := up.Year - 2
    let recentIndexes := indexes.filter (fun idx => idx.year ≥ cutoffYear)
    if recentIndexes.length = 0 then []
    else
      match up.NewSubdomainExtractor domain with
      | .error err => [yieldError ("commoncrawl: " ++ err)]
      | .ok extractor =>
        runCommonCrawl.indexes up ctx domain extractor recentIndexes (up.Do ctx client).tail

/-- Go variable `CommonCrawl`. -/
def CommonCrawl (up : Upstream) : Source :=
  { Name := "commoncrawl", Yields := Subdomain ||| URL, Run := runCommonCrawl up }

/-! ## sources/crtsh.go -/

/-- Go function `runCrtSh`. -/
def runCrtSh (up : Upstream) (ctx : Context) (client : Client) (domain : String)
    (_ : String) : List resultItem :=
  let url := "https://crt.sh/?q=%25." ++ domain ++ "&output=json"
  match up.NewRequestWithContext ctx "GET" url none with
  | some err => [yieldError ("crtsh: " ++ err)]
  | none =>
    match up.Do ctx client with
    | [] => []
    | .failed err :: _ => [yieldError ("crtsh: " ++ err)]
    | .response StatusCode Body :: _ =>
      if StatusCode ≠ 200 then
        [yieldError ("crtsh: unexpected status " ++ toString StatusCode)]
      else
        match up.DecodeRecords Body with
        | .error err => [yieldError ("crtsh: " ++ err)]
        | .ok records =>
          match up.NewSubdomainExtractor domain with
          | .error err => [yieldError ("crtsh: " ++ err)]
          | .ok extractor =>
            records.flatMap (fun NameValue =>
              (Split NameValue "\n").flatMap (fun line =>
                let line := up.TrimSpace line
                if line = "" then []
                else (extractor line).map (fun sub => yieldResult Subdomain sub "crtsh")))

/-- Go variable `CrtSh`. -/
def CrtSh (up : Upstream) : Source :=
  { Name := "crtsh", Yields := Subdomain, Run := runCrtSh up }

/-! ## sources/digitorus.go -/

/-- Go function `runDigitorus`. -/
def runDigitorus (up : Upstream) (ctx : Context) (client : Client) (domain : String)
    (_ : String) : List resultItem :=
  let url := "https://certificatedetails.com/" ++ domain
  match up.NewRequestWithContext ctx "GET" url none with
  | some err => [yieldError ("digitorus: " ++ err)]
  | none =>
    match up.Do ctx client with
    | [] => []
    | .failed err :: _ => [yieldError ("digitorus: " ++ err)]
    | .response StatusCode Body :: _ =>
      if StatusCode ≠ 200 ∧ StatusCode ≠ 404 then
        [yieldError ("digitorus: unexpected status " ++ toString StatusCode)]
      else
        match up.NewSubdomainExtractor domain with
        | .error err => [yieldError ("digitorus: " ++ err)]
        | .ok extractor =>
          ((up.Scan Body).1.flatMap (fun text =>
            let line := up.TrimSpace text
            if line = "" then []
            else (extractor text).map (fun sub =>
              let sub := TrimLeft sub "."
              yieldResult Subdomain sub "digitorus"))) ++
          (match (up.Scan Body).2 with
           | some err => [yieldError ("digitorus: " ++ err)]
           | none => [])

/-- Go variable `Digitorus`. -/
def Digitorus (up : Upstream) : Source :=
  { Name := "digitorus", Yields := Subdomain, Run := runDigitorus up }

/-! ## sources/hackertarget.go -/

/-- Go function `runHackerTarget`. -/
def runHackerTarget (up : Upstream) (ctx : Context) (client : Client) (domain : String)
    (apiKey : String) : List resultItem :=
  let url := "https://api.hackertarget.com/hostsearch/?q=" ++ domain
  let url := if apiKey ≠ "" then url ++ ("&apikey=" ++ apiKey) else url
  match up.NewRequestWithContext ctx "GET" url none with
  | some err => [yieldError ("hackertarget: " ++ err)]
  | none =>
    match up.Do ctx client with
    | [] => []
    | .failed err :: _ => [yieldError ("hackertarget: " ++ err)]
    | .response StatusCode Body :: _ =>
      if StatusCode ≠ 200 then
        [yieldError ("hackertarget: unexpected status " ++ toString StatusCode)]
      else
        match up.NewSubdomainExtractor domain with
        | .error err => [yieldError ("hackertarget: " ++ err)]
        | .ok extractor =>
          ((up.Scan Body).1.flatMap (fun text =>
            let line := up.TrimSpace text
            if line = "" then []
            else (extractor line).map (fun sub => yieldResult Subdomain sub "hackertarget"))) ++
          (match (up.Scan Body).2 with
           | some err => [yieldError ("hackertarget: " ++ err)]
           | none => [])

/-- Go variable `HackerTarget`. -/
def HackerTarget (up : Upstream) : Source :=
  { Name := "hackertarget", Yields := Subdomain, Run := runHackerTarget up }

/-! ## sources/hudsonrock.go -/

/-- Go function `runHudsonRock`. -/
def runHudsonRock (up : Upstream) (ctx : Context) (client : Client) (domain : String)
    (_ : String) : List resultItem :=
  let endpoint :=
    "https://cavalier.hudsonrock.com/api/json/v2/osint-tools/urls-by-domain?domain=" ++ domain
  match up.NewRequestWithContext ctx "GET" endpoint none with
  | some err => [yieldError ("hudsonrock: " ++ err)]
  | none =>
    match up.Do ctx client with
    | [] => []
    | .failed err :: _ => [yieldError ("hudsonrock: " ++ err)]
    | .response StatusCode Body :: _ =>
      if StatusCode ≠ 200 then
        [yieldError ("hudsonrock: unexpected status " ++ toString StatusCode)]
      else
        match up.DecodeHudsonRock Body with
        | .error err => [yieldError ("hudsonrock: " ++ err)]
        | .ok response =>
          match up.NewSubdomainExtractor domain with
          | .error err => [yieldError ("hudsonrock: " ++ err)]
          | .ok extractor =>
            let allURLs := response.1 ++ response.2
            allURLs.flatMap (fun u =>
              let u := up.TrimSpace u
              if u = "" then []
              else yieldResult URL u "hudsonrock" ::
                (extractor u).map (fun sub => yieldResult Subdomain sub "hudsonrock"))

/-- Go variable `HudsonRock`. -/
def HudsonRock (up : Upstream) : Source :=
  { Name := "hudsonrock", Yields := Subdomain ||| URL, Run := runHudsonRock up }

/-! ## sources/rapiddns.go -/

/-- Go function `fetchRapidDNSPage`, for the answer to its request; `none`
when the run is not followed up to the answer. -/
def fetchRapidDNSPage (up : Upstream) (ctx : Context) (domain : String) (page : Int)
    (reply : Option Reply) : Option (Except GoError (String × Int)) :=
  let url := "https://rapiddns.io/subdomain/" ++ domain ++ "?page=" ++ toString page ++ "&full=1"
  match up.NewRequestWithContext ctx "GET" url none with
  | some err => some (.error err)
  | none =>
    match reply with
    | none => none
    | some (.failed err) => some (.error err)
    | some (.response StatusCode Body) =>
      if StatusCode ≠ 200 then some (.error ("unexpected status " ++ toString StatusCode))
      else
        match up.ReadAll Body with
        | .error err => some (.error err)
        | .ok body =>
          let maxPage := (up.FindAllStringSubmatch body).foldl (fun (maxPage : Int) m =>
            if m.length ≥ 2 then
              match Atoi (m.getD 1 "") with
              | some p => if p > maxPage then p else maxPage
              | none => maxPage
            else maxPage) 1
          some (.ok (body, maxPage))

/-- The loop over the remaining pages of `runRapidDNS` (rapiddns.go, lines
49-65), with the number of pages from `page` to `maxPage`. -/
def runRapidDNS.pages (up : Upstream) (ctx : Context) (domain : String)
    (extractor : SubdomainExtractor) : Nat → Int → List Reply → List resultItem
  | 0, _, _ => []
  | remaining + 1, page, replies =>
    if ctx.done then []
    else
      match fetchRapidDNSPage up ctx domain page replies.head? with
      | none => []
      | some (.error err) => [yieldError ("rapiddns: page " ++ toString page ++ ": " ++ err)]
      | some (.ok fetched) =>
        (extractor fetched.1).map (fun sub => yieldResult Subdomain sub "rapiddns") ++
        runRapidDNS.pages up ctx domain extractor remaining (page + 1) replies.tail

/-- Go function `runRapidDNS`. -/
def runRapidDNS (up : Upstream) (ctx : Context) (client : Client) (domain : String)
    (_ : String) : List resultItem :=
  match up.NewSubdomainExtractor domain with
  | .error err => [yieldError ("rapiddns: " ++ err)]
  | .ok extractor =>
    match fetchRapidDNSPage up ctx domain 1 (up.Do ctx client).head? with
    | none => []
    | some (.error err) => [yieldError ("rapiddns: " ++ err)]
    | some (.ok fetched) =>
      (extractor fetched.1).map (fun sub => yieldResult Subdomain sub "rapiddns") ++
      runRapidDNS.pages up ctx domain extractor (fetched.2 - 1).toNat 2 (up.Do ctx client).tail

/-- Go variable `RapidDNS`. -/
def RapidDNS (up : Upstream) : Source :=
  { Name := "rapiddns", Yields := Subdomain, Run := runRapidDNS up }

/-! ## sources/reconeer.go -/

/-- Go function `runReconeer`. -/
def runReconeer (up : Upstream) (ctx : Context) (client : Client) (domain : String)
    (_ : String) : List resultItem :=
  let url := "https://www.reconeer.com/api/domain/" ++ domain
  match up.NewRequestWithContext ctx "GET" url none with
  | some err => [yieldError ("reconeer: " ++ err)]
  | none =>
    match up.Do ctx client with
    | [] => []
    | .failed err :: _ => [yieldError ("reconeer: " ++ err)]
    | .response StatusCode Body :: _ =>
      if StatusCode ≠ 200 then
        [yieldError ("reconeer: unexpected status " ++ toString StatusCode)]
      else
        match up.DecodeReconeer Body with
        | .error err => [yieldError ("reconeer: " ++ err)]
        | .ok subdomains =>
          subdomains.flatMap (fun s =>
            if s = "" then [] else [yieldResult Subdomain s "reconeer"])

/-- Go variable `Reconeer`. -/
def Reconeer (up : Upstream) : Source :=
  { Name := "reconeer", Yields := Subdomain, Run := runReconeer up }

/-! ## sources/sitedossier.go -/

/-- Go function `fetchSiteDossierPage`, for the answer to its request; `none`
when the run is not followed up to the answer. -/
def fetchSiteDossierPage (up : Upstream) (ctx : Context) (url : String)
    (reply : Option Reply) : Option (Except GoError (String × String)) :=
  match up.NewRequestWithContext ctx "GET" url none with
  | some err => some (.error err)
  | none =>
    match reply with
    | none => none
    | some (.failed err) => some (.error err)
    | some (.response StatusCode Body) =>
      if StatusCode ≠ 200 then some (.error ("unexpected status " ++ toString StatusCode))
      else
        match up.ReadAll Body with
        | .error err => some (.error err)
        | .ok body =>
          let submatch := up.FindStringSubmatch body
          let nextPath := if submatch.length ≥ 2 then submatch.getD 1 "" else ""
          some (.ok (body, nextPath))

/-- The loop over the pages of `runSiteDossier` (sitedossier.go, lines 36-60). -/
def runSiteDossier.pages (up : Upstream) (ctx : Context) (extractor : SubdomainExtractor) :
    String → List Reply → List resultItem
  | currentURL, replies =>
    if currentURL = "" then []
    else if ctx.done then []
    else
      match fetchSiteDossierPage up ctx currentURL replies.head? with
      | none => []
      | some (.error err) => [yieldError ("sitedossier: " ++ err)]
      | some (.ok fetched) =>
        (extractor fetched.1).map (fun sub => yieldResult Subdomain sub "sitedossier") ++
        (match replies with
         | [] => []
         | _ :: rest =>
           runSiteDossier.pages up ctx extractor
             (if fetched.2 ≠ "" then "http://www.sitedossier.com" ++ fetched.2 else "") rest)

/-- Go function `runSiteDossier`. -/
def runSiteDossier (up : Upstream) (ctx : Context) (client : Client) (domain : String)
    (_ : String) : List resultItem :=
  match up.NewSubdomainExtractor domain with
  | .error err => [yieldError ("sitedossier: " ++ err)]
  | .ok extractor =>
    runSiteDossier.pages up ctx extractor ("http://www.sitedossier.com/parentdomain/" ++ domain)
      (up.Do ctx client)

/-- Go variable `SiteDossier`. -/
def SiteDossier (up : Upstream) : Source :=
  { Name := "sitedossier", Yields := Subdomain, Run := runSiteDossier up }

/-! ## sources/thc.go -/

/-- The loop over the pages of `runTHC` (thc.go, lines 40-99). -/
def runTHC.pages (up : Upstream) (ctx : Context) (domain : String) :
    String → List Reply → List resultItem
  | pageState, replies =>
    if ctx.done then []
    else
      let reqBody : thcRequest := { Domain := domain, PageState := pageState, Limit := 1000 }
      match up.Marshal reqBody with
      | .error err => [yieldError ("thc: " ++ err)]
      | .ok bodyBytes =>
        match up.NewRequestWithContext ctx "POST"
            "https://ip.thc.org/api/v1/lookup/subdomains" (some bodyBytes) with
        | some err => [yieldError ("thc: " ++ err)]
        | none =>
          match replies with
          | [] => []
          | .failed err :: _ => [yieldError ("thc: " ++ err)]
          | .response StatusCode Body :: rest =>
            if StatusCode ≠ 200 then
              [yieldError ("thc: unexpected status " ++ toString StatusCode)]
            else
              match up.DecodeTHC Body with
              | .error err => [yieldError ("thc: " ++ err)]
              | .ok response =>
                (response.Domains.flatMap (fun d =>
                  if d = "" then [] else [yieldResult Subdomain d "thc"])) ++
                (if response.NextPageState = "" then []
                 else runTHC.pages up ctx domain response.NextPageState rest)

/-- Go function `runTHC`. -/
def runTHC (up : Upstream) (ctx : Context) (client : Client) (domain : String)
    (_ : String) : List resultItem :=
  runTHC.pages up ctx domain "" (up.Do ctx client)

/-- Go variable `THC`. -/
def THC (up : Upstream) : Source :=
  { Name := "thc", Yields := Subdomain, Run := runTHC up }

/-! ## sources: the registered adapters -/

/-- The adapters whose `init` functions call `Register`, in the order of
their files. -/
def adapters (up : Upstream) : List Source :=
  [AlienVault up, Anubis up, CommonCrawl up, CrtSh up, Digitorus up, HackerTarget up,
   HudsonRock up, RapidDNS up, Reconeer up, SiteDossier up, THC up]

/-- The registry after the `init` functions of package `sources`. -/
def registered (up : Upstream) : Registry :=
  (adapters up).foldl Register GoMap.empty

/-- The adapters that build a subdomain extractor. -/
def extracting (up : Upstream) : List Source :=
  [AlienVault up, CommonCrawl up, CrtSh up, Digitorus up, HackerTarget up, HudsonRock up,
   RapidDNS up, SiteDossier up]

/-! ## sources: vocabulary of the adapter contracts -/

/-- An item carries the attribution of the adapter `name` with the declared
kinds `yields`: an error has a message that begins with the name and `": "`
and comes with the empty result; a result has one kind, contained in
`yields`, and the name as its source. -/
def Attributed (name : String) (yields : ResultType) (item : resultItem) : Prop :=
  match item.err with
  | some e => HasPrefix e (name ++ ": ") = true ∧ item.result = default
  | none =>
    (item.result.Kind = Subdomain ∨ item.result.Kind = URL) ∧
    item.result.Kind &&& yields = item.result.Kind ∧ item.result.Source = name

/-- A sample of the surroundings: no request fails to build, no answer comes,
the extractor finds nothing and every body decodes to nothing. -/
def quietUpstream : Upstream :=
  { toGoEnv := asciiEnv
    NewSubdomainExtractor := fun _ => .ok (fun _ => [])
    NewRequestWithContext := fun _ _ _ _ => none
    Do := fun _ _ => []
    Year := 2026
    QueryUnescape := queryUnescape
    Scan := fun body => (Split body "\n", none)
    ReadAll := fun body => .ok body
    Marshal := fun _ => .ok ""
    DecodeURLList := fun _ => .ok ([], false)
    DecodeStrings := fun _ => .ok []
    DecodeCollinfo := fun _ => .ok []
    DecodeRecords := fun _ => .ok []
    DecodeHudsonRock := fun _ => .ok ([], [])
    DecodeReconeer := fun _ => .ok []
    DecodeTHC := fun _ => .ok { Domains := [], NextPageState := "" }
    FindAllStringSubmatch := fun _ => []
    FindStringSubmatch := fun _ => [] }

/-- A sample of the surroundings: the constructor of the extractor gives
`extractor` for every domain, and the upstream gives the answers `replies`. -/
def sampleUpstream (extractor : Except GoError SubdomainExtractor) (replies : List Reply) :
    Upstream :=
  { quietUpstream with
    NewSubdomainExtractor := fun _ => extractor
    Do := fun _ _ => replies }

/-- A sample of the surroundings: HudsonRock answers with one employee URL,
and the extractor finds the host of the URL. -/
def hudsonRockUpstream : Upstream :=
  { quietUpstream with
    NewSubdomainExtractor := fun _ => .ok (fun text =>
      if text = "https://api.example.com/login" then ["api.example.com"] else [])
    Do := fun _ _ =>
      [.response 200
        "\x7b\"data\":\x7b\"employees_urls\":[\x7b\"url\":\"https://api.example.com/login\"\x7d]\x7d\x7d"]
    DecodeHudsonRock := fun _ => .ok (["https://api.example.com/login"], []) }

/-- The client of the adapters' tests: `&http.Client{Timeout: 30 * time.Second}`. -/
def testClient : Client :=
  { Transport := none, CheckRedirect := none, Jar := none, Timeout := 30000000000 }

/-! ## sources: the first exchange of an adapter, in the words of the contract -/

/-- The error of a library call that returns a value and an error, `none`
when the call succeeds. -/
def errorOf {α : Type} : Except GoError α → Option GoError
  | .error err => some err
  | .ok _ => none

/-- The first HTTP exchange of an adapter, in the words of the adapters'
contract: `none` while the upstream has not answered, `some (some err)` when
the exchange fails with the error `err` (the request cannot be built, the call
fails, the status is not accepted, or the body does not decode), and
`some none` when the exchange succeeds. -/
def firstExchange (requestError : Option GoError) (replies : List Reply)
    (accepted : Int → Bool) (decodeError : String → Option GoError) :
    Option (Option GoError) :=
  match requestError with
  | some err => some (some err)
  | none =>
    match replies with
    | [] => none
    | .failed err :: _ => some (some err)
    | .response StatusCode Body :: _ =>
      if accepted StatusCode then some (decodeError Body)
      else some (some ("unexpected status " ++ toString StatusCode))

/-- The run of the adapter `name` that builds its extractor after its first
exchange, for a domain the constructor rejects with `e`, in the words of the
contract: nothing before the answer, the error of a failed exchange, and the
construction error after a successful exchange; each as the only item. -/
def rejectedRun (name : String) (e : GoError) : Option (Option GoError) → List resultItem
  | none => []
  | some (some err) => [yieldError (name ++ ": " ++ err)]
  | some none => [yieldError (name ++ ": " ++ e)]

/-- A sample of the surroundings: the upstream answers 200 with `body`, a list
of names that holds the empty name and `a.example.com`, in the form the
adapter at hand decodes. -/
def emptyNameUpstream (body : String) : Upstream :=
  { quietUpstream with
    Do := fun _ _ => [.response 200 body]
    DecodeStrings := fun _ => .ok ["", "a.example.com"]
    DecodeReconeer := fun _ => .ok ["", "a.example.com"]
    DecodeTHC := fun _ => .ok { Domains := ["", "a.example.com"], NextPageState := "" } }

/-! ## The delivery loop -/

theorem deliver_nil {σ : Type} (env : GoEnv) (yield : Yield Result σ) (d : deduplicator)
    (s : σ) : deliver env yield [] d s =
      { trace := [], caller := s, dedupe := d, received := 0, stopped := false } := rfl

theorem deliver_err {σ : Type} (env : GoEnv) (yield : Yield Result σ) (res : Result)
    (e : GoError) (rest : List resultItem) (d : deduplicator) (s : σ) :
    deliver env yield (⟨res, some e⟩ :: rest) d s =
      if !(yield s default (some e)).1 then
        { trace := [⟨default, some e, false⟩], caller := (yield s default (some e)).2,
          dedupe := d, received := 1, stopped := true }
      else
        (deliver env yield rest d (yield s default (some e)).2).after
          (some ⟨default, some e, true⟩) := rfl

theorem deliver_ok {σ : Type} (env : GoEnv) (yield : Yield Result σ) (res : Result)
    (rest : List resultItem) (d : deduplicator) (s : σ) :
    deliver env yield (⟨res, none⟩ :: rest) d s =
      if (d.seen env res.Value).1 then
        (deliver env yield rest (d.seen env res.Value).2 s).after none
      else if !(yield s res none).1 then
        { trace := [⟨res, none, false⟩], caller := (yield s res none).2,
          dedupe := (d.seen env res.Value).2, received := 1, stopped := true }
      else
        (deliver env yield rest (d.seen env res.Value).2 (yield s res none).2).after
          (some ⟨res, none, true⟩) := rfl

theorem seen_fst (env : GoEnv) (d : deduplicator) (v : String) :
    (d.seen env v).1 = decide (dedupKey env v ∈ d.values) := by
  unfold deduplicator.seen dedupKey
  by_cases h : env.ToLower (env.TrimSpace v) ∈ d.values <;> simp [h]

theorem seen_snd_values (env : GoEnv) (d : deduplicator) (v : String) :
    (d.seen env v).2.values =
      if dedupKey env v ∈ d.values then d.values else d.values ++ [dedupKey env v] := by
  unfold deduplicator.seen dedupKey
  by_cases h : env.ToLower (env.TrimSpace v) ∈ d.values <;> simp [h]

theorem mem_seen_values (env : GoEnv) (d : deduplicator) (v k : String) :
    k ∈ (d.seen env v).2.values ↔ k ∈ d.values ∨ k = dedupKey env v := by
  rw [seen_snd_values]
  by_cases h : dedupKey env v ∈ d.values
  · simp only [h, if_true]
    constructor
    · exact Or.inl
    · rintro (h1 | h1)
      · exact h1
      · exact h1 ▸ h
  · simp [h]

@[simp] theorem after_trace {σ : Type} (call : Option (YieldCall Result)) (x : Delivery σ) :
    (x.after call).trace = call.toList ++ x.trace := rfl

@[simp] theorem after_received {σ : Type} (call : Option (YieldCall Result)) (x : Delivery σ) :
    (x.after call).received = x.received + 1 := rfl

@[simp] theorem after_dedupe {σ : Type} (call : Option (YieldCall Result)) (x : Delivery σ) :
    (x.after call).dedupe = x.dedupe := rfl

@[simp] theorem after_stopped {σ : Type} (call : Option (YieldCall Result)) (x : Delivery σ) :
    (x.after call).stopped = x.stopped := rfl

@[simp] theorem after_caller {σ : Type} (call : Option (YieldCall Result)) (x : Delivery σ) :
    (x.after call).caller = x.caller := rfl

theorem successes_cons_ok (res : Result) (b : Bool) (t : List (YieldCall Result)) :
    successes (⟨res, none, b⟩ :: t) = res :: successes t := by
  simp [successes]

theorem successes_cons_err (res : Result) (e : GoError) (b : Bool)
    (t : List (YieldCall Result)) :
    successes (⟨res, some e, b⟩ :: t) = successes t := by
  simp [successes]

/-- The successful results the delivery loop forwards have pairwise distinct
dedup keys, none of which was in the deduplicator before. -/
theorem deliver_keys {σ : Type} (env : GoEnv) (yield : Yield Result σ) :
    ∀ (arrived : List resultItem) (d : deduplicator) (s : σ),
      (successes (deliver env yield arrived d s).trace).Pairwise
          (fun r1 r2 => dedupKey env r1.Value ≠ dedupKey env r2.Value) ∧
        ∀ r ∈ successes (deliver env yield arrived d s).trace,
          dedupKey env r.Value ∉ d.values := by
  intro arrived
  induction arrived with
  | nil => intro d s; simp [deliver_nil, successes]
  | cons item rest ih =>
    intro d s
    obtain ⟨res, err⟩ := item
    cases err with
    | some e =>
      rw [deliver_err]
      by_cases hy : (yield s default (some e)).1
      · simp only [hy, Bool.not_true, Bool.false_eq_true, if_false, after_trace,
          Option.toList_some, List.singleton_append, successes_cons_err]
        exact ih d _
      · simp [hy, successes]
    | none =>
      rw [deliver_ok]
      by_cases hs : (d.seen env res.Value).1
      · have hd : (d.seen env res.Value).2 = d := by
          unfold deduplicator.seen at hs ⊢
          by_cases h : env.ToLower (env.TrimSpace res.Value) ∈ d.values <;> simp_all
        simp only [hs, if_true, after_trace, Option.toList_none, List.nil_append, hd]
        exact ih d s
      · have hk : dedupKey env res.Value ∉ d.values := by
          rw [seen_fst] at hs; simpa using hs
        by_cases hy : (yield s res none).1
        · simp only [hs, hy, Bool.not_true, Bool.false_eq_true, if_false, after_trace,
            Option.toList_some, List.singleton_append, successes_cons_ok]
          obtain ⟨h1, h2⟩ := ih (d.seen env res.Value).2 (yield s res none).2
          refine ⟨List.pairwise_cons.2 ⟨?_, h1⟩, ?_⟩
          · intro r hr heq
            exact h2 r hr ((mem_seen_values env d res.Value _).2 (Or.inr heq.symm))
          · intro r hr
            rcases List.mem_cons.1 hr with rfl | hr
            · exact hk
            · intro hmem
              exact h2 r hr ((mem_seen_values env d res.Value _).2 (Or.inl hmem))
        · simp only [hs, hy, Bool.not_false, if_true, Bool.false_eq_true, if_false,
            successes_cons_ok]
          simp [successes, hk]

theorem Query_trace (σ : Type) (env : GoEnv) (registry : Registry) (seed : Nat) (ctx : Context)
    (domain : String) (opts : List ScoutOption) (sched : List Event)
    (yield : Yield Result σ) (s : σ) :
    (Query env registry seed ctx domain opts sched yield s).trace =
      (deliver env yield (Query.arrived env registry seed ctx domain opts sched) {} s).trace := by
  unfold Query Query.iterator Query.arrived
  by_cases h : (configure env registry seed opts).Parallelism < 0
  · simp [h, deliver_nil]
  · simp [h]

/-- Every sequence of items is the arrival sequence of some call of `Query`:
one source that emits it, run with one slot. -/
theorem Query_arrived_any (env : GoEnv) (registry : Registry) (seed : Nat) (ctx : Context)
    (domain : String) (arrived : List resultItem) :
    Query.arrived env registry seed ctx domain
      [WithSources (some [⟨"any", Subdomain ||| URL, fun _ _ _ _ => arrived⟩]),
        WithParallelism 1] [] = arrived := by
  simp [Query.arrived, configure, WithSources, WithParallelism, arrivals, Sched.finish,
    Sched.waiting, sourceRun, sourceItems, List.range_succ, Goroutine.pending]

/-- C1: for every registry, option list (hence every set of sources), schedule
of the source goroutines (hence every arrival order) and caller, the successful
results one call of `Query` yields have pairwise distinct dedup keys
`lowercase(trim(Value))`; the same holds of the delivery loop on any arrival
sequence whatsoever. -/
theorem Query_yields_distinct_keys (σ : Type) (env : GoEnv) (yield : Yield Result σ) (s : σ) :
    (∀ (registry : Registry) (seed : Nat) (ctx : Context) (domain : String)
        (opts : List ScoutOption) (sched : List Event),
      (successes (Query env registry seed ctx domain opts sched yield s).trace).Pairwise
        (fun r1 r2 => env.ToLower (env.TrimSpace r1.Value) ≠
          env.ToLower (env.TrimSpace r2.Value))) ∧
    (∀ arrived : List resultItem,
      (successes (deliver env yield arrived {} s).trace).Pairwise
        (fun r1 r2 => env.ToLower (env.TrimSpace r1.Value) ≠
          env.ToLower (env.TrimSpace r2.Value))) := by
  refine ⟨?_, fun arrived => (deliver_keys env yield arrived {} s).1⟩
  intro registry seed ctx domain opts sched
  rw [Query_trace]
  exact (deliver_keys env yield _ {} s).1

theorem firstOccurrencesFrom_cons_err (env : GoEnv) (earlier : List resultItem) (res : Result)
    (e : GoError) (rest : List resultItem) :
    firstOccurrencesFrom env earlier (⟨res, some e⟩ :: rest) =
      firstOccurrencesFrom env (earlier ++ [⟨res, some e⟩]) rest := by
  simp [firstOccurrencesFrom]

theorem Tracks.snoc_err {env : GoEnv} {d : deduplicator} {earlier : List resultItem}
    (h : Tracks env d earlier) (res : Result) (e : GoError) :
    Tracks env d (earlier ++ [⟨res, some e⟩]) := by
  intro k
  rw [h k]
  constructor
  · rintro ⟨x, hx, h1, h2⟩
    exact ⟨x, List.mem_append_left _ hx, h1, h2⟩
  · rintro ⟨x, hx, h1, h2⟩
    rcases List.mem_append.1 hx with hx | hx
    · exact ⟨x, hx, h1, h2⟩
    · rw [List.mem_singleton] at hx
      subst hx
      cases h1

theorem Tracks.snoc_ok {env : GoEnv} {d : deduplicator} {earlier : List resultItem}
    (h : Tracks env d earlier) (res : Result) :
    Tracks env (d.seen env res.Value).2 (earlier ++ [⟨res, none⟩]) := by
  intro k
  rw [mem_seen_values, h k]
  constructor
  · rintro (⟨x, hx, h1, h2⟩ | rfl)
    · exact ⟨x, List.mem_append_left _ hx, h1, h2⟩
    · exact ⟨⟨res, none⟩, by simp, rfl, rfl⟩
  · rintro ⟨x, hx, h1, h2⟩
    rcases List.mem_append.1 hx with hx | hx
    · exact Or.inl ⟨x, hx, h1, h2⟩
    · rw [List.mem_singleton] at hx
      subst hx
      exact Or.inr h2.symm

theorem Tracks.seen_iff {env : GoEnv} {d : deduplicator} {earlier : List resultItem}
    (h : Tracks env d earlier) (res : Result) :
    (d.seen env res.Value).1 = true ↔
      ¬ ∀ e ∈ earlier,
        ¬ (e.err = none ∧ dedupKey env e.result.Value = dedupKey env res.Value) := by
  rw [seen_fst, decide_eq_true_iff, h]
  push_neg
  rfl

/-- Whatever the caller does, the successful results forwarded are the first
occurrences among the items received. -/
theorem deliver_successes {σ : Type} (env : GoEnv) (yield : Yield Result σ) :
    ∀ (arrived earlier : List resultItem) (d : deduplicator) (s : σ),
      Tracks env d earlier →
      successes (deliver env yield arrived d s).trace =
        firstOccurrencesFrom env earlier
          (arrived.take (deliver env yield arrived d s).received) := by
  intro arrived
  induction arrived with
  | nil => intro earlier d s _; simp [deliver_nil, successes, firstOccurrencesFrom]
  | cons item rest ih =>
    intro earlier d s hd
    obtain ⟨res, err⟩ := item
    cases err with
    | some e =>
      rw [deliver_err]
      by_cases hy : (yield s default (some e)).1
      · simp only [hy, Bool.not_true, Bool.false_eq_true, if_false, after_trace,
          Option.toList_some, List.singleton_append, successes_cons_err, after_received,
          List.take_succ_cons, firstOccurrencesFrom_cons_err]
        exact ih _ d _ (hd.snoc_err res e)
      · simp [hy, successes, firstOccurrencesFrom]
    | none =>
      rw [deliver_ok]
      have hiff := hd.seen_iff res
      by_cases hs : (d.seen env res.Value).1
      · have hcond := hiff.1 hs
        simp only [hs, if_true, after_trace, Option.toList_none, List.nil_append,
          after_received, List.take_succ_cons]
        rw [firstOccurrencesFrom, if_neg (fun h => hcond h.2)]
        exact ih _ _ s (hd.snoc_ok res)
      · have hcond : ∀ e ∈ earlier,
            ¬ (e.err = none ∧ dedupKey env e.result.Value = dedupKey env res.Value) := by
          by_contra hc
          exact hs (hiff.2 hc)
        by_cases hy : (yield s res none).1
        · simp only [hs, hy, Bool.not_true, Bool.false_eq_true, if_false, after_trace,
            Option.toList_some, List.singleton_append, successes_cons_ok, after_received,
            List.take_succ_cons]
          rw [firstOccurrencesFrom, if_pos ⟨rfl, hcond⟩]
          exact congrArg _ (ih _ _ _ (hd.snoc_ok res))
        · simp only [hs, hy, Bool.not_false, if_true, Bool.false_eq_true, if_false,
            successes_cons_ok, List.take_succ_cons, List.take_zero]
          rw [firstOccurrencesFrom, if_pos ⟨rfl, hcond⟩]
          simp [successes, firstOccurrencesFrom]

theorem Tracks.init (env : GoEnv) : Tracks env {} [] := by
  intro k
  simp

/-- A caller that never stops receives every item. -/
theorem deliver_received_all {σ : Type} (env : GoEnv) (yield : Yield Result σ)
    (hyield : ∀ s r e, (yield s r e).1 = true) :
    ∀ (arrived : List resultItem) (d : deduplicator) (s : σ),
      (deliver env yield arrived d s).received = arrived.length ∧
        (deliver env yield arrived d s).stopped = false := by
  intro arrived
  induction arrived with
  | nil => intro d s; simp [deliver_nil]
  | cons item rest ih =>
    intro d s
    obtain ⟨res, err⟩ := item
    cases err with
    | some e =>
      rw [deliver_err]
      simp [hyield, ih]
    | none =>
      rw [deliver_ok]
      by_cases hs : (d.seen env res.Value).1 <;> simp [hs, hyield, ih]

/-- C2: when the caller never stops, the successful results the delivery loop
of `Query` yields are exactly, in arrival order and unmodified, the successful
items of the arrival sequence whose dedup key did not occur in an earlier
successful item; this holds for every arrival sequence, and so for the one of
every call of `Query`. -/
theorem Query_drops_only_duplicates (σ : Type) (env : GoEnv) (yield : Yield Result σ)
    (hyield : ∀ s r e, (yield s r e).1 = true) :
    (∀ (arrived : List resultItem) (s : σ),
      successes (deliver env yield arrived {} s).trace = firstOccurrences env arrived) ∧
    (∀ (registry : Registry) (seed : Nat) (ctx : Context) (domain : String)
        (opts : List ScoutOption) (sched : List Event) (s : σ),
      successes (Query env registry seed ctx domain opts sched yield s).trace =
        firstOccurrences env (Query.arrived env registry seed ctx domain opts sched)) := by
  have key : ∀ (arrived : List resultItem) (s : σ),
      successes (deliver env yield arrived {} s).trace = firstOccurrences env arrived := by
    intro arrived s
    rw [deliver_successes env yield arrived [] {} s (Tracks.init env),
      (deliver_received_all env yield hyield arrived {} s).1, List.take_length]
    rfl
  refine ⟨key, ?_⟩
  intro registry seed ctx domain opts sched s
  rw [Query_trace]
  exact key _ s

/-- Witness of C2: a case-insensitive duplicate with surrounding blanks is
dropped, the error item is not a result, the rest is forwarded in order. -/
theorem Query_drops_only_duplicates_witness :
    (∀ (s : Unit) (r : Result) (e : Option GoError), (consumeAll s r e).1 = true) ∧
    successes (deliver asciiEnv consumeAll
      [⟨⟨1, "API.example.com", "a"⟩, none⟩, ⟨default, some "a: failed"⟩,
        ⟨⟨2, " api.example.com ", "b"⟩, none⟩, ⟨⟨1, "www.example.com", "b"⟩, none⟩] {} ()).trace
      = [⟨1, "API.example.com", "a"⟩, ⟨1, "www.example.com", "b"⟩] :=
  ⟨fun _ _ _ => rfl,
    ((Query_drops_only_duplicates Unit asciiEnv consumeAll (fun _ _ _ => rfl)).1 _ ()).trans
      (by decide)⟩

theorem failures_cons_ok (res : Result) (b : Bool) (t : List (YieldCall Result)) :
    failures (⟨res, none, b⟩ :: t) = failures t := by
  simp [failures]

theorem failures_cons_err (res : Result) (e : GoError) (b : Bool)
    (t : List (YieldCall Result)) :
    failures (⟨res, some e, b⟩ :: t) = (res, e) :: failures t := by
  simp [failures]

/-- Whatever the caller does, the errors forwarded are the errors among the
items received, each with the empty result. -/
theorem deliver_failures {σ : Type} (env : GoEnv) (yield : Yield Result σ) :
    ∀ (arrived : List resultItem) (d : deduplicator) (s : σ),
      failures (deliver env yield arrived d s).trace =
        errorsOf (arrived.take (deliver env yield arrived d s).received) := by
  intro arrived
  induction arrived with
  | nil => intro d s; simp [deliver_nil, failures, errorsOf]
  | cons item rest ih =>
    intro d s
    obtain ⟨res, err⟩ := item
    cases err with
    | some e =>
      rw [deliver_err]
      by_cases hy : (yield s default (some e)).1
      · simp only [hy, Bool.not_true, Bool.false_eq_true, if_false, after_trace,
          Option.toList_some, List.singleton_append, failures_cons_err, after_received,
          List.take_succ_cons]
        rw [ih]
        simp [errorsOf]
      · simp [hy, failures, errorsOf]
    | none =>
      rw [deliver_ok]
      by_cases hs : (d.seen env res.Value).1
      · simp only [hs, if_true, after_trace, Option.toList_none, List.nil_append,
          after_received, List.take_succ_cons]
        rw [ih]
        simp [errorsOf]
      · by_cases hy : (yield s res none).1
        · simp only [hs, hy, Bool.not_true, Bool.false_eq_true, if_false, after_trace,
            Option.toList_some, List.singleton_append, failures_cons_ok, after_received,
            List.take_succ_cons]
          rw [ih]
          simp [errorsOf]
        · simp [hs, hy, failures, errorsOf]

/-- An error item received last leaves the deduplicator and the successful
results as they were. -/
theorem deliver_snoc_err {σ : Type} (env : GoEnv) (yield : Yield Result σ) (res : Result)
    (e : GoError) :
    ∀ (before : List resultItem) (d : deduplicator) (s : σ),
      (deliver env yield (before ++ [⟨res, some e⟩]) d s).dedupe =
          (deliver env yield before d s).dedupe ∧
        successes (deliver env yield (before ++ [⟨res, some e⟩]) d s).trace =
          successes (deliver env yield before d s).trace := by
  intro before
  induction before with
  | nil =>
    intro d s
    rw [List.nil_append, deliver_err, deliver_nil]
    by_cases hy : (yield s default (some e)).1 <;> simp [hy, deliver_nil, successes]
  | cons item rest ih =>
    intro d s
    obtain ⟨res1, err1⟩ := item
    rw [List.cons_append]
    cases err1 with
    | some e1 =>
      rw [deliver_err, deliver_err]
      by_cases hy : (yield s default (some e1)).1
      · simp only [hy, Bool.not_true, Bool.false_eq_true, if_false, after_dedupe, after_trace,
          Option.toList_some, List.singleton_append, successes_cons_err]
        exact ih d _
      · simp [hy]
    | none =>
      rw [deliver_ok, deliver_ok]
      by_cases hs : (d.seen env res1.Value).1
      · simp only [hs, if_true, after_dedupe, after_trace, Option.toList_none,
          List.nil_append]
        exact ih _ s
      · by_cases hy : (yield s res1 none).1
        · simp only [hs, hy, Bool.not_true, Bool.false_eq_true, if_false, after_dedupe,
            after_trace, Option.toList_some, List.singleton_append, successes_cons_ok]
          exact ⟨(ih _ _).1, congrArg _ (ih _ _).2⟩
        · simp [hs, hy]

/-- C3: the delivery loop of `Query` forwards every error item it receives
before the caller stops as (empty result, that error), in arrival order and
with repetitions kept; receiving an error item changes neither the dedup set
nor the successful results; and for a caller that never stops the errors a
call of `Query` yields are all the errors of its arrival sequence. -/
theorem Query_forwards_every_error (σ : Type) (env : GoEnv) (yield : Yield Result σ) :
    (∀ (arrived : List resultItem) (d : deduplicator) (s : σ),
      failures (deliver env yield arrived d s).trace =
        (arrived.take (deliver env yield arrived d s).received).filterMap
          (fun r => r.err.map (fun e => (({} : Result), e)))) ∧
    (∀ (before : List resultItem) (res : Result) (e : GoError) (d : deduplicator) (s : σ),
      (deliver env yield (before ++ [⟨res, some e⟩]) d s).dedupe =
          (deliver env yield before d s).dedupe ∧
        successes (deliver env yield (before ++ [⟨res, some e⟩]) d s).trace =
          successes (deliver env yield before d s).trace) ∧
    ((∀ s r e, (yield s r e).1 = true) →
      ∀ (registry : Registry) (seed : Nat) (ctx : Context) (domain : String)
        (opts : List ScoutOption) (sched : List Event) (s : σ),
      failures (Query env registry seed ctx domain opts sched yield s).trace =
        (Query.arrived env registry seed ctx domain opts sched).filterMap
          (fun r => r.err.map (fun e => (({} : Result), e)))) := by
  refine ⟨deliver_failures env yield, ?_, ?_⟩
  · intro before res e d s
    exact deliver_snoc_err env yield res e before d s
  · intro hyield registry seed ctx domain opts sched s
    rw [Query_trace, deliver_failures,
      (deliver_received_all env yield hyield _ {} s).1, List.take_length]
    rfl

/-- Witness of C3: the same error arriving twice is yielded twice, around a
successful result, by a call of `Query` on one mock source. -/
theorem Query_forwards_every_error_witness :
    (∀ (s : Unit) (r : Result) (e : Option GoError), (consumeAll s r e).1 = true) ∧
    failures (Query asciiEnv GoMap.empty 0 ⟨false, none⟩ "example.com"
      [WithSources (some [mockSource "test" Subdomain [⟨1, "api.example.com", "test"⟩]
        ["test: timeout", "test: timeout"]]), WithParallelism 1] [] consumeAll ()).trace
      = [(default, "test: timeout"), (default, "test: timeout")] :=
  ⟨fun _ _ _ => rfl,
    ((Query_forwards_every_error Unit asciiEnv consumeAll).2.2 (fun _ _ _ => rfl)
      GoMap.empty 0 ⟨false, none⟩ "example.com" _ [] ()).trans (by decide)⟩

/-- Calls kept by a projection that keeps the answers: once a call answered
false no further call is made. -/
theorem deliver_stops {σ β : Type} (env : GoEnv) (yield : Yield Result σ)
    (f : YieldCall Result → Option (YieldCall β))
    (hf : ∀ c c1, f c = some c1 → c1.ret = c.ret) :
    ∀ (arrived : List resultItem) (d : deduplicator) (s : σ),
      ((deliver env yield arrived d s).trace.filterMap f).length ≤
        (((deliver env yield arrived d s).trace.filterMap f).takeWhile (fun c => c.ret)).length
          + 1 := by
  have step : ∀ (c : YieldCall Result) (t : List (YieldCall Result)), c.ret = true →
      ((t.filterMap f).length ≤ ((t.filterMap f).takeWhile (fun c => c.ret)).length + 1) →
      (((c :: t).filterMap f).length ≤
        (((c :: t).filterMap f).takeWhile (fun c => c.ret)).length + 1) := by
    intro c t hc ht
    cases hfc : f c with
    | none => simpa [List.filterMap_cons, hfc] using ht
    | some c1 =>
      have h1 : c1.ret = true := (hf c c1 hfc).trans hc
      simp only [List.filterMap_cons, hfc, List.takeWhile_cons, h1, if_true, List.length_cons]
      omega
  have single : ∀ c : YieldCall Result,
      (([c].filterMap f).length ≤
        (([c].filterMap f).takeWhile (fun c => c.ret)).length + 1) := by
    intro c
    cases hfc : f c with
    | none => simp [List.filterMap_cons, hfc]
    | some c1 =>
      simp only [List.filterMap_cons, hfc, List.filterMap_nil, List.length_singleton]
      omega
  intro arrived
  induction arrived with
  | nil => intro d s; simp [deliver_nil]
  | cons item rest ih =>
    intro d s
    obtain ⟨res, err⟩ := item
    cases err with
    | some e =>
      rw [deliver_err]
      by_cases hy : (yield s default (some e)).1
      · simp only [hy, Bool.not_true, Bool.false_eq_true, if_false, after_trace,
          Option.toList_some, List.singleton_append]
        exact step _ _ rfl (ih d _)
      · simp only [hy, Bool.not_false, if_true]
        exact single _
    | none =>
      rw [deliver_ok]
      by_cases hs : (d.seen env res.Value).1
      · simp only [hs, if_true, after_trace, Option.toList_none, List.nil_append]
        exact ih _ s
      · by_cases hy : (yield s res none).1
        · simp only [hs, hy, Bool.not_true, Bool.false_eq_true, if_false, after_trace,
            Option.toList_some, List.singleton_append]
          exact step _ _ rfl (ih _ _)
        · simp only [hs, hy, Bool.not_false, if_true, Bool.false_eq_true, if_false]
          exact single _

theorem projectCall_ret (kind : ResultType) (c : YieldCall Result) (c1 : YieldCall String)
    (h : projectCall kind c = some c1) : c1.ret = c.ret := by
  unfold projectCall at h
  split at h
  · cases h; rfl
  · split at h
    · cases h; rfl
    · cases h

/-- The calls of the caller's `yield` made by the loop body of a convenience
filter are the projection of the calls `Query` makes of the body. -/
theorem deliver_filterBody {σ : Type} (env : GoEnv) (kind : ResultType)
    (yield : Yield String σ) :
    ∀ (arrived : List resultItem) (d : deduplicator) (acc : List (YieldCall String)) (s : σ),
      (deliver env (filterBody kind yield) arrived d (acc, s)).caller.1 =
        acc ++ (deliver env (filterBody kind yield) arrived d (acc, s)).trace.filterMap
          (projectCall kind) := by
  intro arrived
  induction arrived with
  | nil => intro d acc s; simp [deliver_nil]
  | cons item rest ih =>
    intro d acc s
    obtain ⟨res, err⟩ := item
    cases err with
    | some e =>
      rw [deliver_err]
      by_cases hy : (yield s "" (some e)).1
      · have hb : (filterBody kind yield (acc, s) default (some e)).1 = true := hy
        simp only [hb, Bool.not_true, Bool.false_eq_true, if_false, after_trace, after_caller,
          Option.toList_some, List.singleton_append, List.filterMap_cons]
        have h2 : (filterBody kind yield (acc, s) default (some e)).2 =
            (acc ++ [⟨"", some e, true⟩], (yield s "" (some e)).2) := by
          simp [filterBody, hy]
        rw [h2, ih]
        simp [projectCall]
      · have hb : (filterBody kind yield (acc, s) default (some e)).1 = false := by
          simpa [filterBody] using hy
        simp [hb, filterBody, projectCall, hy]
    | none =>
      rw [deliver_ok]
      by_cases hs : (d.seen env res.Value).1
      · simp only [hs, if_true, after_trace, after_caller, Option.toList_none,
          List.nil_append]
        exact ih _ acc s
      · by_cases hk : res.Kind = kind
        · by_cases hy : (yield s res.Value none).1
          · have hb : (filterBody kind yield (acc, s) res none).1 = true := by
              simp [filterBody, hk, hy]
            have h2 : (filterBody kind yield (acc, s) res none).2 =
                (acc ++ [⟨res.Value, none, true⟩], (yield s res.Value none).2) := by
              simp [filterBody, hk, hy]
            simp only [hs, hb, Bool.not_true, Bool.false_eq_true, if_false, after_trace,
              after_caller, Option.toList_some, List.singleton_append, List.filterMap_cons]
            rw [h2, ih]
            simp [projectCall, hk]
          · have hb : (filterBody kind yield (acc, s) res none).1 = false := by
              simp [filterBody, hk, hy]
            simp [hs, hb, filterBody, projectCall, hk, hy]
        · have hb : (filterBody kind yield (acc, s) res none).1 = true := by
            simp [filterBody, hk]
          have h2 : (filterBody kind yield (acc, s) res none).2 = (acc, s) := by
            simp [filterBody, hk]
          simp only [hs, hb, Bool.not_true, Bool.false_eq_true, if_false, after_trace,
            after_caller, Option.toList_some, List.singleton_append, List.filterMap_cons]
          rw [h2, ih]
          simp [projectCall, hk]

theorem Query_caller (σ : Type) (env : GoEnv) (registry : Registry) (seed : Nat) (ctx : Context)
    (domain : String) (opts : List ScoutOption) (sched : List Event)
    (yield : Yield Result σ) (s : σ) :
    (Query env registry seed ctx domain opts sched yield s).caller =
      (deliver env yield (Query.arrived env registry seed ctx domain opts sched) {} s).caller := by
  unfold Query Query.iterator Query.arrived
  by_cases h : (configure env registry seed opts).Parallelism < 0
  · simp [h, deliver_nil]
  · simp [h]

theorem Subdomains_trace (σ : Type) (env : GoEnv) (registry : Registry) (seed seedAll : Nat)
    (ctx : Context) (domain : String) (opts : List ScoutOption) (sched : List Event)
    (yield : Yield String σ) (s : σ) :
    (Subdomains env registry seed seedAll ctx domain opts sched yield s).trace =
      (Query env registry seedAll ctx domain
        (WithSources (some (ByType registry Subdomain seed)) :: opts) sched
        (filterBody Subdomain yield) ([], s)).trace.filterMap (projectCall Subdomain) := by
  show (Query env registry seedAll ctx domain _ sched _ ([], s)).caller.1 = _
  rw [Query_caller, Query_trace, deliver_filterBody]
  rfl

theorem URLs_trace (σ : Type) (env : GoEnv) (registry : Registry) (seed seedAll : Nat)
    (ctx : Context) (domain : String) (opts : List ScoutOption) (sched : List Event)
    (yield : Yield String σ) (s : σ) :
    (URLs env registry seed seedAll ctx domain opts sched yield s).trace =
      (Query env registry seedAll ctx domain
        (WithSources (some (ByType registry URL seed)) :: opts) sched
        (filterBody URL yield) ([], s)).trace.filterMap (projectCall URL) := by
  show (Query env registry seedAll ctx domain _ sched _ ([], s)).caller.1 = _
  rw [Query_caller, Query_trace, deliver_filterBody]
  rfl

/-- C4: in every call of `Query`, of `Subdomains` and of `URLs`, for every
schedule and every caller, the number of calls of the caller's `yield` is at
most the index of the first call that answered false (the number of calls that
answered true before it, plus one): no call follows an answer false. -/
theorem no_yield_after_stop (env : GoEnv) (registry : Registry) (seed seedAll : Nat)
    (ctx : Context) (domain : String) (opts : List ScoutOption) (sched : List Event) :
    (∀ (σ : Type) (yield : Yield Result σ) (s : σ),
      (Query env registry seedAll ctx domain opts sched yield s).trace.length ≤
        ((Query env registry seedAll ctx domain opts sched yield s).trace.takeWhile
          (fun c => c.ret)).length + 1) ∧
    (∀ (σ : Type) (yield : Yield String σ) (s : σ),
      (Subdomains env registry seed seedAll ctx domain opts sched yield s).trace.length ≤
        ((Subdomains env registry seed seedAll ctx domain opts sched yield s).trace.takeWhile
          (fun c => c.ret)).length + 1) ∧
    (∀ (σ : Type) (yield : Yield String σ) (s : σ),
      (URLs env registry seed seedAll ctx domain opts sched yield s).trace.length ≤
        ((URLs env registry seed seedAll ctx domain opts sched yield s).trace.takeWhile
          (fun c => c.ret)).length + 1) := by
  refine ⟨?_, ?_, ?_⟩
  · intro σ yield s
    rw [Query_trace]
    have h := deliver_stops env yield some (fun c c1 h => by cases h; rfl)
      (Query.arrived env registry seedAll ctx domain opts sched) {} s
    simpa using h
  · intro σ yield s
    rw [Subdomains_trace, Query_trace]
    exact deliver_stops env _ _ (projectCall_ret Subdomain) _ {} _
  · intro σ yield s
    rw [URLs_trace, Query_trace]
    exact deliver_stops env _ _ (projectCall_ret URL) _ {} _

/-- Two callers that never stop are shown the same calls. -/
theorem deliver_trace_congr {σ τ : Type} (env : GoEnv) (yield1 : Yield Result σ)
    (yield2 : Yield Result τ) (h1 : ∀ s r e, (yield1 s r e).1 = true)
    (h2 : ∀ s r e, (yield2 s r e).1 = true) :
    ∀ (arrived : List resultItem) (d : deduplicator) (s1 : σ) (s2 : τ),
      (deliver env yield1 arrived d s1).trace = (deliver env yield2 arrived d s2).trace := by
  intro arrived
  induction arrived with
  | nil => intro d s1 s2; rfl
  | cons item rest ih =>
    intro d s1 s2
    obtain ⟨res, err⟩ := item
    cases err with
    | some e =>
      rw [deliver_err, deliver_err]
      simp only [h1, h2, Bool.not_true, Bool.false_eq_true, if_false, after_trace]
      exact congrArg _ (ih d _ _)
    | none =>
      rw [deliver_ok, deliver_ok]
      by_cases hs : (d.seen env res.Value).1
      · simp only [hs, if_true, after_trace]
        exact congrArg _ (ih _ _ _)
      · simp only [hs, h1, h2, Bool.not_true, Bool.false_eq_true, if_false, after_trace]
        exact congrArg _ (ih _ _ _)

theorem filterBody_consumeAll (kind : ResultType) (st : List (YieldCall String) × Unit)
    (r : Result) (e : Option GoError) : (filterBody kind consumeAll st r e).1 = true := by
  unfold filterBody
  cases e with
  | some e => rfl
  | none => by_cases h : r.Kind == kind <;> simp [h, consumeAll]

/-- C5: `Subdomains` yields, in the same order, the projection of what `Query`
yields to its loop body: `("", err)` for every error item, `(r.Value, nil)` for
every result of kind `Subdomain`, nothing for any other result; `URLs` does the
same for kind `URL`. For a caller that consumes everything this is the
projection of what `Query` yields to such a caller. A source that declares
`Subdomain|URL` and emits one of each gives only the subdomain to `Subdomains`
and only the URL to `URLs`. -/
theorem filters_project_Query (env : GoEnv) (registry : Registry) (seed seedAll : Nat)
    (ctx : Context) (domain : String) (opts : List ScoutOption) (sched : List Event) :
    (∀ (σ : Type) (yield : Yield String σ) (s : σ),
      (Subdomains env registry seed seedAll ctx domain opts sched yield s).trace =
        (Query env registry seedAll ctx domain
          (WithSources (some (ByType registry Subdomain seed)) :: opts) sched
          (filterBody Subdomain yield) ([], s)).trace.filterMap (projectCall Subdomain)) ∧
    (∀ (σ : Type) (yield : Yield String σ) (s : σ),
      (URLs env registry seed seedAll ctx domain opts sched yield s).trace =
        (Query env registry seedAll ctx domain
          (WithSources (some (ByType registry URL seed)) :: opts) sched
          (filterBody URL yield) ([], s)).trace.filterMap (projectCall URL)) ∧
    (Subdomains env registry seed seedAll ctx domain opts sched consumeAll ()).trace =
      (Query env registry seedAll ctx domain
        (WithSources (some (ByType registry Subdomain seed)) :: opts) sched
        consumeAll ()).trace.filterMap (projectCall Subdomain) ∧
    (URLs env registry seed seedAll ctx domain opts sched consumeAll ()).trace =
      (Query env registry seedAll ctx domain
        (WithSources (some (ByType registry URL seed)) :: opts) sched
        consumeAll ()).trace.filterMap (projectCall URL) ∧
    (Subdomains asciiEnv registry seed seedAll ctx domain
      [WithSources (some [mockSource "test" (Subdomain ||| URL)
        [⟨Subdomain, "api.example.com", "test"⟩, ⟨URL, "https://example.com/path", "test"⟩]
        []]), WithParallelism 1] [] consumeAll ()).trace =
      [⟨"api.example.com", none, true⟩] ∧
    (URLs asciiEnv registry seed seedAll ctx domain
      [WithSources (some [mockSource "test" (Subdomain ||| URL)
        [⟨Subdomain, "api.example.com", "test"⟩, ⟨URL, "https://example.com/path", "test"⟩]
        []]), WithParallelism 1] [] consumeAll ()).trace =
      [⟨"https://example.com/path", none, true⟩] := by
  refine ⟨fun σ yield s => Subdomains_trace σ env registry seed seedAll ctx domain opts sched
      yield s,
    fun σ yield s => URLs_trace σ env registry seed seedAll ctx domain opts sched yield s,
    ?_, ?_, ?_, ?_⟩
  · rw [Subdomains_trace, Query_trace, Query_trace]
    exact congrArg _ (deliver_trace_congr env _ _ (filterBody_consumeAll Subdomain)
      (fun _ _ _ => rfl) _ _ _ _)
  · rw [URLs_trace, Query_trace, Query_trace]
    exact congrArg _ (deliver_trace_congr env _ _ (filterBody_consumeAll URL)
      (fun _ _ _ => rfl) _ _ _ _)
  · rfl
  · rfl

/-- Applying a list of constructor calls: the `Sources` field ends up as the
argument of the last `WithSources`, or stays as it was. -/
theorem foldl_Sources (calls : List OptionCall) :
    ∀ cfg : Options,
      ((calls.map OptionCall.toOption).foldl (fun cfg opt => opt cfg) cfg).Sources =
        match lastWithSources calls with
        | none => cfg.Sources
        | some srcs => srcs := by
  induction calls with
  | nil => intro cfg; rfl
  | cons c rest ih =>
    intro cfg
    rw [List.map_cons, List.foldl_cons, ih]
    cases h : lastWithSources rest with
    | some srcs => simp only [lastWithSources, h]
    | none => cases c <;> simp only [lastWithSources, h] <;> rfl

/-- C6: for every list of option constructor calls, the configuration `Query`
computes inside `Subdomains` has as `Sources` the list `ByType(Subdomain)` when
the list holds no `WithSources`, and otherwise exactly the argument of its last
`WithSources`; `URLs` does the same with `ByType(URL)`; and the iterator of
`Subdomains` (of `URLs`) is the one of `Query` under that configuration. -/
theorem filters_source_selection (env : GoEnv) (registry : Registry) (seed seedAll : Nat)
    (calls : List OptionCall) :
    (configure env registry seedAll (WithSources (some (ByType registry Subdomain seed)) ::
        calls.map OptionCall.toOption)).Sources =
      (match lastWithSources calls with
        | none => some (ByType registry Subdomain seed)
        | some srcs => srcs) ∧
    (configure env registry seedAll (WithSources (some (ByType registry URL seed)) ::
        calls.map OptionCall.toOption)).Sources =
      (match lastWithSources calls with
        | none => some (ByType registry URL seed)
        | some srcs => srcs) ∧
    (∀ (σ : Type) (ctx : Context) (domain : String) (sched : List Event)
        (yield : Yield String σ) (s : σ),
      Subdomains env registry seed seedAll ctx domain (calls.map OptionCall.toOption)
          sched yield s =
        { status := (Query.iterator env
            (configure env registry seedAll (WithSources (some (ByType registry Subdomain seed))
              :: calls.map OptionCall.toOption))
            ctx domain sched (filterBody Subdomain yield) ([], s)).status
          trace := (Query.iterator env
            (configure env registry seedAll (WithSources (some (ByType registry Subdomain seed))
              :: calls.map OptionCall.toOption))
            ctx domain sched (filterBody Subdomain yield) ([], s)).caller.1
          caller := (Query.iterator env
            (configure env registry seedAll (WithSources (some (ByType registry Subdomain seed))
              :: calls.map OptionCall.toOption))
            ctx domain sched (filterBody Subdomain yield) ([], s)).caller.2 }) ∧
    (∀ (σ : Type) (ctx : Context) (domain : String) (sched : List Event)
        (yield : Yield String σ) (s : σ),
      URLs env registry seed seedAll ctx domain (calls.map OptionCall.toOption)
          sched yield s =
        { status := (Query.iterator env
            (configure env registry seedAll (WithSources (some (ByType registry URL seed))
              :: calls.map OptionCall.toOption))
            ctx domain sched (filterBody URL yield) ([], s)).status
          trace := (Query.iterator env
            (configure env registry seedAll (WithSources (some (ByType registry URL seed))
              :: calls.map OptionCall.toOption))
            ctx domain sched (filterBody URL yield) ([], s)).caller.1
          caller := (Query.iterator env
            (configure env registry seedAll (WithSources (some (ByType registry URL seed))
              :: calls.map OptionCall.toOption))
            ctx domain sched (filterBody URL yield) ([], s)).caller.2 }) := by
  refine ⟨?_, ?_, fun _ _ _ _ _ _ => rfl, fun _ _ _ _ _ _ => rfl⟩
  · unfold configure
    rw [List.foldl_cons, foldl_Sources]
    rfl
  · unfold configure
    rw [List.foldl_cons, foldl_Sources]
    rfl

/-! ## Go maps and the registry -/

theorem rangeOrder_perm {α : Type} : ∀ (l : List α) (seed : Nat), (rangeOrder l seed).Perm l := by
  intro l
  induction l with
  | nil => intro seed; exact List.Perm.refl _
  | cons x xs ih =>
    intro seed
    unfold rangeOrder
    refine List.perm_middle.trans (List.Perm.cons x ?_)
    rw [List.take_append_drop]
    exact ih _

/-- Every order of the entries is the order of some seed. -/
theorem rangeOrder_surjective {α : Type} :
    ∀ (l p : List α), p.Perm l → ∃ seed, rangeOrder l seed = p := by
  intro l
  induction l with
  | nil =>
    intro p hp
    exact ⟨0, by rw [List.perm_nil.1 hp]; rfl⟩
  | cons x xs ih =>
    intro p hp
    have hx : x ∈ p := hp.mem_iff.2 (List.mem_cons_self x xs)
    obtain ⟨a, b, rfl⟩ := List.append_of_mem hx
    have hab : (a ++ b).Perm xs := (List.perm_cons x).1 (List.perm_middle.symm.trans hp)
    obtain ⟨seed1, h1⟩ := ih (a ++ b) hab
    have hlen : a.length + b.length = xs.length := by
      rw [← List.length_append]; exact hab.length_eq
    refine ⟨a.length + (xs.length + 1) * seed1, ?_⟩
    have hmod : (a.length + (xs.length + 1) * seed1) % (xs.length + 1) = a.length := by
      rw [Nat.add_mul_mod_self_left]
      exact Nat.mod_eq_of_lt (by omega)
    have hdiv : (a.length + (xs.length + 1) * seed1) / (xs.length + 1) = seed1 := by
      rw [Nat.add_mul_div_left _ _ (Nat.succ_pos _), Nat.div_eq_of_lt (by omega), Nat.zero_add]
    simp only [rangeOrder, hmod, hdiv, h1]
    simp

theorem GoMap.range_perm {V : Type} (m : GoMap V) (seed : Nat) :
    (m.range seed).Perm m.entries :=
  rangeOrder_perm m.entries seed

theorem GoMap.get?_set {V : Type} (m : GoMap V) (k : String) (v : V) (k1 : String) :
    (m.set k v).get? k1 = if k1 = k then some v else m.get? k1 := by
  unfold GoMap.get? GoMap.set GoMap.others
  by_cases h : k1 = k
  · subst h
    simp
  · have h1 : (k == k1) = false := by simpa using Ne.symm h
    simp only [List.find?_cons, h1, if_neg h, List.find?_filter]
    congr 2
    funext e
    by_cases he : e.1 = k1
    · simp [he, h]
    · simp [he]

theorem GoMap.get?_eq_none {V : Type} (m : GoMap V) (k : String) :
    m.get? k = none ↔ k ∉ m.keys := by
  unfold GoMap.get? GoMap.keys
  simp only [Option.map_eq_none', List.find?_eq_none, beq_iff_eq, List.mem_map, not_exists,
    not_and]

theorem GoMap.get?_eq_some {V : Type} (m : GoMap V) (k : String) (v : V) :
    m.get? k = some v ↔ (k, v) ∈ m.entries := by
  obtain ⟨entries, nd⟩ := m
  unfold GoMap.get?
  simp only
  induction entries with
  | nil => simp
  | cons e rest ih =>
    obtain ⟨k1, v1⟩ := e
    rw [List.map_cons, List.nodup_cons] at nd
    by_cases h : k1 = k
    · subst h
      simp only [List.find?_cons, beq_self_eq_true, Option.map_some', Option.some.injEq,
        List.mem_cons, Prod.mk.injEq, true_and]
      constructor
      · intro h1; exact Or.inl h1.symm
      · rintro (h1 | h1)
        · exact h1.symm
        · exact absurd (List.mem_map_of_mem Prod.fst h1) nd.1
    · have h1 : (k1 == k) = false := by simpa using h
      simp only [List.find?_cons, h1, List.mem_cons, Prod.mk.injEq]
      rw [ih nd.2]
      constructor
      · exact Or.inr
      · rintro (⟨h2, _⟩ | h2)
        · exact absurd h2.symm h
        · exact h2

theorem ByName_eq (registry : Registry) (name : String) :
    ByName registry name = registry.get? name := by
  unfold ByName
  cases registry.get? name <;> rfl

theorem ByName_Register (registry : Registry) (s : Source) (name : String) :
    ByName (Register registry s) name =
      if name = s.Name then some s else ByName registry name := by
  rw [ByName_eq, ByName_eq, Register, GoMap.get?_set]

theorem keys_Register (registry : Registry) (s : Source) (name : String) :
    name ∈ (Register registry s).keys ↔ name = s.Name ∨ name ∈ registry.keys := by
  have h := GoMap.get?_eq_none (Register registry s) name
  have h1 := GoMap.get?_eq_none registry name
  unfold Register at h ⊢
  rw [GoMap.get?_set] at h
  by_cases hn : name = s.Name
  · simp only [hn, if_true, true_or, iff_true] at h ⊢
    by_contra hc
    exact absurd (h.2 hc) (by simp)
  · simp only [hn, if_false, false_or] at h ⊢
    rw [← not_iff_not, ← h, h1]

theorem keys_foldl_Register (ss : List Source) :
    ∀ (registry : Registry) (name : String),
      name ∈ (ss.foldl Register registry).keys ↔
        name ∈ ss.map Source.Name ∨ name ∈ registry.keys := by
  induction ss with
  | nil => intro registry name; simp
  | cons s rest ih =>
    intro registry name
    rw [List.foldl_cons, ih, keys_Register, List.map_cons, List.mem_cons]
    tauto

/-- In a registry built by `Register` every entry is filed under the name of
its descriptor. -/
theorem name_foldl_Register (ss : List Source) :
    ∀ (registry : Registry), (∀ e ∈ registry.entries, e.1 = e.2.Name) →
      ∀ e ∈ (ss.foldl Register registry).entries, e.1 = e.2.Name := by
  induction ss with
  | nil => intro registry h; exact h
  | cons s rest ih =>
    intro registry h
    rw [List.foldl_cons]
    apply ih
    intro e he
    change e ∈ (s.Name, s) :: GoMap.others s.Name registry.entries at he
    rcases List.mem_cons.1 he with rfl | he
    · rfl
    · exact h e (List.mem_filter.1 he).1

/-- C7: after `Register(s)`, `ByName` returns `s` under `s.Name` and what it
returned before under every other name; registering a second descriptor under
the same name replaces the first, and the name is filed once; in a registry
built from the empty one by `Register` calls, `ByName(n)` is nil exactly for
the names `n` under which nothing was registered. -/
theorem registry_round_trip :
    (∀ (registry : Registry) (s : Source), ByName (Register registry s) s.Name = some s) ∧
    (∀ (registry : Registry) (s : Source) (n : String),
      ByName (Register registry s) n = if n = s.Name then some s else ByName registry n) ∧
    (∀ (registry : Registry) (name : String) (yields1 yields2 : ResultType)
        (run1 run2 : Context → Client → String → String → List resultItem),
      ByName (Register (Register registry ⟨name, yields1, run1⟩) ⟨name, yields2, run2⟩) name
        = some ⟨name, yields2, run2⟩) ∧
    (∀ (registry : Registry) (s : Source), (Register registry s).keys.count s.Name = 1) ∧
    (∀ (ss : List Source) (n : String),
      ByName (ss.foldl Register GoMap.empty) n = none ↔ n ∉ ss.map Source.Name) := by
  refine ⟨?_, ByName_Register, ?_, ?_, ?_⟩
  · intro registry s
    rw [ByName_Register, if_pos rfl]
  · intro registry name yields1 yields2 run1 run2
    rw [ByName_Register, if_pos rfl]
  · intro registry s
    exact List.count_eq_one_of_mem (Register registry s).nodupKeys
      ((keys_Register registry s s.Name).2 (Or.inl rfl))
  · intro ss n
    rw [ByName_eq, GoMap.get?_eq_none, keys_foldl_Register]
    simp [GoMap.keys, GoMap.empty]

theorem ByType_loop_eq (want : ResultType) :
    ∀ (l : List (String × Source)) (result : List Source),
      ByType.loop want l result =
        result ++ (l.map Prod.snd).filter (fun s => s.Yields &&& want != 0) := by
  intro l
  induction l with
  | nil => intro result; simp [ByType.loop]
  | cons e rest ih =>
    intro result
    obtain ⟨k, s⟩ := e
    by_cases h : (s.Yields &&& want != 0) = true
    · simp only [ByType.loop, h, if_true, ih, List.map_cons, List.filter_cons,
        List.append_assoc, List.singleton_append]
    · simp only [ByType.loop, h, if_false, ih, List.map_cons, List.filter_cons,
        Bool.false_eq_true]

theorem ByType_eq (registry : Registry) (want : ResultType) (seed : Nat) :
    ByType registry want seed =
      ((registry.range seed).map Prod.snd).filter (fun s => s.Yields &&& want != 0) := by
  rw [ByType, ByType_loop_eq, List.nil_append]

theorem mem_ByType (registry : Registry) (want : ResultType) (seed : Nat) (s : Source) :
    s ∈ ByType registry want seed ↔
      s ∈ registry.entries.map Prod.snd ∧ s.Yields &&& want ≠ 0 := by
  rw [ByType_eq, List.mem_filter, ((registry.range_perm seed).map Prod.snd).mem_iff]
  simp

theorem or_eq_zero_left {a b : Nat} (h : a ||| b = 0) : a = 0 := by
  apply Nat.eq_of_testBit_eq
  intro i
  have h1 : (a ||| b).testBit i = false := by rw [h]; exact Nat.zero_testBit i
  rw [Nat.testBit_or, Bool.or_eq_false_iff] at h1
  rw [h1.1, Nat.zero_testBit]

theorem and_or_ne_zero_left {y a : Nat} (b : Nat) (h : y &&& a ≠ 0) : y &&& (a ||| b) ≠ 0 := by
  intro hc
  rw [Nat.and_or_distrib_left] at hc
  exact h (or_eq_zero_left hc)

theorem and_or_ne_zero_right {y b : Nat} (a : Nat) (h : y &&& b ≠ 0) : y &&& (a ||| b) ≠ 0 := by
  rw [Nat.or_comm]
  exact and_or_ne_zero_left a h

/-- C8: `ByType(want)` returns, in some order, exactly the descriptors of the
registry entries with `Yields & want != 0`, each entry once (in a registry built
by `Register` no two of them have the same name, and a descriptor is returned
exactly when it is the one registered under its name and passes the test);
`ByType(Subdomain|URL)` contains every element of `ByType(Subdomain)` and of
`ByType(URL)`; no element of `ByType(Subdomain)` yields only `URL`; and
`ByType(0)` is empty. -/
theorem ByType_selects :
    (∀ (registry : Registry) (want : ResultType) (seed : Nat),
      (ByType registry want seed).Perm
        ((registry.entries.map Prod.snd).filter (fun s => s.Yields &&& want != 0))) ∧
    (∀ (ss : List Source) (want : ResultType) (seed : Nat),
      ((ByType (ss.foldl Register GoMap.empty) want seed).map Source.Name).Nodup) ∧
    (∀ (ss : List Source) (want : ResultType) (seed : Nat) (s : Source),
      s ∈ ByType (ss.foldl Register GoMap.empty) want seed ↔
        ByName (ss.foldl Register GoMap.empty) s.Name = some s ∧ s.Yields &&& want ≠ 0) ∧
    (∀ (registry : Registry) (seed seed1 : Nat),
      ByType registry Subdomain seed ⊆ ByType registry (Subdomain ||| URL) seed1 ∧
        ByType registry URL seed ⊆ ByType registry (Subdomain ||| URL) seed1) ∧
    (∀ (registry : Registry) (seed : Nat),
      (ByType registry Subdomain seed).filter (fun s => s.Yields == URL) = []) ∧
    (∀ (registry : Registry) (seed : Nat), ByType registry 0 seed = []) := by
  refine ⟨?_, ?_, ?_, ?_, ?_, ?_⟩
  · intro registry want seed
    rw [ByType_eq]
    exact ((registry.range_perm seed).map Prod.snd).filter _
  · intro ss want seed
    have hname := name_foldl_Register ss GoMap.empty (by intro e he; cases he)
    have hperm := (ss.foldl Register GoMap.empty).range_perm seed
    rw [ByType_eq]
    refine ((List.filter_sublist _).map Source.Name).nodup ?_
    have hkeys : (((ss.foldl Register GoMap.empty).range seed).map Prod.snd).map Source.Name =
        ((ss.foldl Register GoMap.empty).range seed).map Prod.fst := by
      rw [List.map_map]
      apply List.map_congr_left
      intro e he
      exact (hname e (hperm.mem_iff.1 he)).symm
    rw [hkeys]
    exact (hperm.map Prod.fst).nodup_iff.2 (ss.foldl Register GoMap.empty).nodupKeys
  · intro ss want seed s
    have hname := name_foldl_Register ss GoMap.empty (by intro e he; cases he)
    rw [mem_ByType, ByName_eq, GoMap.get?_eq_some]
    refine and_congr_left (fun _ => ?_)
    constructor
    · intro h
      obtain ⟨e, he, hs⟩ := List.mem_map.1 h
      have := hname e he
      subst hs
      rw [← this]
      exact he
    · intro h
      exact List.mem_map.2 ⟨_, h, rfl⟩
  · intro registry seed seed1
    constructor
    · intro s hs
      rw [mem_ByType] at hs ⊢
      exact ⟨hs.1, and_or_ne_zero_left _ hs.2⟩
    · intro s hs
      rw [mem_ByType] at hs ⊢
      exact ⟨hs.1, and_or_ne_zero_right _ hs.2⟩
  · intro registry seed
    rw [List.filter_eq_nil_iff]
    intro s hs hy
    rw [mem_ByType] at hs
    have hy1 : s.Yields = URL := by simpa using hy
    rw [hy1] at hs
    exact hs.2 (by decide)
  · intro registry seed
    rw [ByType_eq, List.filter_eq_nil_iff]
    intro s _
    simp

theorem ByNames_loop_eq (registry : Registry) :
    ∀ (names : List String) (result : List Source),
      ByNames.loop registry names result =
        result ++ names.filterMap (fun name => registry.get? name) := by
  intro names
  induction names with
  | nil => intro result; simp [ByNames.loop]
  | cons name rest ih =>
    intro result
    cases h : registry.get? name with
    | none => simp only [ByNames.loop, h, ih, List.filterMap_cons]
    | some s =>
      simp only [ByNames.loop, h, ih, List.filterMap_cons, List.append_assoc,
        List.singleton_append]

/-- C9: `ByNames(n1, ..., nk)` is the list of the descriptors registered under
the requested names, in the order requested, unregistered names left out; so
it is no longer than the request, the request of a concatenation is the
concatenation of the requests, and a registered name requested twice appears
twice. -/
theorem ByNames_in_order :
    (∀ (registry : Registry) (names : List String),
      ByNames registry names = names.filterMap (fun name => ByName registry name)) ∧
    (∀ (registry : Registry) (names : List String),
      (ByNames registry names).length ≤ names.length) ∧
    (∀ (registry : Registry) (names1 names2 : List String),
      ByNames registry (names1 ++ names2) =
        ByNames registry names1 ++ ByNames registry names2) ∧
    (∀ (registry : Registry) (s : Source),
      ByNames (Register registry s) [s.Name, s.Name] = [s, s]) := by
  have h1 : ∀ (registry : Registry) (names : List String),
      ByNames registry names = names.filterMap (fun name => ByName registry name) := by
    intro registry names
    rw [ByNames, ByNames_loop_eq, List.nil_append]
    congr 1
    funext name
    exact (ByName_eq registry name).symm
  refine ⟨h1, ?_, ?_, ?_⟩
  · intro registry names
    rw [h1]
    exact List.length_filterMap_le _ _
  · intro registry names1 names2
    rw [h1, h1, h1, List.filterMap_append]
  · intro registry s
    rw [h1]
    simp [ByName_Register]

/-! ## Query without sources -/

theorem Sched.step_no_routines (cap : Nat) (run : Bool → Nat → List resultItem) (st : Sched)
    (e : Event) (h : st.routines = [] ∧ st.arrived = []) :
    (st.step cap run e).routines = [] ∧ (st.step cap run e).arrived = [] := by
  obtain ⟨h1, h2⟩ := h
  cases e <;> simp [Sched.step, h1, h2]

theorem foldl_step_no_routines (cap : Nat) (run : Bool → Nat → List resultItem)
    (sched : List Event) :
    ∀ st : Sched, st.routines = [] ∧ st.arrived = [] →
      (sched.foldl (Sched.step cap run) st).routines = [] ∧
        (sched.foldl (Sched.step cap run) st).arrived = [] := by
  induction sched with
  | nil => intro st h; exact h
  | cons e rest ih =>
    intro st h
    rw [List.foldl_cons]
    exact ih _ (Sched.step_no_routines cap run st e h)

/-- Without source goroutines nothing arrives and the channel is closed. -/
theorem arrivals_zero (cap : Nat) (run : Bool → Nat → List resultItem) (ctxDone : Bool)
    (sched : List Event) : arrivals cap run 0 ctxDone sched = ([], false) := by
  unfold arrivals
  obtain ⟨h1, h2⟩ := foldl_step_no_routines cap run sched
    { ctxDone := ctxDone, inUse := 0, routines := List.replicate 0 .waiting, arrived := [] }
    ⟨rfl, rfl⟩
  generalize List.foldl (Sched.step cap run) _ sched = st at h1 h2 ⊢
  simp [Sched.finish, Sched.waiting, h1, h2]

/-- C10 (as amended): when the configured source list is empty (or nil), the
iterator of `Query` never calls `yield` and leaves the caller's state as it
was, for every domain, context, schedule and every other option; it returns
when the configured `Parallelism` is not negative, and panics in
`make(chan struct{}, cfg.Parallelism)` before any call when it is negative. -/
theorem Query_empty_sources (σ : Type) (env : GoEnv) (registry : Registry) (seed : Nat)
    (ctx : Context) (domain : String) (opts : List ScoutOption) (sched : List Event)
    (yield : Yield Result σ) (s : σ)
    (h : (configure env registry seed opts).Sources.getD [] = []) :
    (Query env registry seed ctx domain opts sched yield s).trace = [] ∧
    (Query env registry seed ctx domain opts sched yield s).caller = s ∧
    (Query env registry seed ctx domain opts sched yield s).status =
      if (configure env registry seed opts).Parallelism < 0 then Status.panicked
      else Status.returned := by
  unfold Query Query.iterator
  by_cases hp : (configure env registry seed opts).Parallelism < 0
  · simp [hp]
  · simp only [hp, if_false, h, List.length_nil, arrivals_zero, deliver_nil]
    simp

/-- Witness of C10: the call of the test `handles_empty_sources`. -/
theorem Query_empty_sources_witness :
    (configure asciiEnv GoMap.empty 0 [WithSources (some []), WithParallelism 1]).Sources.getD []
      = [] ∧
    (Query asciiEnv GoMap.empty 0 ⟨false, none⟩ "example.com"
      [WithSources (some []), WithParallelism 1] [Event.acquire 0, Event.cancel]
      consumeAll ()).trace = [] ∧
    (Query asciiEnv GoMap.empty 0 ⟨false, none⟩ "example.com"
      [WithSources (some []), WithParallelism 1] [Event.acquire 0, Event.cancel]
      consumeAll ()).status = Status.returned :=
  ⟨rfl,
    (Query_empty_sources Unit asciiEnv GoMap.empty 0 ⟨false, none⟩ "example.com"
      [WithSources (some []), WithParallelism 1] [Event.acquire 0, Event.cancel]
      consumeAll () rfl).1,
    (Query_empty_sources Unit asciiEnv GoMap.empty 0 ⟨false, none⟩ "example.com"
      [WithSources (some []), WithParallelism 1] [Event.acquire 0, Event.cancel]
      consumeAll () rfl).2.2.trans (by decide)⟩

/-- Counterexample to C10 as stated: with an empty source list and the option
`WithParallelism(-1)` the iterator of `Query` does not return: it panics. -/
theorem Query_empty_sources_negative_parallelism :
    (Query asciiEnv GoMap.empty 0 ⟨false, none⟩ "example.com"
      [WithSources (some []), WithParallelism (-1)] [] consumeAll ()).status
        = Status.panicked ∧
    (Query asciiEnv GoMap.empty 0 ⟨false, none⟩ "example.com"
      [WithSources (some []), WithParallelism (-1)] [] consumeAll ()).status
        ≠ Status.returned := by
  decide

/-! ## Configured values -/

/-- A field that every constructor call either sets or leaves alone ends up,
after a list of calls, as the value of the last call that sets it. -/
theorem foldl_field {β : Type} (f : Options → β) (pick : OptionCall → Option β)
    (hpick : ∀ (c : OptionCall) (o : Options), f (c.toOption o) = (pick c).getD (f o))
    (calls : List OptionCall) :
    ∀ cfg : Options,
      f ((calls.map OptionCall.toOption).foldl (fun cfg opt => opt cfg) cfg) =
        (lastCall pick calls).getD (f cfg) := by
  induction calls with
  | nil => intro cfg; rfl
  | cons c rest ih =>
    intro cfg
    rw [List.map_cons, List.foldl_cons, ih]
    cases h : lastCall pick rest with
    | some a => simp only [lastCall, h, Option.getD_some]
    | none => simp only [lastCall, h, Option.getD_none, hpick]

theorem configure_append (env : GoEnv) (registry : Registry) (seed : Nat)
    (opts : List ScoutOption) (opt : ScoutOption) :
    configure env registry seed (opts ++ [opt]) = opt (configure env registry seed opts) := by
  unfold configure
  rw [List.foldl_append]
  rfl

/-- C11 (the code at the failing input): after `WithSources(nil)` as the last
`WithSources`, `Query` runs no source and never calls `yield`, whatever is
registered: there is no fall-back. With one source registered that emits one
result, `Query` with `WithSources(nil)` yields nothing and returns, while the
same call without it yields that result. -/
theorem Query_nil_sources_no_fallback :
    (∀ (σ : Type) (env : GoEnv) (registry : Registry) (seed : Nat) (ctx : Context)
        (domain : String) (opts : List ScoutOption) (sched : List Event)
        (yield : Yield Result σ) (s : σ),
      (configure env registry seed (opts ++ [WithSources none])).Sources = none ∧
      (Query env registry seed ctx domain (opts ++ [WithSources none]) sched yield s).trace
        = []) ∧
    (Query asciiEnv
      (Register GoMap.empty
        (mockSource "src" Subdomain [⟨Subdomain, "api.example.com", "src"⟩] []))
      0 ⟨false, none⟩ "example.com" [WithSources none] [] consumeAll ()).trace = [] ∧
    (Query asciiEnv
      (Register GoMap.empty
        (mockSource "src" Subdomain [⟨Subdomain, "api.example.com", "src"⟩] []))
      0 ⟨false, none⟩ "example.com" [WithSources none] [] consumeAll ()).status
        = Status.returned ∧
    (Query asciiEnv
      (Register GoMap.empty
        (mockSource "src" Subdomain [⟨Subdomain, "api.example.com", "src"⟩] []))
      0 ⟨false, none⟩ "example.com" [] [] consumeAll ()).trace
        = [⟨⟨Subdomain, "api.example.com", "src"⟩, none, true⟩] := by
  refine ⟨?_, by decide, by decide, by decide⟩
  intro σ env registry seed ctx domain opts sched yield s
  have hcfg : (configure env registry seed (opts ++ [WithSources none])).Sources = none := by
    rw [configure_append]
    rfl
  refine ⟨hcfg, ?_⟩
  unfold Query Query.iterator
  by_cases hp : (configure env registry seed (opts ++ [WithSources none])).Parallelism < 0
  · simp [hp]
  · simp only [hp, if_false, hcfg, Option.getD_none, List.length_nil, arrivals_zero,
      deliver_nil]

/-! ## The semaphore -/

/-- The channel stays open for ever only when the semaphore has no slot. -/
theorem arrivals_blocked (cap : Nat) (run : Bool → Nat → List resultItem) (n : Nat)
    (ctxDone : Bool) (sched : List Event) (h : (arrivals cap run n ctxDone sched).2 = true) :
    cap = 0 := by
  unfold arrivals Sched.finish at h
  by_contra hc
  have hc1 : (cap == 0) = false := by simpa using hc
  simp only [hc1, Bool.false_eq_true, if_false] at h
  split at h <;> simp at h

theorem Sched.step_cap_zero (run : Bool → Nat → List resultItem) (n : Nat) (st : Sched)
    (e : Event) (h : st.routines = List.replicate n .waiting ∧ st.arrived = []) :
    (st.step 0 run e).routines = List.replicate n .waiting ∧ (st.step 0 run e).arrived = [] := by
  obtain ⟨h1, h2⟩ := h
  cases e with
  | cancel => exact ⟨h1, h2⟩
  | acquire i =>
    by_cases hi : i < n <;> simp [Sched.step, h1, h2, List.getElem?_replicate, hi]
  | send i =>
    by_cases hi : i < n <;> simp [Sched.step, h1, h2, List.getElem?_replicate, hi]
  | done i =>
    by_cases hi : i < n <;> simp [Sched.step, h1, h2, List.getElem?_replicate, hi]

theorem foldl_step_cap_zero (run : Bool → Nat → List resultItem) (n : Nat)
    (sched : List Event) :
    ∀ st : Sched, st.routines = List.replicate n .waiting ∧ st.arrived = [] →
      (sched.foldl (Sched.step 0 run) st).routines = List.replicate n .waiting ∧
        (sched.foldl (Sched.step 0 run) st).arrived = [] := by
  induction sched with
  | nil => intro st h; exact h
  | cons e rest ih =>
    intro st h
    rw [List.foldl_cons]
    exact ih _ (Sched.step_cap_zero run n st e h)

/-- With a semaphore without slots no goroutine gets past the acquisition:
nothing arrives and the channel is never closed. -/
theorem arrivals_cap_zero (run : Bool → Nat → List resultItem) (n : Nat) (ctxDone : Bool)
    (sched : List Event) (hn : n ≠ 0) : arrivals 0 run n ctxDone sched = ([], true) := by
  unfold arrivals
  obtain ⟨h1, h2⟩ := foldl_step_cap_zero run n sched
    { ctxDone := ctxDone, inUse := 0, routines := List.replicate n .waiting, arrived := [] }
    ⟨rfl, rfl⟩
  generalize List.foldl (Sched.step 0 run) _ sched = st at h1 h2 ⊢
  have hw : st.waiting.isEmpty = false := by
    have hmem : 0 ∈ st.waiting := by
      unfold Sched.waiting
      rw [List.mem_filter, h1]
      refine ⟨by simp; omega, ?_⟩
      simp [List.getElem?_replicate, Nat.pos_of_ne_zero hn]
    cases hst : st.waiting with
    | nil => rw [hst] at hmem; cases hmem
    | cons a l => rfl
  simp [Sched.finish, hw, h1, h2, Goroutine.pending]

theorem parallelism_toOption (c : OptionCall) (o : Options) :
    (c.toOption o).Parallelism = (OptionCall.parallelism c).getD o.Parallelism := by
  cases c <;> rfl

/-- C12 (as amended): `Query` runs with the configured parallelism unchanged:
twice the CPU count by default, else the argument of the last
`WithParallelism`. The iterator panics exactly when that value is negative,
waits for ever without a single call of `yield` exactly when it is 0 and there
is at least one source, and returns in every other case, in particular
whenever the value is at least 1. -/
theorem Query_parallelism_as_configured :
    (∀ (env : GoEnv) (registry : Registry) (seed : Nat) (calls : List OptionCall),
      (configure env registry seed (calls.map OptionCall.toOption)).Parallelism =
        (lastCall OptionCall.parallelism calls).getD ((env.NumCPU : Int) * 2)) ∧
    (∀ (σ : Type) (env : GoEnv) (cfg : Options) (ctx : Context) (domain : String)
        (sched : List Event) (yield : Yield Result σ) (s : σ),
      (Query.iterator env cfg ctx domain sched yield s).status =
        if cfg.Parallelism < 0 then Status.panicked
        else if cfg.Parallelism = 0 ∧ (cfg.Sources.getD []).length ≠ 0 then Status.blocked
        else Status.returned) ∧
    (∀ (σ : Type) (env : GoEnv) (cfg : Options) (ctx : Context) (domain : String)
        (sched : List Event) (yield : Yield Result σ) (s : σ),
      cfg.Parallelism ≤ 0 → (Query.iterator env cfg ctx domain sched yield s).trace = []) := by
  refine ⟨?_, ?_, ?_⟩
  · intro env registry seed calls
    unfold configure
    rw [foldl_field (fun o => o.Parallelism) OptionCall.parallelism parallelism_toOption]
    rfl
  · intro σ env cfg ctx domain sched yield s
    unfold Query.iterator
    by_cases hp : cfg.Parallelism < 0
    · simp [hp]
    · simp only [hp, if_false]
      by_cases h0 : cfg.Parallelism = 0
      · by_cases hn : (cfg.Sources.getD []).length = 0
        · simp [h0, hn, arrivals_zero, deliver_nil]
        · simp [h0, hn, arrivals_cap_zero, deliver_nil]
      · have hcap : cfg.Parallelism.toNat ≠ 0 := by omega
        have hb : (arrivals cfg.Parallelism.toNat (sourceRun cfg ctx domain)
            (cfg.Sources.getD []).length ctx.done sched).2 = false := by
          cases hv : (arrivals cfg.Parallelism.toNat (sourceRun cfg ctx domain)
            (cfg.Sources.getD []).length ctx.done sched).2 with
          | false => rfl
          | true => exact absurd (arrivals_blocked _ _ _ _ _ hv) hcap
        simp [h0, hb]
  · intro σ env cfg ctx domain sched yield s hle
    unfold Query.iterator
    by_cases hp : cfg.Parallelism < 0
    · simp [hp]
    · have h0 : cfg.Parallelism = 0 := by omega
      by_cases hn : (cfg.Sources.getD []).length = 0
      · simp [h0, hn, arrivals_zero, deliver_nil]
      · simp [h0, hn, arrivals_cap_zero, deliver_nil]

/-- Witness of C12: with `WithParallelism(0)` and one source that has a result
to send, nothing is yielded. -/
theorem Query_parallelism_as_configured_witness :
    (configure asciiEnv GoMap.empty 0
      [WithSources (some [mockSource "test" Subdomain [⟨1, "api.example.com", "test"⟩] []]),
        WithParallelism 0]).Parallelism ≤ 0 ∧
    (Query.iterator asciiEnv (configure asciiEnv GoMap.empty 0
      [WithSources (some [mockSource "test" Subdomain [⟨1, "api.example.com", "test"⟩] []]),
        WithParallelism 0]) ⟨false, none⟩ "example.com" [Event.acquire 0, Event.send 0]
      consumeAll ()).trace = [] :=
  ⟨by decide,
    Query_parallelism_as_configured.2.2 Unit asciiEnv _ ⟨false, none⟩ "example.com"
      [Event.acquire 0, Event.send 0] consumeAll () (by decide)⟩

/-- Counterexample to C12 as stated: `WithParallelism(0)` gives a semaphore
of capacity 0, below 1, and with one source `Query` waits for ever on the
acquisition; `WithParallelism(-1)` makes it panic. -/
theorem Query_parallelism_zero_blocks :
    (configure asciiEnv GoMap.empty 0
      [WithSources (some [mockSource "test" Subdomain [⟨1, "api.example.com", "test"⟩] []]),
        WithParallelism 0]).Parallelism = 0 ∧
    (Query asciiEnv GoMap.empty 0 ⟨false, none⟩ "example.com"
      [WithSources (some [mockSource "test" Subdomain [⟨1, "api.example.com", "test"⟩] []]),
        WithParallelism 0] [] consumeAll ()).status = Status.blocked ∧
    (Query asciiEnv GoMap.empty 0 ⟨false, none⟩ "example.com"
      [WithSources (some [mockSource "test" Subdomain [⟨1, "api.example.com", "test"⟩] []]),
        WithParallelism (-1)] [] consumeAll ()).status = Status.panicked := by
  decide

theorem userAgent_toOption (c : OptionCall) (o : Options) :
    (c.toOption o).UserAgent = (OptionCall.userAgent c).getD o.UserAgent := by
  cases c <;> rfl

/-- C13 (as amended): when no `WithUserAgent` option is given the configured
User-Agent is `"Mozilla/5.0 (compatible; go-harden/scout-v" + Version + ")"`,
that is `"Mozilla/5.0 (compatible; go-harden/scout-v0.1.0)"`; otherwise it is
the argument of the last `WithUserAgent`. -/
theorem default_user_agent :
    (∀ (env : GoEnv) (registry : Registry) (seed : Nat) (calls : List OptionCall),
      (configure env registry seed (calls.map OptionCall.toOption)).UserAgent =
        (lastCall OptionCall.userAgent calls).getD
          ("Mozilla/5.0 (compatible; go-harden/scout-v" ++ Version ++ ")")) ∧
    (∀ (env : GoEnv) (registry : Registry) (seed : Nat),
      (defaultOptions env registry seed).UserAgent =
        "Mozilla/5.0 (compatible; go-harden/scout-v0.1.0)") := by
  refine ⟨?_, fun _ _ _ => by simp [defaultOptions, Version]⟩
  intro env registry seed calls
  unfold configure
  rw [foldl_field (fun o => o.UserAgent) OptionCall.userAgent userAgent_toOption]
  rfl

/-- Counterexample to C13 as stated: the default User-Agent is not
`"Mozilla/5.0 (compatible; scout-v" + Version + ")"`. -/
theorem default_user_agent_not_short :
    (configure asciiEnv GoMap.empty 0 []).UserAgent ≠
      "Mozilla/5.0 (compatible; scout-v" ++ Version ++ ")" := by
  decide

theorem lastCall_map {α β : Type} (pick : OptionCall → Option α) (g : α → β)
    (calls : List OptionCall) :
    lastCall (fun c => (pick c).map g) calls = (lastCall pick calls).map g := by
  induction calls with
  | nil => rfl
  | cons c rest ih =>
    simp only [lastCall, ih]
    cases lastCall pick rest <;> rfl

theorem GoMap.get?_empty {V : Type} (k : String) : (GoMap.empty : GoMap V).get? k = none := rfl

theorem sourceRateLimit_With (o : Options) (name : String) (rps : Limit) (n : String) :
    (WithSourceRateLimit name rps o).sourceRateLimit n =
      if n = name then some rps else o.sourceRateLimit n := by
  unfold WithSourceRateLimit Options.sourceRateLimit
  cases o.SourceRateLimits with
  | none => simp only [Option.bind, GoMap.get?_set, GoMap.get?_empty]
  | some m => simp only [Option.bind, GoMap.get?_set]

theorem apiKey_With (o : Options) (name key : String) (n : String) :
    (WithAPIKey name key o).apiKey n = if n = name then some key else o.apiKey n := by
  unfold WithAPIKey Options.apiKey
  cases o.APIKeys with
  | none => simp only [Option.bind, GoMap.get?_set, GoMap.get?_empty]
  | some m => simp only [Option.bind, GoMap.get?_set]

theorem sources_toOption (c : OptionCall) (o : Options) :
    (c.toOption o).Sources = (OptionCall.sources c).getD o.Sources := by
  cases c <;> rfl

theorem httpClient_toOption (c : OptionCall) (o : Options) :
    (c.toOption o).HTTPClient = (OptionCall.httpClient c).getD o.HTTPClient := by
  cases c <;> rfl

theorem globalRateLimit_toOption (c : OptionCall) (o : Options) :
    (c.toOption o).GlobalRateLimit = (OptionCall.globalRateLimit c).getD o.GlobalRateLimit := by
  cases c <;> rfl

theorem timeout_toOption (c : OptionCall) (o : Options) :
    (c.toOption o).Timeout = (OptionCall.timeout c).getD o.Timeout := by
  cases c <;> rfl

theorem sourceRateLimit_toOption (n : String) (c : OptionCall) (o : Options) :
    (c.toOption o).sourceRateLimit n =
      ((OptionCall.sourceRateLimit n c).map some).getD (o.sourceRateLimit n) := by
  cases c with
  | withSourceRateLimit source rps =>
    show (WithSourceRateLimit source rps o).sourceRateLimit n = _
    rw [sourceRateLimit_With]
    by_cases h : n = source
    · subst h; simp [OptionCall.sourceRateLimit]
    · have h1 : ¬ source = n := fun hc => h hc.symm
      simp [OptionCall.sourceRateLimit, h, h1]
  | _ => rfl

theorem apiKey_toOption (n : String) (c : OptionCall) (o : Options) :
    (c.toOption o).apiKey n = ((OptionCall.apiKey n c).map some).getD (o.apiKey n) := by
  cases c with
  | withAPIKey source key =>
    show (WithAPIKey source key o).apiKey n = _
    rw [apiKey_With]
    by_cases h : n = source
    · subst h; simp [OptionCall.apiKey]
    · have h1 : ¬ source = n := fun hc => h hc.symm
      simp [OptionCall.apiKey, h, h1]
  | _ => rfl

/-- C14: applied to any `Options` value, `WithSources`, `WithHTTPClient`,
`WithParallelism`, `WithGlobalRateLimit`, `WithTimeout` and `WithUserAgent` set
their one field to the argument and leave the seven other fields unchanged;
`WithSourceRateLimit(name, rps)` and `WithAPIKey(name, key)` set the map entry
of `name`, leave the entry of every other name as it was, and leave the seven
other fields unchanged; so after a list of constructor calls every field, and
the map entry of every name, holds the argument of the last call for it, or
its old value when there is none. -/
theorem options_change_only_their_field :
    (∀ (o : Options) (srcs : Option (List Source)),
      (WithSources srcs o).Sources = srcs ∧
      (WithSources srcs o).HTTPClient = o.HTTPClient ∧
      (WithSources srcs o).Parallelism = o.Parallelism ∧
      (WithSources srcs o).GlobalRateLimit = o.GlobalRateLimit ∧
      (WithSources srcs o).SourceRateLimits = o.SourceRateLimits ∧
      (WithSources srcs o).Timeout = o.Timeout ∧
      (WithSources srcs o).UserAgent = o.UserAgent ∧
      (WithSources srcs o).APIKeys = o.APIKeys) ∧
    (∀ (o : Options) (c : Option Client),
      (WithHTTPClient c o).HTTPClient = c ∧
      (WithHTTPClient c o).Sources = o.Sources ∧
      (WithHTTPClient c o).Parallelism = o.Parallelism ∧
      (WithHTTPClient c o).GlobalRateLimit = o.GlobalRateLimit ∧
      (WithHTTPClient c o).SourceRateLimits = o.SourceRateLimits ∧
      (WithHTTPClient c o).Timeout = o.Timeout ∧
      (WithHTTPClient c o).UserAgent = o.UserAgent ∧
      (WithHTTPClient c o).APIKeys = o.APIKeys) ∧
    (∀ (o : Options) (n : Int),
      (WithParallelism n o).Parallelism = n ∧
      (WithParallelism n o).Sources = o.Sources ∧
      (WithParallelism n o).HTTPClient = o.HTTPClient ∧
      (WithParallelism n o).GlobalRateLimit = o.GlobalRateLimit ∧
      (WithParallelism n o).SourceRateLimits = o.SourceRateLimits ∧
      (WithParallelism n o).Timeout = o.Timeout ∧
      (WithParallelism n o).UserAgent = o.UserAgent ∧
      (WithParallelism n o).APIKeys = o.APIKeys) ∧
    (∀ (o : Options) (rps : Limit),
      (WithGlobalRateLimit rps o).GlobalRateLimit = rps ∧
      (WithGlobalRateLimit rps o).Sources = o.Sources ∧
      (WithGlobalRateLimit rps o).HTTPClient = o.HTTPClient ∧
      (WithGlobalRateLimit rps o).Parallelism = o.Parallelism ∧
      (WithGlobalRateLimit rps o).SourceRateLimits = o.SourceRateLimits ∧
      (WithGlobalRateLimit rps o).Timeout = o.Timeout ∧
      (WithGlobalRateLimit rps o).UserAgent = o.UserAgent ∧
      (WithGlobalRateLimit rps o).APIKeys = o.APIKeys) ∧
    (∀ (o : Options) (d : Duration),
      (WithTimeout d o).Timeout = d ∧
      (WithTimeout d o).Sources = o.Sources ∧
      (WithTimeout d o).HTTPClient = o.HTTPClient ∧
      (WithTimeout d o).Parallelism = o.Parallelism ∧
      (WithTimeout d o).GlobalRateLimit = o.GlobalRateLimit ∧
      (WithTimeout d o).SourceRateLimits = o.SourceRateLimits ∧
      (WithTimeout d o).UserAgent = o.UserAgent ∧
      (WithTimeout d o).APIKeys = o.APIKeys) ∧
    (∀ (o : Options) (ua : String),
      (WithUserAgent ua o).UserAgent = ua ∧
      (WithUserAgent ua o).Sources = o.Sources ∧
      (WithUserAgent ua o).HTTPClient = o.HTTPClient ∧
      (WithUserAgent ua o).Parallelism = o.Parallelism ∧
      (WithUserAgent ua o).GlobalRateLimit = o.GlobalRateLimit ∧
      (WithUserAgent ua o).SourceRateLimits = o.SourceRateLimits ∧
      (WithUserAgent ua o).Timeout = o.Timeout ∧
      (WithUserAgent ua o).APIKeys = o.APIKeys) ∧
    (∀ (o : Options) (name : String) (rps : Limit),
      (∀ n : String, (WithSourceRateLimit name rps o).sourceRateLimit n =
        if n = name then some rps else o.sourceRateLimit n) ∧
      (WithSourceRateLimit name rps o).Sources = o.Sources ∧
      (WithSourceRateLimit name rps o).HTTPClient = o.HTTPClient ∧
      (WithSourceRateLimit name rps o).Parallelism = o.Parallelism ∧
      (WithSourceRateLimit name rps o).GlobalRateLimit = o.GlobalRateLimit ∧
      (WithSourceRateLimit name rps o).Timeout = o.Timeout ∧
      (WithSourceRateLimit name rps o).UserAgent = o.UserAgent ∧
      (WithSourceRateLimit name rps o).APIKeys = o.APIKeys) ∧
    (∀ (o : Options) (name key : String),
      (∀ n : String, (WithAPIKey name key o).apiKey n =
        if n = name then some key else o.apiKey n) ∧
      (WithAPIKey name key o).Sources = o.Sources ∧
      (WithAPIKey name key o).HTTPClient = o.HTTPClient ∧
      (WithAPIKey name key o).Parallelism = o.Parallelism ∧
      (WithAPIKey name key o).GlobalRateLimit = o.GlobalRateLimit ∧
      (WithAPIKey name key o).SourceRateLimits = o.SourceRateLimits ∧
      (WithAPIKey name key o).Timeout = o.Timeout ∧
      (WithAPIKey name key o).UserAgent = o.UserAgent) ∧
    (∀ (calls : List OptionCall) (o : Options),
      ((calls.map OptionCall.toOption).foldl (fun cfg opt => opt cfg) o).Sources =
        (lastCall OptionCall.sources calls).getD o.Sources ∧
      ((calls.map OptionCall.toOption).foldl (fun cfg opt => opt cfg) o).HTTPClient =
        (lastCall OptionCall.httpClient calls).getD o.HTTPClient ∧
      ((calls.map OptionCall.toOption).foldl (fun cfg opt => opt cfg) o).Parallelism =
        (lastCall OptionCall.parallelism calls).getD o.Parallelism ∧
      ((calls.map OptionCall.toOption).foldl (fun cfg opt => opt cfg) o).GlobalRateLimit =
        (lastCall OptionCall.globalRateLimit calls).getD o.GlobalRateLimit ∧
      ((calls.map OptionCall.toOption).foldl (fun cfg opt => opt cfg) o).Timeout =
        (lastCall OptionCall.timeout calls).getD o.Timeout ∧
      ((calls.map OptionCall.toOption).foldl (fun cfg opt => opt cfg) o).UserAgent =
        (lastCall OptionCall.userAgent calls).getD o.UserAgent ∧
      (∀ n : String,
        ((calls.map OptionCall.toOption).foldl (fun cfg opt => opt cfg) o).sourceRateLimit n =
          match lastCall (OptionCall.sourceRateLimit n) calls with
          | some rps => some rps
          | none => o.sourceRateLimit n) ∧
      (∀ n : String,
        ((calls.map OptionCall.toOption).foldl (fun cfg opt => opt cfg) o).apiKey n =
          match lastCall (OptionCall.apiKey n) calls with
          | some key => some key
          | none => o.apiKey n)) := by
  refine ⟨fun _ _ => ⟨rfl, rfl, rfl, rfl, rfl, rfl, rfl, rfl⟩,
    fun _ _ => ⟨rfl, rfl, rfl, rfl, rfl, rfl, rfl, rfl⟩,
    fun _ _ => ⟨rfl, rfl, rfl, rfl, rfl, rfl, rfl, rfl⟩,
    fun _ _ => ⟨rfl, rfl, rfl, rfl, rfl, rfl, rfl, rfl⟩,
    fun _ _ => ⟨rfl, rfl, rfl, rfl, rfl, rfl, rfl, rfl⟩,
    fun _ _ => ⟨rfl, rfl, rfl, rfl, rfl, rfl, rfl, rfl⟩,
    fun o name rps => ⟨sourceRateLimit_With o name rps, rfl, rfl, rfl, rfl, rfl, rfl, rfl⟩,
    fun o name key => ⟨apiKey_With o name key, rfl, rfl, rfl, rfl, rfl, rfl, rfl⟩, ?_⟩
  intro calls o
  refine ⟨foldl_field _ _ sources_toOption calls o, foldl_field _ _ httpClient_toOption calls o,
    foldl_field _ _ parallelism_toOption calls o,
    foldl_field _ _ globalRateLimit_toOption calls o,
    foldl_field _ _ timeout_toOption calls o, foldl_field _ _ userAgent_toOption calls o,
    ?_, ?_⟩
  · intro n
    rw [foldl_field (fun o => o.sourceRateLimit n) _ (sourceRateLimit_toOption n) calls o,
      lastCall_map]
    cases lastCall (OptionCall.sourceRateLimit n) calls <;> rfl
  · intro n
    rw [foldl_field (fun o => o.apiKey n) _ (apiKey_toOption n) calls o, lastCall_map]
    cases lastCall (OptionCall.apiKey n) calls <;> rfl

/-! ## Client composition -/

theorem transport_wrapUserAgent (c : Client) (ua : String) :
    (wrapClientWithUserAgent c ua).transport = .userAgentTransport c.transport ua := by
  unfold wrapClientWithUserAgent Client.transport
  cases c.Transport <;> rfl

theorem transport_wrapRateLimiter (c : Client) (limiter : Limiter) :
    (wrapClientWithRateLimiter c limiter).transport = .rateLimitTransport c.transport limiter := by
  unfold wrapClientWithRateLimiter Client.transport
  cases c.Transport <;> rfl

theorem RoundTrip_rateLimit_events (wait : Limiter → Option GoError) (base : RoundTripper)
    (limiter : Limiter) (req : Request) :
    ((RoundTripper.rateLimitTransport base limiter).RoundTrip wait req).events =
      gated wait (some limiter) (base.RoundTrip wait req).events := by
  unfold gated
  simp only [RoundTripper.RoundTrip]
  cases wait limiter <;> rfl

theorem RoundTrip_original (wait : Limiter → Option GoError) :
    ∀ (t : RoundTripper) (req : Request), (t.RoundTrip wait req).original = req := by
  intro t
  induction t with
  | DefaultTransport => intro req; rfl
  | custom name => intro req; rfl
  | userAgentTransport base ua _ => intro req; rfl
  | rateLimitTransport base limiter ih =>
    intro req
    simp only [RoundTripper.RoundTrip]
    cases wait limiter with
    | some e => rfl
    | none => exact ih req

/-- The transport of the client that `Query` hands to a source. -/
theorem transport_clientOf (cfg : Options) (s : Source) :
    (clientOf cfg s).transport =
      match cfg.sourceRateLimit s.Name with
      | some limit =>
        .rateLimitTransport
          (if cfg.GlobalRateLimit > 0 then
            .rateLimitTransport
              (if cfg.UserAgent = "" then (baseClient cfg).transport
                else .userAgentTransport (baseClient cfg).transport cfg.UserAgent)
              { limit := cfg.GlobalRateLimit, burst := 1 }
          else
            (if cfg.UserAgent = "" then (baseClient cfg).transport
              else .userAgentTransport (baseClient cfg).transport cfg.UserAgent))
          { limit := limit, burst := 1 }
      | none =>
        if cfg.GlobalRateLimit > 0 then
          .rateLimitTransport
            (if cfg.UserAgent = "" then (baseClient cfg).transport
              else .userAgentTransport (baseClient cfg).transport cfg.UserAgent)
            { limit := cfg.GlobalRateLimit, burst := 1 }
        else
          (if cfg.UserAgent = "" then (baseClient cfg).transport
            else .userAgentTransport (baseClient cfg).transport cfg.UserAgent) := by
  have hshared : (sharedClient cfg).transport =
      if cfg.GlobalRateLimit > 0 then
        .rateLimitTransport
          (if cfg.UserAgent = "" then (baseClient cfg).transport
            else .userAgentTransport (baseClient cfg).transport cfg.UserAgent)
          { limit := cfg.GlobalRateLimit, burst := 1 }
      else
        (if cfg.UserAgent = "" then (baseClient cfg).transport
          else .userAgentTransport (baseClient cfg).transport cfg.UserAgent) := by
    unfold sharedClient
    by_cases hua : cfg.UserAgent = "" <;> by_cases hg : cfg.GlobalRateLimit > 0 <;>
      simp [hua, hg, transport_wrapRateLimiter, transport_wrapUserAgent]
  unfold clientOf sourceClient
  change (match cfg.sourceRateLimit s.Name with
    | some limit => wrapClientWithRateLimiter (sharedClient cfg) { limit := limit, burst := 1 }
    | none => sharedClient cfg).transport = _
  cases cfg.sourceRateLimit s.Name with
  | none => exact hshared
  | some limit =>
    simp only [transport_wrapRateLimiter, hshared]

theorem events_clientOf (cfg : Options) (s : Source) (wait : Limiter → Option GoError)
    (req : Request) :
    (Client.Do wait (clientOf cfg s) req).events =
      gated wait ((cfg.sourceRateLimit s.Name).map (fun limit => { limit := limit, burst := 1 }))
        (gated wait
          (if cfg.GlobalRateLimit > 0 then some { limit := cfg.GlobalRateLimit, burst := 1 }
            else none)
          ((baseClient cfg).transport.RoundTrip wait
            (if cfg.UserAgent = "" then req
              else { req with Header := Header.Set req.Header "User-Agent" cfg.UserAgent })).events)
    := by
  unfold Client.Do
  rw [transport_clientOf]
  have hua : ∀ r : Request,
      ((if cfg.UserAgent = "" then (baseClient cfg).transport
        else .userAgentTransport (baseClient cfg).transport cfg.UserAgent).RoundTrip wait
          r).events =
      ((baseClient cfg).transport.RoundTrip wait
        (if cfg.UserAgent = "" then r
          else { r with Header := Header.Set r.Header "User-Agent" cfg.UserAgent })).events := by
    intro r
    by_cases h : cfg.UserAgent = ""
    · simp only [h, if_true]
    · simp only [h, if_false]
      rfl
  have hg : ∀ r : Request,
      ((if cfg.GlobalRateLimit > 0 then
          RoundTripper.rateLimitTransport
            (if cfg.UserAgent = "" then (baseClient cfg).transport
              else .userAgentTransport (baseClient cfg).transport cfg.UserAgent)
            { limit := cfg.GlobalRateLimit, burst := 1 }
        else
          (if cfg.UserAgent = "" then (baseClient cfg).transport
            else .userAgentTransport (baseClient cfg).transport cfg.UserAgent)).RoundTrip wait
          r).events =
      gated wait
        (if cfg.GlobalRateLimit > 0 then some { limit := cfg.GlobalRateLimit, burst := 1 }
          else none)
        ((baseClient cfg).transport.RoundTrip wait
          (if cfg.UserAgent = "" then r
            else { r with Header := Header.Set r.Header "User-Agent" cfg.UserAgent })).events
      := by
    intro r
    by_cases h : cfg.GlobalRateLimit > 0
    · simp only [h, if_true, RoundTrip_rateLimit_events, hua]
    · simp only [h, if_false, hua]
      rfl
  cases cfg.sourceRateLimit s.Name with
  | none => exact hg req
  | some limit =>
    simp only [RoundTrip_rateLimit_events, hg, Option.map_some']

/-- C15: the transport of the client handed to source `S` is the transport of
the base client wrapped, outermost first, by a rate-limit layer for `S`
(present exactly when `SourceRateLimits` has an entry for `S.Name`), a global
rate-limit layer (present exactly when `GlobalRateLimit > 0`) and a user-agent
layer (present exactly when `UserAgent` is not empty); a request sent with it
waits on the limiter of `S`, then on the global limiter, and is then handed to
the base transport with its User-Agent set. -/
theorem source_client_layers (cfg : Options) (s : Source) :
    (clientOf cfg s).transport =
      (match cfg.sourceRateLimit s.Name with
        | some limit =>
          .rateLimitTransport
            (if cfg.GlobalRateLimit > 0 then
              .rateLimitTransport
                (if cfg.UserAgent = "" then (baseClient cfg).transport
                  else .userAgentTransport (baseClient cfg).transport cfg.UserAgent)
                { limit := cfg.GlobalRateLimit, burst := 1 }
            else
              (if cfg.UserAgent = "" then (baseClient cfg).transport
                else .userAgentTransport (baseClient cfg).transport cfg.UserAgent))
            { limit := limit, burst := 1 }
        | none =>
          if cfg.GlobalRateLimit > 0 then
            .rateLimitTransport
              (if cfg.UserAgent = "" then (baseClient cfg).transport
                else .userAgentTransport (baseClient cfg).transport cfg.UserAgent)
              { limit := cfg.GlobalRateLimit, burst := 1 }
          else
            (if cfg.UserAgent = "" then (baseClient cfg).transport
              else .userAgentTransport (baseClient cfg).transport cfg.UserAgent)) ∧
    (∀ (wait : Limiter → Option GoError) (req : Request),
      (Client.Do wait (clientOf cfg s) req).events =
        gated wait
          ((cfg.sourceRateLimit s.Name).map (fun limit => { limit := limit, burst := 1 }))
          (gated wait
            (if cfg.GlobalRateLimit > 0 then some { limit := cfg.GlobalRateLimit, burst := 1 }
              else none)
            ((baseClient cfg).transport.RoundTrip wait
              (if cfg.UserAgent = "" then req
                else { req with
                  Header := Header.Set req.Header "User-Agent" cfg.UserAgent })).events)) ∧
    (∀ req : Request,
      (Client.Do (fun _ => none) (clientOf cfg s) req).events =
        (match cfg.sourceRateLimit s.Name with
          | some limit => [TransportEvent.wait { limit := limit, burst := 1 }]
          | none => []) ++
        (if cfg.GlobalRateLimit > 0 then
            [TransportEvent.wait { limit := cfg.GlobalRateLimit, burst := 1 }]
          else []) ++
        ((baseClient cfg).transport.RoundTrip (fun _ => none)
          (if cfg.UserAgent = "" then req
            else { req with
              Header := Header.Set req.Header "User-Agent" cfg.UserAgent })).events) := by
  refine ⟨transport_clientOf cfg s, events_clientOf cfg s, ?_⟩
  intro req
  rw [events_clientOf]
  cases cfg.sourceRateLimit s.Name <;> by_cases hg : cfg.GlobalRateLimit > 0 <;>
    simp [gated, hg]

/-! ## The User-Agent header -/

theorem Header.Get_Set (h : List (String × String)) (key value key1 : String) :
    Header.Get (Header.Set h key value) key1 =
      if key1 = key then value else Header.Get h key1 := by
  induction h with
  | nil =>
    by_cases hk : key1 = key
    · subst hk; simp [Header.Get, Header.Set]
    · have hk1 : ¬ key = key1 := fun hc => hk hc.symm
      simp [Header.Get, Header.Set, hk, hk1]
  | cons e rest ih =>
    have hset : Header.Set (e :: rest) key value =
        if e.1 = key then Header.Set rest key value else e :: Header.Set rest key value := by
      by_cases he : e.1 = key <;> simp [Header.Set, he]
    have hget : ∀ (l : List (String × String)),
        Header.Get (e :: l) key1 = if e.1 = key1 then e.2 else Header.Get l key1 := by
      intro l
      by_cases he : e.1 = key1 <;> simp [Header.Get, he]
    rw [hset]
    by_cases he : e.1 = key
    · rw [if_pos he, ih, hget]
      by_cases hk : key1 = key
      · simp [hk]
      · have : ¬ e.1 = key1 := fun hc => hk (hc.symm.trans he)
        simp [hk, this]
    · rw [if_neg he, hget, hget, ih]
      by_cases he1 : e.1 = key1
      · have hk : ¬ key1 = key := fun hc => he (he1.trans hc)
        simp [he1, hk]
      · simp [he1]

/-- C16 (as amended): a request sent with the client of a source passes the
limiter of the source and the global limiter, where they exist, and is then
handed to the base transport; when the configured User-Agent is not empty the
request handed over is a copy whose User-Agent header is the configured value,
with every other header, the method, the URL and the body unchanged; when it
is empty the request is handed over with its own headers. The request object
of the source is as it was. -/
theorem user_agent_reaches_base :
    (∀ (cfg : Options) (s : Source) (wait : Limiter → Option GoError) (req : Request),
      (Client.Do wait (clientOf cfg s) req).events =
        gated wait
          ((cfg.sourceRateLimit s.Name).map (fun limit => { limit := limit, burst := 1 }))
          (gated wait
            (if cfg.GlobalRateLimit > 0 then some { limit := cfg.GlobalRateLimit, burst := 1 }
              else none)
            ((baseClient cfg).transport.RoundTrip wait
              (if cfg.UserAgent = "" then req
                else { req with
                  Header := Header.Set req.Header "User-Agent" cfg.UserAgent })).events) ∧
      (Client.Do wait (clientOf cfg s) req).original = req) ∧
    (∀ (req : Request) (userAgent : String),
      Header.Get ({ req with Header := Header.Set req.Header "User-Agent" userAgent }).Header
        "User-Agent" = userAgent ∧
      (∀ key : String,
        Header.Get ({ req with Header := Header.Set req.Header "User-Agent" userAgent }).Header
          key = if key = "User-Agent" then userAgent else Header.Get req.Header key) ∧
      ({ req with Header := Header.Set req.Header "User-Agent" userAgent }).Method
        = req.Method ∧
      ({ req with Header := Header.Set req.Header "User-Agent" userAgent }).URL = req.URL ∧
      ({ req with Header := Header.Set req.Header "User-Agent" userAgent }).Body = req.Body) ∧
    (∀ (cfg : Options) (s : Source) (req : Request),
      cfg.UserAgent ≠ "" → cfg.HTTPClient = none →
      ∃ waits : List TransportEvent,
        (Client.Do (fun _ => none) (clientOf cfg s) req).events =
          waits ++ [TransportEvent.sent RoundTripper.DefaultTransport
            { req with Header := Header.Set req.Header "User-Agent" cfg.UserAgent }]) := by
  refine ⟨fun cfg s wait req => ⟨events_clientOf cfg s wait req, RoundTrip_original wait _ req⟩,
    ?_, ?_⟩
  · intro req userAgent
    refine ⟨?_, fun key => Header.Get_Set req.Header "User-Agent" userAgent key, rfl, rfl, rfl⟩
    rw [Header.Get_Set, if_pos rfl]
  · intro cfg s req hua hclient
    have hbase : (baseClient cfg).transport = RoundTripper.DefaultTransport := by
      unfold baseClient
      rw [hclient]
      rfl
    rw [events_clientOf, hbase]
    simp only [hua, if_false]
    cases cfg.sourceRateLimit s.Name <;> by_cases hg : cfg.GlobalRateLimit > 0
    · exact ⟨[TransportEvent.wait { limit := cfg.GlobalRateLimit, burst := 1 }], by
        simp [gated, hg, RoundTripper.RoundTrip]⟩
    · exact ⟨[], by simp [gated, hg, RoundTripper.RoundTrip]⟩
    · rename_i limit
      exact ⟨[TransportEvent.wait { limit := limit, burst := 1 },
        TransportEvent.wait { limit := cfg.GlobalRateLimit, burst := 1 }], by
        simp [gated, hg, RoundTripper.RoundTrip]⟩
    · rename_i limit
      exact ⟨[TransportEvent.wait { limit := limit, burst := 1 }], by
        simp [gated, hg, RoundTripper.RoundTrip]⟩

/-- Witness of C16: with `WithUserAgent("scout/test")` and no client supplied,
a request of a source is handed to `http.DefaultTransport` with that
User-Agent. -/
theorem user_agent_reaches_base_witness :
    (configure asciiEnv GoMap.empty 0 [WithUserAgent "scout/test"]).UserAgent ≠ "" ∧
    (configure asciiEnv GoMap.empty 0 [WithUserAgent "scout/test"]).HTTPClient = none ∧
    ∃ waits : List TransportEvent,
      (Client.Do (fun _ => none)
        (clientOf (configure asciiEnv GoMap.empty 0 [WithUserAgent "scout/test"])
          (mockSource "test" Subdomain [] []))
        ⟨"GET", "https://example.com/", [("Accept", "application/json")], ""⟩).events =
        waits ++ [TransportEvent.sent RoundTripper.DefaultTransport
          ⟨"GET", "https://example.com/",
            Header.Set [("Accept", "application/json")] "User-Agent" "scout/test", ""⟩] :=
  ⟨by decide, rfl,
    user_agent_reaches_base.2.2 (configure asciiEnv GoMap.empty 0 [WithUserAgent "scout/test"])
      (mockSource "test" Subdomain [] [])
      ⟨"GET", "https://example.com/", [("Accept", "application/json")], ""⟩
      (by decide) rfl⟩

/-- Counterexample to C16 as stated: with the configured value `""`
(`WithUserAgent("")`) a request that carries its own User-Agent reaches the
base transport with that header, not with the configured value; and with a
global rate limit whose `Wait` fails the request does not reach the base
transport at all. -/
theorem user_agent_empty_not_set :
    (configure asciiEnv GoMap.empty 0 [WithUserAgent ""]).UserAgent = "" ∧
    (Client.Do (fun _ => none)
      (clientOf (configure asciiEnv GoMap.empty 0 [WithUserAgent ""])
        (mockSource "test" Subdomain [] []))
      ⟨"GET", "https://example.com/", [("User-Agent", "custom/1.0")], ""⟩).events =
      [TransportEvent.sent RoundTripper.DefaultTransport
        ⟨"GET", "https://example.com/", [("User-Agent", "custom/1.0")], ""⟩] ∧
    Header.Get [("User-Agent", "custom/1.0")] "User-Agent" ≠ "" ∧
    (Client.Do (fun _ => some "context canceled")
      (clientOf (configure asciiEnv GoMap.empty 0 [WithGlobalRateLimit 1])
        (mockSource "test" Subdomain [] []))
      ⟨"GET", "https://example.com/", [], ""⟩).events =
      [TransportEvent.wait { limit := 1, burst := 1 },
        TransportEvent.failed "context canceled"] := by
  refine ⟨rfl, ?_, by decide, ?_⟩
  · decide
  · decide

/-! ## What the wrappers keep -/

theorem clientOf_fields (cfg : Options) (s : Source) :
    (clientOf cfg s).CheckRedirect = (baseClient cfg).CheckRedirect ∧
    (clientOf cfg s).Jar = (baseClient cfg).Jar ∧
    (clientOf cfg s).Timeout = (baseClient cfg).Timeout := by
  have hshared : (sharedClient cfg).CheckRedirect = (baseClient cfg).CheckRedirect ∧
      (sharedClient cfg).Jar = (baseClient cfg).Jar ∧
      (sharedClient cfg).Timeout = (baseClient cfg).Timeout := by
    unfold sharedClient
    by_cases hua : cfg.UserAgent = "" <;> by_cases hg : cfg.GlobalRateLimit > 0 <;>
      simp [hua, hg, wrapClientWithRateLimiter, wrapClientWithUserAgent]
  unfold clientOf sourceClient
  cases cfg.SourceRateLimits.bind (fun m => m.get? s.Name) with
  | none => exact hshared
  | some limit => exact hshared

/-- C17: `wrapClientWithUserAgent` and `wrapClientWithRateLimiter` return a
client whose `Timeout`, `Jar` and `CheckRedirect` are those of the input
client and whose transport is the new layer around the input client's
transport, `http.DefaultTransport` when that is nil: a round trip through the
new client is a round trip of the input client's transport, on the request
with the User-Agent set, respectively after the wait on the limiter. -/
theorem wrappers_keep_client (client : Client) (userAgent : String) (limiter : Limiter) :
    ((wrapClientWithUserAgent client userAgent).Timeout = client.Timeout ∧
      (wrapClientWithUserAgent client userAgent).Jar = client.Jar ∧
      (wrapClientWithUserAgent client userAgent).CheckRedirect = client.CheckRedirect ∧
      (wrapClientWithUserAgent client userAgent).Transport =
        some (RoundTripper.userAgentTransport
          (match client.Transport with
            | some t => t
            | none => RoundTripper.DefaultTransport) userAgent) ∧
      ∀ (wait : Limiter → Option GoError) (req : Request),
        (Client.Do wait (wrapClientWithUserAgent client userAgent) req).events =
          (Client.Do wait client
            { req with Header := Header.Set req.Header "User-Agent" userAgent }).events) ∧
    ((wrapClientWithRateLimiter client limiter).Timeout = client.Timeout ∧
      (wrapClientWithRateLimiter client limiter).Jar = client.Jar ∧
      (wrapClientWithRateLimiter client limiter).CheckRedirect = client.CheckRedirect ∧
      (wrapClientWithRateLimiter client limiter).Transport =
        some (RoundTripper.rateLimitTransport
          (match client.Transport with
            | some t => t
            | none => RoundTripper.DefaultTransport) limiter) ∧
      ∀ (wait : Limiter → Option GoError) (req : Request),
        (Client.Do wait (wrapClientWithRateLimiter client limiter) req).events =
          gated wait (some limiter) (Client.Do wait client req).events) := by
  refine ⟨⟨rfl, rfl, rfl, ?_, ?_⟩, ⟨rfl, rfl, rfl, ?_, ?_⟩⟩
  · unfold wrapClientWithUserAgent
    cases client.Transport <;> rfl
  · intro wait req
    unfold Client.Do
    rw [transport_wrapUserAgent]
    rfl
  · unfold wrapClientWithRateLimiter
    cases client.Transport <;> rfl
  · intro wait req
    unfold Client.Do
    rw [transport_wrapRateLimiter, RoundTrip_rateLimit_events]

/-- C18: when no HTTP client is configured, the `CheckRedirect` of the client
every source receives answers every redirect request and every `via` list with
the error "redirects not allowed"; when the caller supplied a client with
`WithHTTPClient`, the client of every source has that client's `CheckRedirect`. -/
theorem redirect_policy :
    (∀ (cfg : Options) (s : Source),
      (clientOf cfg s).CheckRedirect =
        match cfg.HTTPClient with
        | some client => client.CheckRedirect
        | none => some (fun _ _ => some "redirects not allowed")) ∧
    (∀ (env : GoEnv) (registry : Registry) (seed : Nat) (calls : List OptionCall),
      (configure env registry seed (calls.map OptionCall.toOption)).HTTPClient =
        (lastCall OptionCall.httpClient calls).getD none) ∧
    (∀ (cfg : Options) (s : Source) (req : Request) (via : List Request),
      (clientOf { cfg with HTTPClient := none } s).CheckRedirect.map (fun check => check req via)
        = some (some "redirects not allowed")) ∧
    (∀ (cfg : Options) (s : Source) (client : Client),
      (clientOf { cfg with HTTPClient := some client } s).CheckRedirect
        = client.CheckRedirect) := by
  have h1 : ∀ (cfg : Options) (s : Source),
      (clientOf cfg s).CheckRedirect =
        match cfg.HTTPClient with
        | some client => client.CheckRedirect
        | none => some (fun _ _ => some "redirects not allowed") := by
    intro cfg s
    rw [(clientOf_fields cfg s).1]
    unfold baseClient
    cases cfg.HTTPClient <;> rfl
  refine ⟨h1, ?_, ?_, ?_⟩
  · intro env registry seed calls
    unfold configure
    rw [foldl_field (fun o => o.HTTPClient) OptionCall.httpClient httpClient_toOption]
    rfl
  · intro cfg s req via
    rw [h1]
    rfl
  · intro cfg s client
    rw [h1]

/-- C19 (as amended): when no HTTP client is configured, the base client that
`Query` builds, and the client every source receives, have the configured
per-source `Timeout` as their timeout: 30 seconds when no `WithTimeout` option
is given, else the argument of the last `WithTimeout`. -/
theorem base_client_timeout :
    (∀ cfg : Options,
      (baseClient cfg).Timeout =
        match cfg.HTTPClient with
        | some client => client.Timeout
        | none => cfg.Timeout) ∧
    (∀ (cfg : Options) (s : Source), (clientOf cfg s).Timeout = (baseClient cfg).Timeout) ∧
    (∀ (env : GoEnv) (registry : Registry) (seed : Nat) (calls : List OptionCall),
      (configure env registry seed (calls.map OptionCall.toOption)).Timeout =
        (lastCall OptionCall.timeout calls).getD (30 * 1000000000)) := by
  refine ⟨?_, fun cfg s => (clientOf_fields cfg s).2.2, ?_⟩
  · intro cfg
    unfold baseClient
    cases cfg.HTTPClient <;> rfl
  · intro env registry seed calls
    unfold configure
    rw [foldl_field (fun o => o.Timeout) OptionCall.timeout timeout_toOption]
    rfl

/-- Counterexample to C19 as stated: with the option `WithTimeout(60s)` and no
HTTP client supplied, the base client has a 60-second timeout. -/
theorem base_client_timeout_follows_option :
    (configure asciiEnv GoMap.empty 0 [WithTimeout (60 * 1000000000)]).HTTPClient.isNone
      = true ∧
    (baseClient (configure asciiEnv GoMap.empty 0 [WithTimeout (60 * 1000000000)])).Timeout
      = 60 * 1000000000 ∧
    (baseClient (configure asciiEnv GoMap.empty 0 [WithTimeout (60 * 1000000000)])).Timeout
      ≠ 30 * 1000000000 := by
  decide

/-! ## Where the results of Query come from -/

theorem mem_of_mem_set {α : Type} (l : List α) (i : Nat) (a b : α) (h : b ∈ l.set i a) :
    b = a ∨ b ∈ l := by
  induction l generalizing i with
  | nil => simp at h
  | cons x xs ih =>
    cases i with
    | zero =>
      simp only [List.set_cons_zero, List.mem_cons] at h
      rcases h with h | h
      · exact Or.inl h
      · exact Or.inr (List.mem_cons_of_mem _ h)
    | succ j =>
      simp only [List.set_cons_succ, List.mem_cons] at h
      rcases h with h | h
      · exact Or.inr (h ▸ List.mem_cons_self _ _)
      · rcases ih j h with h1 | h1
        · exact Or.inl h1
        · exact Or.inr (List.mem_cons_of_mem _ h1)

/-- One scheduling step keeps: every item that arrived, and every item a
running goroutine still holds, was produced by the `Run` of some source. -/
theorem Sched.step_sound (cap : Nat) (run : Bool → Nat → List resultItem) (st : Sched)
    (e : Event)
    (h : (∀ item ∈ st.arrived, ∃ b i, item ∈ run b i) ∧
      (∀ g ∈ st.routines, ∀ item ∈ g.pending, ∃ b i, item ∈ run b i)) :
    (∀ item ∈ (st.step cap run e).arrived, ∃ b i, item ∈ run b i) ∧
      (∀ g ∈ (st.step cap run e).routines, ∀ item ∈ g.pending, ∃ b i, item ∈ run b i) := by
  obtain ⟨ha, hr⟩ := h
  have hfin : ∀ (j : Nat), ∀ g ∈ st.routines.set j Goroutine.finished,
      ∀ item ∈ g.pending, ∃ b i, item ∈ run b i := by
    intro j g hg item hitem
    rcases mem_of_mem_set _ _ _ _ hg with rfl | hg
    · cases hitem
    · exact hr g hg item hitem
  cases e with
  | cancel => exact ⟨ha, hr⟩
  | acquire i =>
    simp only [Sched.step]
    split
    · split
      · split
        · exact ⟨ha, hfin i⟩
        · rename_i item items hrun
          refine ⟨ha, ?_⟩
          intro g hg it hit
          rcases mem_of_mem_set _ _ _ _ hg with rfl | hg
          · exact ⟨st.ctxDone, i, hrun ▸ hit⟩
          · exact hr g hg it hit
      · exact ⟨ha, hr⟩
    · exact ⟨ha, hr⟩
  | send i =>
    simp only [Sched.step]
    split
    · rename_i item items hget
      have hmem : Goroutine.running (item :: items) ∈ st.routines :=
        List.get?_mem hget
      have hitems : ∀ it ∈ item :: items, ∃ b i, it ∈ run b i :=
        fun it hit => hr _ hmem it hit
      have harr : ∀ it ∈ st.arrived ++ [item], ∃ b i, it ∈ run b i := by
        intro it hit
        rcases List.mem_append.1 hit with hit | hit
        · exact ha it hit
        · rw [List.mem_singleton] at hit
          exact hit ▸ hitems item (List.mem_cons_self _ _)
      split
      · exact ⟨harr, hfin i⟩
      · refine ⟨harr, ?_⟩
        intro g hg it hit
        rcases mem_of_mem_set _ _ _ _ hg with rfl | hg
        · exact hitems it (List.mem_cons_of_mem _ hit)
        · exact hr g hg it hit
    · exact ⟨ha, hr⟩
  | done i =>
    simp only [Sched.step]
    split
    · split
      · exact ⟨ha, hfin i⟩
      · exact ⟨ha, hr⟩
    · exact ⟨ha, hr⟩

theorem foldl_step_sound (cap : Nat) (run : Bool → Nat → List resultItem)
    (sched : List Event) :
    ∀ st : Sched,
      ((∀ item ∈ st.arrived, ∃ b i, item ∈ run b i) ∧
        (∀ g ∈ st.routines, ∀ item ∈ g.pending, ∃ b i, item ∈ run b i)) →
      ((∀ item ∈ (sched.foldl (Sched.step cap run) st).arrived, ∃ b i, item ∈ run b i) ∧
        (∀ g ∈ (sched.foldl (Sched.step cap run) st).routines,
          ∀ item ∈ g.pending, ∃ b i, item ∈ run b i)) := by
  induction sched with
  | nil => intro st h; exact h
  | cons e rest ih =>
    intro st h
    rw [List.foldl_cons]
    exact ih _ (Sched.step_sound cap run st e h)

/-- Every item of an arrival sequence was produced by the `Run` of a source. -/
theorem arrivals_sound (cap : Nat) (run : Bool → Nat → List resultItem) (n : Nat)
    (ctxDone : Bool) (sched : List Event) :
    ∀ item ∈ (arrivals cap run n ctxDone sched).1, ∃ b i, item ∈ run b i := by
  unfold arrivals
  have hinit : ∀ g ∈ List.replicate n Goroutine.waiting, ∀ item ∈ g.pending,
      ∃ b i, item ∈ run b i := by
    intro g hg item hitem
    rw [List.eq_of_mem_replicate hg] at hitem
    cases hitem
  have hempty : ∀ item ∈ ([] : List resultItem), ∃ b i, item ∈ run b i := by
    intro item h
    cases h
  obtain ⟨ha, hr⟩ := foldl_step_sound cap run sched
    { ctxDone := ctxDone, inUse := 0, routines := List.replicate n .waiting, arrived := [] }
    ⟨hempty, hinit⟩
  generalize List.foldl (Sched.step cap run) _ sched = st at ha hr ⊢
  have hflushed : ∀ item ∈ st.arrived ++ (st.routines.map Goroutine.pending).flatten,
      ∃ b i, item ∈ run b i := by
    intro item hitem
    rcases List.mem_append.1 hitem with h | h
    · exact ha item h
    · obtain ⟨l, hl, hil⟩ := List.mem_flatten.1 h
      obtain ⟨g, hg, rfl⟩ := List.mem_map.1 hl
      exact hr g hg item hil
  intro item hitem
  unfold Sched.finish at hitem
  split at hitem
  · exact hflushed item hitem
  · split at hitem
    · exact hflushed item hitem
    · rcases List.mem_append.1 hitem with h | h
      · exact hflushed item h
      · obtain ⟨l, hl, hil⟩ := List.mem_flatten.1 h
        obtain ⟨i, _, rfl⟩ := List.mem_map.1 hl
        exact ⟨st.ctxDone, i, hil⟩

theorem mem_firstOccurrencesFrom (env : GoEnv) (r : Result) :
    ∀ (arrived earlier : List resultItem),
      r ∈ firstOccurrencesFrom env earlier arrived → (⟨r, none⟩ : resultItem) ∈ arrived := by
  intro arrived
  induction arrived with
  | nil => intro earlier h; simp [firstOccurrencesFrom] at h
  | cons item rest ih =>
    intro earlier h
    rw [firstOccurrencesFrom] at h
    split at h
    · rename_i hcond
      rcases List.mem_cons.1 h with h | h
      · obtain ⟨res, err⟩ := item
        have herr : err = none := hcond.1
        subst herr
        subst h
        exact List.mem_cons_self _ _
      · exact List.mem_cons_of_mem _ (ih _ h)
    · exact List.mem_cons_of_mem _ (ih _ h)

/-- A successful result the delivery loop forwards is an item that arrived,
with no error, unchanged. -/
theorem mem_successes_deliver {σ : Type} (env : GoEnv) (yield : Yield Result σ)
    (arrived : List resultItem) (s : σ) (r : Result)
    (h : r ∈ successes (deliver env yield arrived {} s).trace) :
    (⟨r, none⟩ : resultItem) ∈ arrived := by
  rw [deliver_successes env yield arrived [] {} s (Tracks.init env)] at h
  exact List.mem_of_mem_take (mem_firstOccurrencesFrom env r _ _ h)

/-- A successful result `Query` yields was emitted, unchanged and without an
error, by the `Run` of one of the configured sources. -/
theorem mem_successes_Query (σ : Type) (env : GoEnv) (registry : Registry) (seed : Nat)
    (ctx : Context) (domain : String) (opts : List ScoutOption) (sched : List Event)
    (yield : Yield Result σ) (s : σ) (r : Result)
    (h : r ∈ successes (Query env registry seed ctx domain opts sched yield s).trace) :
    ∃ (src : Source) (b : Bool),
      src ∈ (configure env registry seed opts).Sources.getD [] ∧
      (⟨r, none⟩ : resultItem) ∈
        src.Run (Context.WithTimeout ⟨b, ctx.timeout⟩ (configure env registry seed opts).Timeout)
          (clientOf (configure env registry seed opts) src) domain
          (sourceAPIKey (configure env registry seed opts) src) := by
  rw [Query_trace] at h
  have harr := mem_successes_deliver env yield _ s r h
  unfold Query.arrived at harr
  simp only at harr
  split at harr
  · cases harr
  · obtain ⟨b, i, hbi⟩ := arrivals_sound _ _ _ _ _ _ harr
    unfold sourceRun at hbi
    split at hbi
    · rename_i src hsrc
      exact ⟨src, b, List.get?_mem hsrc, hbi⟩
    · cases hbi

/-- The engine adds no result of its own and checks none: every successful
result `Query` yields was emitted, unchanged and
without an error, by the `Run` of one of the configured sources; so when every
successful result the configured sources emit has a non-empty `Source`, a
non-empty `Value` and a `Type` contained in the `Yields` of the descriptor
registered under its `Source`, then so has every successful result `Query`
yields. -/
theorem Query_forwards_what_sources_emit (σ : Type) (env : GoEnv) (registry : Registry)
    (seed : Nat) (ctx : Context) (domain : String) (opts : List ScoutOption)
    (sched : List Event) (yield : Yield Result σ) (s : σ) :
    (∀ r ∈ successes (Query env registry seed ctx domain opts sched yield s).trace,
      ∃ (src : Source) (b : Bool),
        src ∈ (configure env registry seed opts).Sources.getD [] ∧
        (⟨r, none⟩ : resultItem) ∈
          src.Run
            (Context.WithTimeout ⟨b, ctx.timeout⟩ (configure env registry seed opts).Timeout)
            (clientOf (configure env registry seed opts) src) domain
            (sourceAPIKey (configure env registry seed opts) src)) ∧
    ((∀ src ∈ (configure env registry seed opts).Sources.getD [],
        ∀ (c : Context) (client : Client) (d key : String),
          ∀ item ∈ src.Run c client d key, item.err = none → wellFormed registry item.result) →
      ∀ r ∈ successes (Query env registry seed ctx domain opts sched yield s).trace,
        wellFormed registry r) := by
  refine ⟨fun r hr => mem_successes_Query σ env registry seed ctx domain opts sched yield s r hr,
    ?_⟩
  intro hsrc r hr
  obtain ⟨src, b, hmem, hitem⟩ :=
    mem_successes_Query σ env registry seed ctx domain opts sched yield s r hr
  exact hsrc src hmem _ _ _ _ _ hitem rfl

/-- An instance of the forwarding: a registered source that honours the
contract, and the result `Query` yields from it. -/
theorem Query_forwards_what_sources_emit_witness :
    (⟨Subdomain, "api.example.com", "good"⟩ : Result) ∈
      successes (Query asciiEnv
        (Register GoMap.empty
          (mockSource "good" Subdomain [⟨Subdomain, "api.example.com", "good"⟩] []))
        0 ⟨false, none⟩ "example.com"
        [WithSources (some
          [mockSource "good" Subdomain [⟨Subdomain, "api.example.com", "good"⟩] []]),
          WithParallelism 1]
        [] consumeAll ()).trace ∧
    wellFormed
      (Register GoMap.empty
        (mockSource "good" Subdomain [⟨Subdomain, "api.example.com", "good"⟩] []))
      ⟨Subdomain, "api.example.com", "good"⟩ :=
  ⟨by decide,
    (Query_forwards_what_sources_emit Unit asciiEnv
      (Register GoMap.empty
        (mockSource "good" Subdomain [⟨Subdomain, "api.example.com", "good"⟩] []))
      0 ⟨false, none⟩ "example.com"
      [WithSources (some
        [mockSource "good" Subdomain [⟨Subdomain, "api.example.com", "good"⟩] []]),
        WithParallelism 1]
      [] consumeAll ()).2
      (by
        intro src hsrc c client d key item hitem herr
        have hsrc1 : src ∈
            [mockSource "good" Subdomain [⟨Subdomain, "api.example.com", "good"⟩] []] := hsrc
        rw [List.mem_singleton] at hsrc1
        subst hsrc1
        have hitem1 : item ∈
            [(⟨⟨Subdomain, "api.example.com", "good"⟩, none⟩ : resultItem)] := hitem
        rw [List.mem_singleton] at hitem1
        subst hitem1
        exact ⟨by decide, by decide, _, rfl, by decide, by decide⟩)
      _ (by decide)⟩

/-! ## A context cancelled before the iteration -/

/-- One scheduling step under a cancelled context keeps: the context stays
cancelled, and every item that arrived or is still held by a running goroutine
was produced by a `Run` that started under the cancelled context. -/
theorem Sched.step_done_sound (cap : Nat) (run : Bool → Nat → List resultItem) (st : Sched)
    (e : Event)
    (h : st.ctxDone = true ∧ (∀ item ∈ st.arrived, ∃ i, item ∈ run true i) ∧
      (∀ g ∈ st.routines, ∀ item ∈ g.pending, ∃ i, item ∈ run true i)) :
    (st.step cap run e).ctxDone = true ∧
      (∀ item ∈ (st.step cap run e).arrived, ∃ i, item ∈ run true i) ∧
      (∀ g ∈ (st.step cap run e).routines, ∀ item ∈ g.pending, ∃ i, item ∈ run true i) := by
  obtain ⟨hc, ha, hr⟩ := h
  have hfin : ∀ (j : Nat), ∀ g ∈ st.routines.set j Goroutine.finished,
      ∀ item ∈ g.pending, ∃ i, item ∈ run true i := by
    intro j g hg item hitem
    rcases mem_of_mem_set _ _ _ _ hg with rfl | hg
    · cases hitem
    · exact hr g hg item hitem
  cases e with
  | cancel => exact ⟨rfl, ha, hr⟩
  | acquire i =>
    simp only [Sched.step]
    split
    · split
      · split
        · exact ⟨hc, ha, hfin i⟩
        · rename_i item items hrun
          refine ⟨hc, ha, ?_⟩
          intro g hg it hit
          rcases mem_of_mem_set _ _ _ _ hg with rfl | hg
          · rw [hc] at hrun
            exact ⟨i, hrun ▸ hit⟩
          · exact hr g hg it hit
      · exact ⟨hc, ha, hr⟩
    · exact ⟨hc, ha, hr⟩
  | send i =>
    simp only [Sched.step]
    split
    · rename_i item items hget
      have hmem : Goroutine.running (item :: items) ∈ st.routines := List.get?_mem hget
      have hitems : ∀ it ∈ item :: items, ∃ i, it ∈ run true i :=
        fun it hit => hr _ hmem it hit
      have harr : ∀ it ∈ st.arrived ++ [item], ∃ i, it ∈ run true i := by
        intro it hit
        rcases List.mem_append.1 hit with hit | hit
        · exact ha it hit
        · rw [List.mem_singleton] at hit
          exact hit ▸ hitems item (List.mem_cons_self _ _)
      split
      · exact ⟨hc, harr, hfin i⟩
      · refine ⟨hc, harr, ?_⟩
        intro g hg it hit
        rcases mem_of_mem_set _ _ _ _ hg with rfl | hg
        · exact hitems it (List.mem_cons_of_mem _ hit)
        · exact hr g hg it hit
    · exact ⟨hc, ha, hr⟩
  | done i =>
    simp only [Sched.step, hc, if_true]
    split
    · exact ⟨rfl, ha, hfin i⟩
    · exact ⟨hc, ha, hr⟩

theorem foldl_step_done_sound (cap : Nat) (run : Bool → Nat → List resultItem)
    (sched : List Event) :
    ∀ st : Sched,
      (st.ctxDone = true ∧ (∀ item ∈ st.arrived, ∃ i, item ∈ run true i) ∧
        (∀ g ∈ st.routines, ∀ item ∈ g.pending, ∃ i, item ∈ run true i)) →
      ((sched.foldl (Sched.step cap run) st).ctxDone = true ∧
        (∀ item ∈ (sched.foldl (Sched.step cap run) st).arrived, ∃ i, item ∈ run true i) ∧
        (∀ g ∈ (sched.foldl (Sched.step cap run) st).routines,
          ∀ item ∈ g.pending, ∃ i, item ∈ run true i)) := by
  induction sched with
  | nil => intro st h; exact h
  | cons e rest ih =>
    intro st h
    rw [List.foldl_cons]
    exact ih _ (Sched.step_done_sound cap run st e h)

/-- Under a context that is cancelled from the start, every item of the
arrival sequence was produced by a `Run` that started under the cancelled
context. -/
theorem arrivals_done_sound (cap : Nat) (run : Bool → Nat → List resultItem) (n : Nat)
    (sched : List Event) :
    ∀ item ∈ (arrivals cap run n true sched).1, ∃ i, item ∈ run true i := by
  unfold arrivals
  have hempty : ∀ item ∈ ([] : List resultItem), ∃ i, item ∈ run true i := by
    intro item h
    cases h
  have hinit : ∀ g ∈ List.replicate n Goroutine.waiting, ∀ item ∈ g.pending,
      ∃ i, item ∈ run true i := by
    intro g hg item hitem
    rw [List.eq_of_mem_replicate hg] at hitem
    cases hitem
  obtain ⟨hc, ha, hr⟩ := foldl_step_done_sound cap run sched
    { ctxDone := true, inUse := 0, routines := List.replicate n .waiting, arrived := [] }
    ⟨rfl, hempty, hinit⟩
  generalize List.foldl (Sched.step cap run) _ sched = st at hc ha hr ⊢
  have hflushed : ∀ item ∈ st.arrived ++ (st.routines.map Goroutine.pending).flatten,
      ∃ i, item ∈ run true i := by
    intro item hitem
    rcases List.mem_append.1 hitem with h | h
    · exact ha item h
    · obtain ⟨l, hl, hil⟩ := List.mem_flatten.1 h
      obtain ⟨g, hg, rfl⟩ := List.mem_map.1 hl
      exact hr g hg item hil
  intro item hitem
  unfold Sched.finish at hitem
  split at hitem
  · exact hflushed item hitem
  · split at hitem
    · exact hflushed item hitem
    · rcases List.mem_append.1 hitem with h | h
      · exact hflushed item h
      · obtain ⟨l, hl, hil⟩ := List.mem_flatten.1 h
        obtain ⟨i, _, rfl⟩ := List.mem_map.1 hl
        rw [hc] at hil
        exact ⟨i, hil⟩
/-- When the context is cancelled, a goroutine that acquires its slot and
then takes the `Done` case of its `select` returns without sending. -/
theorem Sched.acquire_then_done (cap : Nat) (run : Bool → Nat → List resultItem)
    (st : Sched) (k : Nat) (hcap : 0 < cap) (hc : st.ctxDone = true) (hu : st.inUse = 0)
    (hk : st.routines.get? k = some Goroutine.waiting) :
    ((st.step cap run (Event.acquire k)).step cap run (Event.done k)).ctxDone = true ∧
    ((st.step cap run (Event.acquire k)).step cap run (Event.done k)).inUse = 0 ∧
    ((st.step cap run (Event.acquire k)).step cap run (Event.done k)).arrived = st.arrived ∧
    ((st.step cap run (Event.acquire k)).step cap run (Event.done k)).routines =
      st.routines.set k Goroutine.finished := by
  have hlt : k < st.routines.length := by
    by_contra hge
    rw [List.get?_eq_none.2 (Nat.le_of_not_lt hge)] at hk
    cases hk
  cases hrun : run st.ctxDone k with
  | nil =>
    have h1 : st.step cap run (Event.acquire k) =
        { st with routines := st.routines.set k Goroutine.finished } := by
      simp only [Sched.step, hk, hu, hcap, if_true, hrun]
    rw [h1]
    have h2 : (st.routines.set k Goroutine.finished)[k]? = some Goroutine.finished := by
      simp [List.getElem?_set, hlt]
    simp [Sched.step, h2, hc, hu]
  | cons item items =>
    have h1 : st.step cap run (Event.acquire k) =
        { st with inUse := st.inUse + 1
                  routines := st.routines.set k (Goroutine.running (item :: items)) } := by
      simp only [Sched.step, hk, hu, hcap, if_true, hrun]
    rw [h1]
    have h2 : (st.routines.set k (Goroutine.running (item :: items)))[k]? =
        some (Goroutine.running (item :: items)) := by
      simp [List.getElem?_set, hlt]
    simp [Sched.step, h2, hc, hu]

theorem quiet_schedule_state (cap : Nat) (run : Bool → Nat → List resultItem) (n : Nat)
    (hcap : 0 < cap) :
    ∀ k, k ≤ n →
      (((List.range k).flatMap (fun i => [Event.acquire i, Event.done i])).foldl
          (Sched.step cap run)
          { ctxDone := true, inUse := 0, routines := List.replicate n .waiting,
            arrived := [] }).ctxDone = true ∧
      (((List.range k).flatMap (fun i => [Event.acquire i, Event.done i])).foldl
          (Sched.step cap run)
          { ctxDone := true, inUse := 0, routines := List.replicate n .waiting,
            arrived := [] }).inUse = 0 ∧
      (((List.range k).flatMap (fun i => [Event.acquire i, Event.done i])).foldl
          (Sched.step cap run)
          { ctxDone := true, inUse := 0, routines := List.replicate n .waiting,
            arrived := [] }).arrived = [] ∧
      (((List.range k).flatMap (fun i => [Event.acquire i, Event.done i])).foldl
          (Sched.step cap run)
          { ctxDone := true, inUse := 0, routines := List.replicate n .waiting,
            arrived := [] }).routines =
        List.replicate k Goroutine.finished ++ List.replicate (n - k) Goroutine.waiting := by
  intro k
  induction k with
  | zero => intro _; simp
  | succ k ih =>
    intro hk
    obtain ⟨hc, hu, ha, hr⟩ := ih (Nat.le_of_succ_le hk)
    rw [List.range_succ, List.flatMap_append, List.foldl_append]
    generalize List.foldl (Sched.step cap run) _
      ((List.range k).flatMap (fun i => [Event.acquire i, Event.done i])) = st at hc hu ha hr ⊢
    have hget : st.routines.get? k = some Goroutine.waiting := by
      rw [hr]
      simp [List.getElem?_append_right, List.getElem?_replicate]
      omega
    obtain ⟨h1, h2, h3, h4⟩ := Sched.acquire_then_done cap run st k hcap hc hu hget
    simp only [List.flatMap_cons, List.flatMap_nil, List.append_nil, List.foldl_cons,
      List.foldl_nil]
    refine ⟨h1, h2, h3.trans ha, ?_⟩
    rw [h4, hr]
    obtain ⟨m, hm⟩ : ∃ m, n - k = m + 1 := ⟨n - k - 1, by omega⟩
    have hm1 : n - (k + 1) = m := by omega
    rw [hm, hm1, List.replicate_succ, List.set_append_right _ _ (by simp)]
    simp [List.replicate_succ']

/-- Under a cancelled context there is a schedule, for any sources, in which
every goroutine takes the `Done` case: nothing arrives and the channel is
closed. -/
theorem arrivals_quiet_schedule (cap : Nat) (run : Bool → Nat → List resultItem) (n : Nat)
    (hcap : 0 < cap) :
    arrivals cap run n true ((List.range n).flatMap (fun i => [Event.acquire i, Event.done i]))
      = ([], false) := by
  unfold arrivals
  obtain ⟨_, _, ha, hr⟩ := quiet_schedule_state cap run n hcap n (Nat.le_refl n)
  generalize List.foldl (Sched.step cap run) _
    ((List.range n).flatMap (fun i => [Event.acquire i, Event.done i])) = st at ha hr ⊢
  simp only [Nat.sub_self, List.replicate_zero, List.append_nil] at hr
  have hw : st.waiting = [] := by
    unfold Sched.waiting
    rw [List.filter_eq_nil_iff, hr]
    intro i hi
    have hi1 : i < n := by simpa using hi
    simp [List.getElem?_replicate, hi1]
  simp [Sched.finish, hw, ha, hr, Goroutine.pending]
/-- C21 (as amended): when the caller's context is already cancelled before
the iteration begins, `Query` yields zero items if every configured source
emits nothing under a cancelled context; and for any sources there is a
schedule (every goroutine takes the `Done` case of its `select`) in which it
yields zero items. It is not bound to: see the counterexample. -/
theorem Query_cancelled_before_iteration (σ : Type) (env : GoEnv) (registry : Registry)
    (seed : Nat) (timeout : Option Duration) (domain : String) (opts : List ScoutOption)
    (yield : Yield Result σ) (s : σ) :
    ((∀ src ∈ (configure env registry seed opts).Sources.getD [],
        ∀ (c : Context) (client : Client) (d key : String),
          c.done = true → src.Run c client d key = []) →
      ∀ sched : List Event,
        (Query env registry seed ⟨true, timeout⟩ domain opts sched yield s).trace = []) ∧
    (∃ sched : List Event,
      (Query env registry seed ⟨true, timeout⟩ domain opts sched yield s).trace = []) := by
  constructor
  · intro hsrc sched
    rw [Query_trace]
    have harr : Query.arrived env registry seed ⟨true, timeout⟩ domain opts sched = [] := by
      unfold Query.arrived
      simp only
      split
      · rfl
      · apply List.eq_nil_iff_forall_not_mem.2
        intro item hitem
        obtain ⟨i, hi⟩ := arrivals_done_sound _ _ _ _ item hitem
        unfold sourceRun at hi
        split at hi
        · rename_i src hget
          rw [sourceItems, hsrc src (List.get?_mem hget) _ _ _ _ (by rfl)] at hi
          cases hi
        · cases hi
    rw [harr, deliver_nil]
  · by_cases hp : (configure env registry seed opts).Parallelism ≤ 0
    · refine ⟨[], ?_⟩
      unfold Query Query.iterator
      by_cases hneg : (configure env registry seed opts).Parallelism < 0
      · simp [hneg]
      · have h0 : (configure env registry seed opts).Parallelism = 0 := by omega
        by_cases hn : ((configure env registry seed opts).Sources.getD []).length = 0
        · simp [h0, hn, arrivals_zero, deliver_nil]
        · simp [h0, hn, arrivals_cap_zero, deliver_nil]
    · refine ⟨(List.range ((configure env registry seed opts).Sources.getD []).length).flatMap
        (fun i => [Event.acquire i, Event.done i]), ?_⟩
      unfold Query Query.iterator
      have hneg : ¬ (configure env registry seed opts).Parallelism < 0 := by omega
      have hcap : 0 < (configure env registry seed opts).Parallelism.toNat := by omega
      simp only [hneg, if_false, arrivals_quiet_schedule _ _ _ hcap, deliver_nil]

/-- Witness of C21: a source that emits nothing once its context is cancelled. -/
theorem Query_cancelled_before_iteration_witness :
    (∀ src ∈ (configure asciiEnv GoMap.empty 0
        [WithSources (some [⟨"polite", Subdomain, fun c _ _ _ =>
          if c.done then [] else [⟨⟨Subdomain, "api.example.com", "polite"⟩, none⟩]⟩]),
          WithParallelism 1]).Sources.getD [],
      ∀ (c : Context) (client : Client) (d key : String),
        c.done = true → src.Run c client d key = []) ∧
    (Query asciiEnv GoMap.empty 0 ⟨true, none⟩ "example.com"
      [WithSources (some [⟨"polite", Subdomain, fun c _ _ _ =>
        if c.done then [] else [⟨⟨Subdomain, "api.example.com", "polite"⟩, none⟩]⟩]),
        WithParallelism 1] [Event.acquire 0, Event.send 0] consumeAll ()).trace = [] :=
  have hsrc : ∀ src ∈ (configure asciiEnv GoMap.empty 0
        [WithSources (some [⟨"polite", Subdomain, fun c _ _ _ =>
          if c.done then [] else [⟨⟨Subdomain, "api.example.com", "polite"⟩, none⟩]⟩]),
          WithParallelism 1]).Sources.getD [],
      ∀ (c : Context) (client : Client) (d key : String),
        c.done = true → src.Run c client d key = [] := by
    intro src hsrc c client d key hc
    have hsrc1 : src ∈ [(⟨"polite", Subdomain, fun c _ _ _ =>
        if c.done then [] else [⟨⟨Subdomain, "api.example.com", "polite"⟩, none⟩]⟩ : Source)] :=
      hsrc
    rw [List.mem_singleton] at hsrc1
    subst hsrc1
    simp [hc]
  ⟨hsrc,
    (Query_cancelled_before_iteration Unit asciiEnv GoMap.empty 0 none "example.com" _
      consumeAll ()).1 hsrc [Event.acquire 0, Event.send 0]⟩

/-- Counterexample to C21 as stated: the context is cancelled before the
iteration begins, the source does not look at its context, and each `select`
takes the send case: `Query` yields both results. -/
theorem Query_cancelled_still_yields :
    (Query asciiEnv GoMap.empty 0 ⟨true, none⟩ "example.com"
      [WithSources (some [mockSource "test" Subdomain
        [⟨Subdomain, "a.example.com", "test"⟩, ⟨Subdomain, "b.example.com", "test"⟩] []]),
        WithParallelism 1]
      [Event.acquire 0, Event.send 0, Event.send 0] consumeAll ()).trace =
      [⟨⟨Subdomain, "a.example.com", "test"⟩, none, true⟩,
        ⟨⟨Subdomain, "b.example.com", "test"⟩, none, true⟩] := by
  decide

/-! ## The deduplicator -/

theorem foldl_seen_values (env : GoEnv) (values : List String) :
    ∀ (d : deduplicator) (k : String),
      k ∈ (values.foldl (fun d value => (d.seen env value).2) d).values ↔
        k ∈ d.values ∨ ∃ w ∈ values, dedupKey env w = k := by
  induction values with
  | nil => intro d k; simp
  | cons v rest ih =>
    intro d k
    rw [List.foldl_cons, ih, mem_seen_values]
    constructor
    · rintro ((h | h) | ⟨w, hw, hk⟩)
      · exact Or.inl h
      · exact Or.inr ⟨v, List.mem_cons_self _ _, h.symm⟩
      · exact Or.inr ⟨w, List.mem_cons_of_mem _ hw, hk⟩
    · rintro (h | ⟨w, hw, hk⟩)
      · exact Or.inl (Or.inl h)
      · rcases List.mem_cons.1 hw with rfl | hw
        · exact Or.inl (Or.inr hk.symm)
        · exact Or.inr ⟨w, hw, hk⟩

/-- C25: on a deduplicator that has been called with the values `earlier`,
`seen(v)` answers true exactly when one of them has the key of `v`,
`lowercase(trim_whitespace(v))`; after the call the key of `v` is recorded, so
that every later call with a value of that key answers true, and the keys
recorded before stay recorded. The calls of the test (`"test"`, `"test"`,
`"TEST"`, `"  test  "`, `"other"`) answer false, true, true, true, false. -/
theorem seen_iff_earlier_key (env : GoEnv) (earlier : List String) (v : String) :
    (((deduplicator.afterCalls env earlier).seen env v).1 = true ↔
      ∃ w ∈ earlier, env.ToLower (env.TrimSpace w) = env.ToLower (env.TrimSpace v)) ∧
    ((deduplicator.afterCalls env earlier).seen env v).2 =
      deduplicator.afterCalls env (earlier ++ [v]) ∧
    (∀ (later : List String) (v1 : String),
      env.ToLower (env.TrimSpace v1) = env.ToLower (env.TrimSpace v) →
      ((deduplicator.afterCalls env (earlier ++ [v] ++ later)).seen env v1).1 = true) ∧
    ((deduplicator.afterCalls env []).seen env v).1 = false ∧
    ((deduplicator.afterCalls asciiEnv []).seen asciiEnv "test").1 = false ∧
    ((deduplicator.afterCalls asciiEnv ["test"]).seen asciiEnv "test").1 = true ∧
    ((deduplicator.afterCalls asciiEnv ["test", "test"]).seen asciiEnv "TEST").1 = true ∧
    ((deduplicator.afterCalls asciiEnv ["test", "test", "TEST"]).seen asciiEnv
      "  test  ").1 = true ∧
    ((deduplicator.afterCalls asciiEnv ["test", "test", "TEST", "  test  "]).seen asciiEnv
      "other").1 = false := by
  have hiff : ∀ (ws : List String) (x : String),
      ((deduplicator.afterCalls env ws).seen env x).1 = true ↔
        ∃ w ∈ ws, dedupKey env w = dedupKey env x := by
    intro ws x
    rw [seen_fst, decide_eq_true_iff, deduplicator.afterCalls, foldl_seen_values]
    simp
  refine ⟨hiff earlier v, ?_, ?_, ?_, by decide, by decide, by decide, by decide, by decide⟩
  · unfold deduplicator.afterCalls
    rw [List.foldl_append]
    rfl
  · intro later v1 hkey
    rw [hiff]
    exact ⟨v, by simp, hkey.symm⟩
  · cases h : ((deduplicator.afterCalls env []).seen env v).1 with
    | false => rfl
    | true =>
      obtain ⟨w, hw, _⟩ := (hiff [] v).1 h
      cases hw

/-- Witness of C25: after `"test"` and `"other"`, the value `" OTHER "` has the
key of `"other"` and is answered with true. -/
theorem seen_iff_earlier_key_witness :
    asciiEnv.ToLower (asciiEnv.TrimSpace " OTHER ") =
      asciiEnv.ToLower (asciiEnv.TrimSpace "other") ∧
    ((deduplicator.afterCalls asciiEnv (["test"] ++ ["other"] ++ ["www"])).seen asciiEnv
      " OTHER ").1 = true :=
  ⟨by decide,
    (seen_iff_earlier_key asciiEnv ["test"] "other").2.2.1 ["www"] " OTHER " (by decide)⟩

/-! ## The dedup key and the kinds -/

/-- The delivery of a sequence followed by another: nothing more when the
caller stopped in the first, else the delivery of the second from where the
first ended. -/
theorem deliver_append {σ : Type} (env : GoEnv) (yield : Yield Result σ)
    (more : List resultItem) :
    ∀ (first : List resultItem) (d : deduplicator) (s : σ),
      (deliver env yield (first ++ more) d s).trace =
          (if (deliver env yield first d s).stopped then (deliver env yield first d s).trace
            else (deliver env yield first d s).trace ++
              (deliver env yield more (deliver env yield first d s).dedupe
                (deliver env yield first d s).caller).trace) ∧
        (deliver env yield (first ++ more) d s).caller =
          (if (deliver env yield first d s).stopped then (deliver env yield first d s).caller
            else (deliver env yield more (deliver env yield first d s).dedupe
                (deliver env yield first d s).caller).caller) := by
  intro first
  induction first with
  | nil => intro d s; simp [deliver_nil]
  | cons item rest ih =>
    intro d s
    obtain ⟨res, err⟩ := item
    rw [List.cons_append]
    cases err with
    | some e =>
      rw [deliver_err, deliver_err]
      by_cases hy : (yield s default (some e)).1
      · simp only [hy, Bool.not_true, Bool.false_eq_true, if_false, after_trace, after_caller,
          after_stopped, after_dedupe, Option.toList_some, List.singleton_append]
        obtain ⟨h1, h2⟩ := ih d (yield s default (some e)).2
        refine ⟨?_, h2⟩
        rw [h1]
        split <;> simp
      · simp [hy]
    | none =>
      rw [deliver_ok, deliver_ok]
      by_cases hs : (d.seen env res.Value).1
      · simp only [hs, if_true, after_trace, after_caller, after_stopped, after_dedupe,
          Option.toList_none, List.nil_append]
        exact ih _ s
      · by_cases hy : (yield s res none).1
        · simp only [hs, hy, Bool.not_true, Bool.false_eq_true, if_false, after_trace,
            after_caller, after_stopped, after_dedupe, Option.toList_some,
            List.singleton_append]
          obtain ⟨h1, h2⟩ := ih (d.seen env res.Value).2 (yield s res none).2
          refine ⟨?_, h2⟩
          rw [h1]
          split <;> simp
        · simp [hs, hy]

/-- The deduplicator at the end of a delivery holds the keys of the successful
items received. -/
theorem deliver_dedupe_tracks {σ : Type} (env : GoEnv) (yield : Yield Result σ) :
    ∀ (arrived earlier : List resultItem) (d : deduplicator) (s : σ),
      Tracks env d earlier →
      Tracks env (deliver env yield arrived d s).dedupe
        (earlier ++ arrived.take (deliver env yield arrived d s).received) := by
  intro arrived
  induction arrived with
  | nil => intro earlier d s hd; simpa [deliver_nil] using hd
  | cons item rest ih =>
    intro earlier d s hd
    obtain ⟨res, err⟩ := item
    cases err with
    | some e =>
      rw [deliver_err]
      by_cases hy : (yield s default (some e)).1
      · simp only [hy, Bool.not_true, Bool.false_eq_true, if_false, after_dedupe,
          after_received, List.take_succ_cons]
        have := ih (earlier ++ [⟨res, some e⟩]) d (yield s default (some e)).2
          (hd.snoc_err res e)
        simpa using this
      · simp only [hy, Bool.not_false, if_true, List.take_succ_cons, List.take_zero]
        exact hd.snoc_err res e
    | none =>
      rw [deliver_ok]
      by_cases hs : (d.seen env res.Value).1
      · simp only [hs, if_true, after_dedupe, after_received, List.take_succ_cons]
        have := ih (earlier ++ [⟨res, none⟩]) _ s (hd.snoc_ok res)
        simpa using this
      · by_cases hy : (yield s res none).1
        · simp only [hs, hy, Bool.not_true, Bool.false_eq_true, if_false, after_dedupe,
            after_received, List.take_succ_cons]
          have := ih (earlier ++ [⟨res, none⟩]) _ (yield s res none).2 (hd.snoc_ok res)
          simpa using this
        · simp only [hs, hy, Bool.not_false, if_true, Bool.false_eq_true, if_false,
            List.take_succ_cons, List.take_zero]
          exact hd.snoc_ok res

/-- A delivery the caller did not stop has received every item. -/
theorem deliver_received_of_not_stopped {σ : Type} (env : GoEnv) (yield : Yield Result σ) :
    ∀ (arrived : List resultItem) (d : deduplicator) (s : σ),
      (deliver env yield arrived d s).stopped = false →
      (deliver env yield arrived d s).received = arrived.length := by
  intro arrived
  induction arrived with
  | nil => intro d s _; rfl
  | cons item rest ih =>
    intro d s
    obtain ⟨res, err⟩ := item
    cases err with
    | some e =>
      rw [deliver_err]
      by_cases hy : (yield s default (some e)).1
      · simp only [hy, Bool.not_true, Bool.false_eq_true, if_false, after_stopped,
          after_received, List.length_cons]
        intro h
        rw [ih _ _ h]
      · simp [hy]
    | none =>
      rw [deliver_ok]
      by_cases hs : (d.seen env res.Value).1
      · simp only [hs, if_true, after_stopped, after_received, List.length_cons]
        intro h
        rw [ih _ _ h]
      · by_cases hy : (yield s res none).1
        · simp only [hs, hy, Bool.not_true, Bool.false_eq_true, if_false, after_stopped,
            after_received, List.length_cons]
          intro h
          rw [ih _ _ h]
        · simp [hs, hy]

/-- A successful item whose key is the key of a successful item before it
causes no call of `yield` and leaves the caller as it was. -/
theorem deliver_snoc_duplicate {σ : Type} (env : GoEnv) (yield : Yield Result σ)
    (before : List resultItem) (b : Result) (s : σ)
    (h : ∃ a ∈ before, a.err = none ∧ dedupKey env a.result.Value = dedupKey env b.Value) :
    (deliver env yield (before ++ [⟨b, none⟩]) {} s).trace =
        (deliver env yield before {} s).trace ∧
      (deliver env yield (before ++ [⟨b, none⟩]) {} s).caller =
        (deliver env yield before {} s).caller := by
  obtain ⟨h1, h2⟩ := deliver_append env yield [⟨b, none⟩] before {} s
  rw [h1, h2]
  cases hst : (deliver env yield before {} s).stopped with
  | true => simp
  | false =>
    have htr := deliver_dedupe_tracks env yield before [] {} s (Tracks.init env)
    rw [deliver_received_of_not_stopped env yield before {} s hst, List.take_length,
      List.nil_append] at htr
    have hseen : ((deliver env yield before {} s).dedupe.seen env b.Value).1 = true := by
      rw [seen_fst, decide_eq_true_iff, htr]
      exact h
    simp [deliver_ok, hseen, deliver_nil]

/-- C29: the dedup key of `Query` is the normalized `Value` alone. A
successful result `b` that arrives after a successful item `a` with the same
`lowercase(trim(Value))` causes no call of `yield`, whatever the `Type` and
`Source` of the two are; so the loop bodies of `Subdomains` and `URLs` are not
called for it either and they do not yield it. A source that emits a URL and
then a subdomain with the same normalized value gives nothing to `Subdomains`,
and the other way round for `URLs`. -/
theorem dedup_ignores_kind (env : GoEnv) (before : List resultItem) (a : resultItem)
    (b : Result) (ha : a ∈ before) (herr : a.err = none)
    (hkey : env.ToLower (env.TrimSpace a.result.Value) = env.ToLower (env.TrimSpace b.Value)) :
    (∀ (σ : Type) (yield : Yield Result σ) (s : σ),
      (deliver env yield (before ++ [⟨b, none⟩]) {} s).trace =
        (deliver env yield before {} s).trace) ∧
    (∀ (σ : Type) (kind : ResultType) (yield : Yield String σ) (s : σ),
      (deliver env (filterBody kind yield) (before ++ [⟨b, none⟩]) {} ([], s)).caller.1 =
        (deliver env (filterBody kind yield) before {} ([], s)).caller.1) ∧
    (Subdomains asciiEnv GoMap.empty 0 0 ⟨false, none⟩ "example.com"
      [WithSources (some [mockSource "test" (Subdomain ||| URL)
        [⟨URL, "api.example.com", "test"⟩, ⟨Subdomain, " API.example.com", "test"⟩] []]),
        WithParallelism 1] [] consumeAll ()).trace = [] ∧
    (URLs asciiEnv GoMap.empty 0 0 ⟨false, none⟩ "example.com"
      [WithSources (some [mockSource "test" (Subdomain ||| URL)
        [⟨Subdomain, "https://example.com/a", "test"⟩,
          ⟨URL, "HTTPS://example.com/A", "test"⟩] []]),
        WithParallelism 1] [] consumeAll ()).trace = [] := by
  have hex : ∃ a ∈ before, a.err = none ∧
      dedupKey env a.result.Value = dedupKey env b.Value := ⟨a, ha, herr, hkey⟩
  refine ⟨fun σ yield s => (deliver_snoc_duplicate env yield before b s hex).1,
    fun σ kind yield s => ?_, by decide, by decide⟩
  rw [(deliver_snoc_duplicate env (filterBody kind yield) before b ([], s) hex).2]

/-- Witness of C29: a URL result and then a subdomain result with the same
normalized value, from another source. -/
theorem dedup_ignores_kind_witness :
    (deliver asciiEnv consumeAll
      ([⟨⟨URL, "api.example.com", "one"⟩, none⟩] ++
        [⟨⟨Subdomain, " API.example.com", "two"⟩, none⟩]) {} ()).trace =
      (deliver asciiEnv consumeAll [⟨⟨URL, "api.example.com", "one"⟩, none⟩] {} ()).trace :=
  (dedup_ignores_kind asciiEnv [⟨⟨URL, "api.example.com", "one"⟩, none⟩]
    ⟨⟨URL, "api.example.com", "one"⟩, none⟩ ⟨Subdomain, " API.example.com", "two"⟩
    (by decide) rfl (by decide)).1 Unit consumeAll ()

theorem filterMap_projectCall_values (kind : ResultType) (t : List (YieldCall Result)) :
    (t.filterMap (projectCall kind)).filterMap
        (fun c => if c.err = none then some c.value else none) =
      ((successes t).filter (fun r => r.Kind == kind)).map (fun r => r.Value) := by
  induction t with
  | nil => rfl
  | cons c rest ih =>
    obtain ⟨r, err, ret⟩ := c
    cases err with
    | some e =>
      simp only [List.filterMap_cons, projectCall, successes_cons_err]
      simpa using ih
    | none =>
      by_cases hk : r.Kind = kind
      · simp only [List.filterMap_cons, projectCall, hk, if_true, successes_cons_ok,
          List.filter_cons, beq_self_eq_true, List.map_cons]
        simpa using ih
      · have hb : (r.Kind == kind) = false := by simpa using hk
        simp only [List.filterMap_cons, projectCall, hk, if_false, successes_cons_ok,
          List.filter_cons, hb, Bool.false_eq_true]
        exact ih

/-- C30: the values `Subdomains` yields without an error are the values of
the successful results `Query` yields to its loop body whose `Type` equals
`Subdomain`, and likewise `URLs` with `URL`; the two tests exclude each other,
so no result is yielded by both; a result whose `Type` is `Subdomain|URL` or 0
is yielded by `Query` and by neither filter. -/
theorem filters_compare_kind_by_equality (env : GoEnv) (registry : Registry)
    (seed seedAll : Nat) (ctx : Context) (domain : String) (opts : List ScoutOption)
    (sched : List Event) :
    (∀ (σ : Type) (yield : Yield String σ) (s : σ),
      (Subdomains env registry seed seedAll ctx domain opts sched yield s).trace.filterMap
          (fun c => if c.err = none then some c.value else none) =
        ((successes (Query env registry seedAll ctx domain
            (WithSources (some (ByType registry Subdomain seed)) :: opts) sched
            (filterBody Subdomain yield) ([], s)).trace).filter
          (fun r => r.Kind == Subdomain)).map (fun r => r.Value)) ∧
    (∀ (σ : Type) (yield : Yield String σ) (s : σ),
      (URLs env registry seed seedAll ctx domain opts sched yield s).trace.filterMap
          (fun c => if c.err = none then some c.value else none) =
        ((successes (Query env registry seedAll ctx domain
            (WithSources (some (ByType registry URL seed)) :: opts) sched
            (filterBody URL yield) ([], s)).trace).filter
          (fun r => r.Kind == URL)).map (fun r => r.Value)) ∧
    (∀ r : Result, ((r.Kind == Subdomain) && (r.Kind == URL)) = false) ∧
    (successes (Query asciiEnv registry seedAll ctx domain
      [WithSources (some [mockSource "test" (Subdomain ||| URL)
        [⟨Subdomain ||| URL, "both.example.com", "test"⟩, ⟨0, "none.example.com", "test"⟩,
          ⟨Subdomain, "api.example.com", "test"⟩, ⟨URL, "https://example.com/", "test"⟩]
        []]), WithParallelism 1] [] consumeAll ()).trace =
      [⟨Subdomain ||| URL, "both.example.com", "test"⟩, ⟨0, "none.example.com", "test"⟩,
        ⟨Subdomain, "api.example.com", "test"⟩, ⟨URL, "https://example.com/", "test"⟩]) ∧
    ((Subdomains asciiEnv registry seed seedAll ctx domain
      [WithSources (some [mockSource "test" (Subdomain ||| URL)
        [⟨Subdomain ||| URL, "both.example.com", "test"⟩, ⟨0, "none.example.com", "test"⟩,
          ⟨Subdomain, "api.example.com", "test"⟩, ⟨URL, "https://example.com/", "test"⟩]
        []]), WithParallelism 1] [] consumeAll ()).trace =
      [⟨"api.example.com", none, true⟩]) ∧
    ((URLs asciiEnv registry seed seedAll ctx domain
      [WithSources (some [mockSource "test" (Subdomain ||| URL)
        [⟨Subdomain ||| URL, "both.example.com", "test"⟩, ⟨0, "none.example.com", "test"⟩,
          ⟨Subdomain, "api.example.com", "test"⟩, ⟨URL, "https://example.com/", "test"⟩]
        []]), WithParallelism 1] [] consumeAll ()).trace =
      [⟨"https://example.com/", none, true⟩]) := by
  refine ⟨?_, ?_, ?_, rfl, rfl, rfl⟩
  · intro σ yield s
    rw [Subdomains_trace, filterMap_projectCall_values]
  · intro σ yield s
    rw [URLs_trace, filterMap_projectCall_values]
  · intro r
    by_cases h : r.Kind = Subdomain
    · rw [h]; rfl
    · simp [h]

/-! ## sources/commoncrawl.go: the year of an index -/

theorem Split.go_field (seg rest : List Char) (hseg : '-' ∉ seg) :
    ∀ cur : List Char,
      Split.go ['-'] 0 (seg ++ '-' :: rest) cur =
        (cur.reverse ++ seg) :: Split.go ['-'] 0 rest [] := by
  induction seg with
  | nil =>
    intro cur
    simp [Split.go, List.isPrefixOf]
  | cons c seg1 ih =>
    intro cur
    have hc : c ≠ '-' := fun h => hseg (h ▸ List.mem_cons_self _ _)
    have hseg1 : '-' ∉ seg1 := fun h => hseg (List.mem_cons_of_mem _ h)
    have hne : ('-' == c) = false := by
      simpa using Ne.symm hc
    rw [List.cons_append, Split.go]
    simp only [List.isPrefixOf, hne, Bool.false_and, Bool.false_eq_true, if_false]
    rw [ih hseg1]
    simp

theorem Atoi_toString_year (y : Nat) (h1 : 2000 ≤ y) (h2 : y ≤ 2100) :
    Atoi (toString y) = some (y : Int) ∧ '-' ∉ (toString y).data := by
  interval_cases y <;> decide

theorem parseCommonCrawlYear_eq (id : String) :
    parseCommonCrawlYear id = yearOfThirdField id := by
  unfold parseCommonCrawlYear yearOfThirdField
  simp only
  by_cases hlen : (Split id "-").length ≥ 3
  · have hget : (Split id "-").get? 2 = some ((Split id "-").getD 2 "") := by
      rw [List.get?_eq_getElem?, List.getD_eq_getElem?_getD, List.getElem?_eq_getElem (by omega)]
      rfl
    rw [if_pos hlen, hget]
    show _ = (match Atoi ((Split id "-").getD 2 "") with
      | none => 0
      | some n => if 2000 ≤ n ∧ n ≤ 2100 then n else 0)
    cases Atoi ((Split id "-").getD 2 "") <;> rfl
  · have hget : (Split id "-").get? 2 = none := by
      rw [List.get?_eq_none]
      omega
    rw [if_neg hlen, hget]

/-- C26: `parseCommonCrawlYear(id)` is the value of the third `-`-separated
field of `id` when that field parses as a decimal integer from 2000 to 2100,
and 0 in every other case; so the result is 0 or lies in [2000, 2100]; and
`"CC-MAIN-YYYY-WW"` gives YYYY for every year from 2000 to 2100 and every WW.
The ids of the test give 2024, 2023, 0, 0 and 0. -/
theorem parseCommonCrawlYear_spec :
    (∀ id : String, parseCommonCrawlYear id = yearOfThirdField id) ∧
    (∀ id : String,
      parseCommonCrawlYear id = 0 ∨
        (2000 ≤ parseCommonCrawlYear id ∧ parseCommonCrawlYear id ≤ 2100)) ∧
    (∀ (y : Nat) (ww : String), 2000 ≤ y → y ≤ 2100 →
      parseCommonCrawlYear ("CC-MAIN-" ++ toString y ++ "-" ++ ww) = (y : Int)) ∧
    parseCommonCrawlYear "CC-MAIN-2024-10" = 2024 ∧
    parseCommonCrawlYear "CC-MAIN-2023-50" = 2023 ∧
    parseCommonCrawlYear "invalid" = 0 ∧
    parseCommonCrawlYear "CC-MAIN" = 0 ∧
    parseCommonCrawlYear "CC-MAIN-abc-10" = 0 ∧
    parseCommonCrawlYear "CC-MAIN-1999-10" = 0 := by
  refine ⟨parseCommonCrawlYear_eq, ?_, ?_, by decide, by decide, by decide, by decide,
    by decide, by decide⟩
  · intro id
    rw [parseCommonCrawlYear_eq]
    unfold yearOfThirdField
    split
    · exact Or.inl rfl
    · split
      · exact Or.inl rfl
      · rename_i n _
        by_cases hn : 2000 ≤ n ∧ n ≤ 2100
        · rw [if_pos hn]
          exact Or.inr hn
        · rw [if_neg hn]
          exact Or.inl rfl
  · intro y ww h1 h2
    obtain ⟨hatoi, hdash⟩ := Atoi_toString_year y h1 h2
    have hsplit : (Split ("CC-MAIN-" ++ toString y ++ "-" ++ ww) "-").get? 2 =
        some (toString y) := by
      have hdata : ("CC-MAIN-" ++ toString y ++ "-" ++ ww).data =
          ['C', 'C'] ++ '-' :: (['M', 'A', 'I', 'N'] ++ '-' ::
            ((toString y).data ++ '-' :: ww.data)) := by
        simp [String.data_append]
      unfold Split
      have hsep : ("-" : String).data = ['-'] := rfl
      rw [hsep, hdata]
      simp only [List.isEmpty_cons, Bool.false_eq_true, if_false]
      rw [Split.go_field _ _ (by decide), Split.go_field _ _ (by decide),
        Split.go_field _ _ hdash]
      simp
    rw [parseCommonCrawlYear_eq]
    unfold yearOfThirdField
    rw [hsplit]
    simp only [hatoi]
    have : (2000 : Int) ≤ y ∧ (y : Int) ≤ 2100 := by omega
    simp [this]

/-- Witness of C26: the id of the crawl of week 33 of 2025. -/
theorem parseCommonCrawlYear_spec_witness :
    2000 ≤ 2025 ∧ 2025 ≤ 2100 ∧
    parseCommonCrawlYear ("CC-MAIN-" ++ toString 2025 ++ "-" ++ "33") = ((2025 : Nat) : Int) :=
  ⟨by decide, by decide,
    parseCommonCrawlYear_spec.2.2.1 2025 "33" (by decide) (by decide)⟩

/-! ## sources/commoncrawl.go: decoding a URL -/

theorem isPrefixOf_eq_true_iff (p l : List Char) : p.isPrefixOf l = true ↔ p <+: l :=
  List.isPrefixOf_iff_prefix

/-- A prefix of the replaced text that is free of the replacement character
is a prefix of the original text. -/
theorem ReplaceAll.prefix_of_go (old : List Char) (c : Char) :
    ∀ (s p : List Char), c ∉ p → p <+: ReplaceAll.go old [c] 0 s → p <+: s := by
  intro s
  induction s with
  | nil =>
    intro p _ h
    simpa [ReplaceAll.go] using h
  | cons c0 cs ih =>
    intro p hc h
    cases p with
    | nil => exact List.nil_prefix
    | cons a p1 =>
      have ha : a ≠ c := fun heq => hc (heq ▸ List.mem_cons_self _ _)
      have hp1 : c ∉ p1 := fun hm => hc (List.mem_cons_of_mem _ hm)
      rw [ReplaceAll.go] at h
      split at h
      · rw [List.singleton_append, List.cons_prefix_cons] at h
        exact absurd h.1 ha
      · rw [List.cons_prefix_cons] at h ⊢
        exact ⟨h.1, ih p1 hp1 h.2⟩

/-- A text free of the replacement character that occurs in the replaced text
occurs in the original text. -/
theorem ReplaceAll.infix_of_go (old : List Char) (c : Char) (q : List Char) (hq : q ≠ [])
    (hc : c ∉ q) :
    ∀ (s : List Char) (skip : Nat), q <:+: ReplaceAll.go old [c] skip s → q <:+: s := by
  obtain ⟨a, q1, rfl⟩ := List.exists_cons_of_ne_nil hq
  have ha : a ≠ c := fun heq => hc (heq ▸ List.mem_cons_self _ _)
  have hq1 : c ∉ q1 := fun hm => hc (List.mem_cons_of_mem _ hm)
  intro s
  induction s with
  | nil =>
    intro skip h
    cases skip <;> simp [ReplaceAll.go] at h
  | cons c0 cs ih =>
    intro skip h
    cases skip with
    | succ k =>
      rw [ReplaceAll.go] at h
      exact (ih k h).trans (List.suffix_cons c0 cs).isInfix
    | zero =>
      rw [ReplaceAll.go] at h
      split at h
      · rw [List.singleton_append, List.infix_cons_iff] at h
        rcases h with h | h
        · rw [List.cons_prefix_cons] at h
          exact absurd h.1 ha
        · exact (ih _ h).trans (List.suffix_cons c0 cs).isInfix
      · rw [List.infix_cons_iff] at h
        rcases h with h | h
        · rw [List.cons_prefix_cons] at h
          have hpre : a :: q1 <+: c0 :: cs :=
            List.cons_prefix_cons.2 ⟨h.1, ReplaceAll.prefix_of_go old c cs q1 hq1 h.2⟩
          exact hpre.isInfix
        · exact (ih _ h).trans (List.suffix_cons c0 cs).isInfix

/-- After every occurrence of `old` is replaced by a character that `old`
does not contain, `old` does not occur. -/
theorem ReplaceAll.no_old_in_go (old : List Char) (c : Char) (hold : old ≠ []) (hc : c ∉ old) :
    ∀ (s : List Char) (skip : Nat), ¬ old <:+: ReplaceAll.go old [c] skip s := by
  obtain ⟨a, q1, rfl⟩ := List.exists_cons_of_ne_nil hold
  have ha : a ≠ c := fun heq => hc (heq ▸ List.mem_cons_self _ _)
  have hq1 : c ∉ q1 := fun hm => hc (List.mem_cons_of_mem _ hm)
  intro s
  induction s with
  | nil =>
    intro skip h
    cases skip <;> simp [ReplaceAll.go] at h
  | cons c0 cs ih =>
    intro skip h
    cases skip with
    | succ k =>
      rw [ReplaceAll.go] at h
      exact ih k h
    | zero =>
      rw [ReplaceAll.go] at h
      split at h
      · rw [List.singleton_append, List.infix_cons_iff] at h
        rcases h with h | h
        · rw [List.cons_prefix_cons] at h
          exact absurd h.1 ha
        · exact ih _ h
      · rename_i hno
        rw [List.infix_cons_iff] at h
        rcases h with h | h
        · rw [List.cons_prefix_cons] at h
          have hpre : a :: q1 <+: c0 :: cs :=
            List.cons_prefix_cons.2
              ⟨h.1, ReplaceAll.prefix_of_go (a :: q1) c cs q1 hq1 h.2⟩
          exact hno ((isPrefixOf_eq_true_iff _ _).2 hpre)
        · exact ih _ h

/-- C27 (as amended): for every input string, and whatever the unescaping
gives, the result of `decodeCommonCrawlURL` contains neither `"%2f"` nor
`"%2F"`. (It can contain `"%25"`: see the counterexample.) -/
theorem decodeCommonCrawlURL_no_encoded_slash
    (QueryUnescape : String → Except GoError String) (raw : String) :
    ¬ Contains (decodeCommonCrawlURL QueryUnescape raw) "%2f" ∧
    ¬ Contains (decodeCommonCrawlURL QueryUnescape raw) "%2F" := by
  unfold decodeCommonCrawlURL Contains
  simp only
  generalize (match QueryUnescape raw with
    | .ok decoded => decoded
    | .error _ => raw) = decoded
  have h2f : ("%2f" : String).data = ['%', '2', 'f'] := rfl
  have h2F : ("%2F" : String).data = ['%', '2', 'F'] := rfl
  have hs : ("/" : String).data = ['/'] := rfl
  have hr : ∀ (s old : String), old.data.isEmpty = false →
      (ReplaceAll s old "/").data = ReplaceAll.go old.data ['/'] 0 s.data := by
    intro s old hold
    unfold ReplaceAll
    rw [hold, hs]
    rfl
  rw [hr _ "%2F" rfl, hr _ "%2f" rfl, h2f, h2F]
  constructor
  · intro h
    have h1 := ReplaceAll.infix_of_go ['%', '2', 'F'] '/' ['%', '2', 'f'] (by decide)
      (by decide) _ 0 h
    exact ReplaceAll.no_old_in_go ['%', '2', 'f'] '/' (by decide) (by decide) _ 0 h1
  · exact ReplaceAll.no_old_in_go ['%', '2', 'F'] '/' (by decide) (by decide) _ 0

/-- Counterexample to C27 as stated: `"%252525"` is unescaped to `"%2525"`,
whose one occurrence of `"%25"` is replaced by `"%"`; the result is `"%25"`. -/
theorem decodeCommonCrawlURL_keeps_percent25 :
    queryUnescape "%252525" = .ok "%2525" ∧
    decodeCommonCrawlURL queryUnescape "%252525" = "%25" ∧
    Contains (decodeCommonCrawlURL queryUnescape "%252525") "%25" := by
  refine ⟨rfl, by decide, ?_⟩
  unfold Contains
  decide

theorem queryUnescape.go_plain :
    ∀ s : List Char, '%' ∉ s →
      queryUnescape.go s = some (s.map (fun c => if c = '+' then ' ' else c)) := by
  intro s
  induction s with
  | nil => intro _; rfl
  | cons c rest ih =>
    intro h
    have hc : c ≠ '%' := fun heq => h (heq ▸ List.mem_cons_self _ _)
    have hrest : '%' ∉ rest := fun hm => h (List.mem_cons_of_mem _ hm)
    by_cases hp : c = '+'
    · rw [queryUnescape.go.eq_def]
      simp [hp, ih hrest]
    · rw [queryUnescape.go.eq_def]
      simp [hc, hp, ih hrest]

theorem ReplaceAll.go_absent (old new : List Char) (a : Char) (old1 : List Char)
    (hold : old = a :: old1) :
    ∀ s : List Char, a ∉ s → ReplaceAll.go old new 0 s = s := by
  intro s
  induction s with
  | nil => intro _; rfl
  | cons c rest ih =>
    intro h
    have hc : a ≠ c := fun heq => h (heq ▸ List.mem_cons_self _ _)
    have hrest : a ∉ rest := fun hm => h (List.mem_cons_of_mem _ hm)
    have hno : old.isPrefixOf (c :: rest) = false := by
      rw [hold]
      simp [List.isPrefixOf, hc]
    rw [ReplaceAll.go, hno]
    simp only [Bool.false_eq_true, if_false]
    rw [ih hrest]

/-- Without a percent sign the three replacements change nothing. -/
theorem replacements_plain (s : String) (h : '%' ∉ s.data) :
    ReplaceAll (ReplaceAll (ReplaceAll s "%25" "%") "%2f" "/") "%2F" "/" = s := by
  have hr : ∀ (t old new : String) (old1 : List Char), old.data = '%' :: old1 →
      '%' ∉ t.data → ReplaceAll t old new = t := by
    intro t old new old1 hold ht
    unfold ReplaceAll
    rw [hold]
    simp only [List.isEmpty_cons, Bool.false_eq_true, if_false]
    rw [ReplaceAll.go_absent _ _ '%' old1 rfl _ ht]
  rw [hr s "%25" "%" ['2', '5'] rfl h, hr s "%2f" "/" ['2', 'f'] rfl h,
    hr s "%2F" "/" ['2', 'F'] rfl h]

/-- C28 (as amended): for every input without a `%` character the result of
`decodeCommonCrawlURL` is the input with every `+` replaced by a blank; so an
input with neither `%` nor `+` is returned unchanged. -/
theorem decodeCommonCrawlURL_plain (raw : String) (h : '%' ∉ raw.data) :
    decodeCommonCrawlURL queryUnescape raw =
        ⟨raw.data.map (fun c => if c = '+' then ' ' else c)⟩ ∧
    ('+' ∉ raw.data → decodeCommonCrawlURL queryUnescape raw = raw) ∧
    decodeCommonCrawlURL queryUnescape "https://example.com/path"
      = "https://example.com/path" := by
  have hun : queryUnescape raw =
      .ok ⟨raw.data.map (fun c => if c = '+' then ' ' else c)⟩ := by
    unfold queryUnescape
    rw [queryUnescape.go_plain raw.data h]
  have hmap : '%' ∉
      (⟨raw.data.map (fun c => if c = '+' then ' ' else c)⟩ : String).data := by
    intro hm
    obtain ⟨c, hc, heq⟩ := List.mem_map.1 hm
    by_cases hp : c = '+'
    · simp [hp] at heq
    · simp only [hp, if_false] at heq
      exact h (heq ▸ hc)
  have h1 : decodeCommonCrawlURL queryUnescape raw =
      ⟨raw.data.map (fun c => if c = '+' then ' ' else c)⟩ := by
    unfold decodeCommonCrawlURL
    simp only [hun]
    exact replacements_plain _ hmap
  refine ⟨h1, ?_, by decide⟩
  intro hplus
  rw [h1]
  have hid : raw.data.map (fun c => if c = '+' then ' ' else c) = raw.data := by
    conv_rhs => rw [← List.map_id raw.data]
    apply List.map_congr_left
    intro c hc
    have : c ≠ '+' := fun heq => hplus (heq ▸ hc)
    simp [this]
  rw [hid]

/-- Witness of C28: a plain URL with a query string. -/
theorem decodeCommonCrawlURL_plain_witness :
    '%' ∉ ("https://example.com/a?b=c" : String).data ∧
    '+' ∉ ("https://example.com/a?b=c" : String).data ∧
    decodeCommonCrawlURL queryUnescape "https://example.com/a?b=c"
      = "https://example.com/a?b=c" :=
  ⟨by decide, by decide,
    (decodeCommonCrawlURL_plain "https://example.com/a?b=c" (by decide)).2.1 (by decide)⟩

/-- Counterexample to C28 as stated: an input without `%` that is not
returned unchanged, because `url.QueryUnescape` turns `+` into a blank. -/
theorem decodeCommonCrawlURL_changes_plus :
    '%' ∉ ("https://example.com/a+b" : String).data ∧
    decodeCommonCrawlURL queryUnescape "https://example.com/a+b"
      = "https://example.com/a b" ∧
    decodeCommonCrawlURL queryUnescape "https://example.com/a+b"
      ≠ "https://example.com/a+b" := by
  decide

/-! ## sources: the adapters -/

theorem HasPrefix_append_right {a p : String} (b : String) (h : HasPrefix a p = true) :
    HasPrefix (a ++ b) p = true := by
  unfold HasPrefix at *
  rw [List.isPrefixOf_iff_prefix] at *
  rw [String.data_append]
  exact h.trans (List.prefix_append _ _)

theorem attributed_yieldError (name : String) (yields : ResultType) (msg : String)
    (h : HasPrefix msg (name ++ ": ") = true) : Attributed name yields (yieldError msg) :=
  ⟨h, rfl⟩

theorem attributed_nil (name : String) (yields : ResultType) :
    ∀ item ∈ ([] : List resultItem), Attributed name yields item := by
  intro item h
  cases h

theorem attributed_cons (name : String) (yields : ResultType) (a : resultItem)
    (l : List resultItem) (ha : Attributed name yields a)
    (hl : ∀ item ∈ l, Attributed name yields item) :
    ∀ item ∈ a :: l, Attributed name yields item := by
  intro item h
  rcases List.mem_cons.1 h with rfl | h
  · exact ha
  · exact hl item h

theorem attributed_append (name : String) (yields : ResultType) (l1 l2 : List resultItem)
    (h1 : ∀ item ∈ l1, Attributed name yields item)
    (h2 : ∀ item ∈ l2, Attributed name yields item) :
    ∀ item ∈ l1 ++ l2, Attributed name yields item := by
  intro item h
  rcases List.mem_append.1 h with h | h
  · exact h1 item h
  · exact h2 item h

theorem attributed_map {α : Type} (name : String) (yields : ResultType) (f : α → resultItem)
    (l : List α) (h : ∀ a, Attributed name yields (f a)) :
    ∀ item ∈ l.map f, Attributed name yields item := by
  intro item hm
  obtain ⟨a, _, rfl⟩ := List.mem_map.1 hm
  exact h a

theorem attributed_flatMap {α : Type} (name : String) (yields : ResultType)
    (f : α → List resultItem) (l : List α)
    (h : ∀ a, ∀ item ∈ f a, Attributed name yields item) :
    ∀ item ∈ l.flatMap f, Attributed name yields item := by
  intro item hm
  obtain ⟨a, _, ha⟩ := List.mem_flatMap.1 hm
  exact h a item ha

theorem attributed_yieldResult (name : String) (yields kind : ResultType) (value : String)
    (hk : kind = Subdomain ∨ kind = URL) (hy : kind &&& yields = kind) :
    Attributed name yields (yieldResult kind value name) :=
  ⟨hk, hy, rfl⟩

theorem runAnubis_attributed (up : Upstream) (ctx : Context) (client : Client)
    (domain apiKey : String) :
    ∀ item ∈ runAnubis up ctx client domain apiKey, Attributed "anubis" Subdomain item := by
  unfold runAnubis
  dsimp only
  repeat' first
    | exact attributed_nil _ _
    | refine attributed_cons _ _ _ _ ?_ ?_
    | refine attributed_append _ _ _ _ ?_ ?_
    | refine attributed_map _ _ _ _ ?_
    | refine attributed_flatMap _ _ _ _ ?_
    | refine attributed_yieldError _ _ _ ?_
    | refine attributed_yieldResult _ _ _ _ ?_ ?_
    | decide
    | refine HasPrefix_append_right _ ?_
    | split
    | intro _

theorem runAlienVault_pages_attributed (up : Upstream) (ctx : Context) (domain : String)
    (extractor : SubdomainExtractor) :
    ∀ (replies : List Reply) (page : Nat),
      ∀ item ∈ runAlienVault.pages up ctx domain extractor page replies,
        Attributed "alienvault" (Subdomain ||| URL) item := by
  intro replies
  induction replies with
  | nil =>
    intro page
    unfold runAlienVault.pages
    dsimp only
    repeat' first
      | exact attributed_nil _ _
      | refine attributed_cons _ _ _ _ ?_ ?_
      | refine attributed_append _ _ _ _ ?_ ?_
      | refine attributed_map _ _ _ _ ?_
      | refine attributed_flatMap _ _ _ _ ?_
      | refine attributed_yieldError _ _ _ ?_
      | refine attributed_yieldResult _ _ _ _ ?_ ?_
      | decide
      | refine HasPrefix_append_right _ ?_
      | split
  | cons reply rest ih =>
    intro page
    cases reply <;> unfold runAlienVault.pages <;> dsimp only
    all_goals repeat' first
      | exact attributed_nil _ _
      | exact ih _
      | refine attributed_cons _ _ _ _ ?_ ?_
      | refine attributed_append _ _ _ _ ?_ ?_
      | refine attributed_map _ _ _ _ ?_
      | refine attributed_flatMap _ _ _ _ ?_
      | refine attributed_yieldError _ _ _ ?_
      | refine attributed_yieldResult _ _ _ _ ?_ ?_
      | decide
      | refine HasPrefix_append_right _ ?_
      | split
      | intro _

theorem runAlienVault_attributed (up : Upstream) (ctx : Context) (client : Client)
    (domain apiKey : String) :
    ∀ item ∈ runAlienVault up ctx client domain apiKey,
      Attributed "alienvault" (Subdomain ||| URL) item := by
  unfold runAlienVault
  split
  · refine attributed_cons _ _ _ _ (attributed_yieldError _ _ _ ?_) (attributed_nil _ _)
    exact HasPrefix_append_right _ (by decide)
  · exact runAlienVault_pages_attributed up ctx domain _ _ _

theorem runCommonCrawl_indexes_attributed (up : Upstream) (ctx : Context) (domain : String)
    (extractor : SubdomainExtractor) :
    ∀ (indexes : List ccIndex) (replies : List Reply),
      ∀ item ∈ runCommonCrawl.indexes up ctx domain extractor indexes replies,
        Attributed "commoncrawl" (Subdomain ||| URL) item := by
  intro indexes
  induction indexes with
  | nil =>
    intro replies
    unfold runCommonCrawl.indexes
    exact attributed_nil _ _
  | cons idx more ih =>
    intro replies
    unfold runCommonCrawl.indexes
    dsimp only
    repeat' first
      | exact attributed_nil _ _
      | exact ih _
      | refine attributed_cons _ _ _ _ ?_ ?_
      | refine attributed_append _ _ _ _ ?_ ?_
      | refine attributed_map _ _ _ _ ?_
      | refine attributed_flatMap _ _ _ _ ?_
      | refine attributed_yieldError _ _ _ ?_
      | refine attributed_yieldResult _ _ _ _ ?_ ?_
      | decide
      | refine HasPrefix_append_right _ ?_
      | split
      | intro _

theorem runCommonCrawl_attributed (up : Upstream) (ctx : Context) (client : Client)
    (domain apiKey : String) :
    ∀ item ∈ runCommonCrawl up ctx client domain apiKey,
      Attributed "commoncrawl" (Subdomain ||| URL) item := by
  unfold runCommonCrawl
  dsimp only
  repeat' first
    | exact attributed_nil _ _
    | exact runCommonCrawl_indexes_attributed up ctx domain _ _ _
    | refine attributed_cons _ _ _ _ ?_ ?_
    | refine attributed_yieldError _ _ _ ?_
    | decide
    | refine HasPrefix_append_right _ ?_
    | split

theorem runCrtSh_attributed (up : Upstream) (ctx : Context) (client : Client)
    (domain apiKey : String) :
    ∀ item ∈ runCrtSh up ctx client domain apiKey, Attributed "crtsh" Subdomain item := by
  unfold runCrtSh
  dsimp only
  repeat' first
    | exact attributed_nil _ _
    | refine attributed_cons _ _ _ _ ?_ ?_
    | refine attributed_append _ _ _ _ ?_ ?_
    | refine attributed_map _ _ _ _ ?_
    | refine attributed_flatMap _ _ _ _ ?_
    | refine attributed_yieldError _ _ _ ?_
    | refine attributed_yieldResult _ _ _ _ ?_ ?_
    | decide
    | refine HasPrefix_append_right _ ?_
    | split
    | intro _

theorem runDigitorus_attributed (up : Upstream) (ctx : Context) (client : Client)
    (domain apiKey : String) :
    ∀ item ∈ runDigitorus up ctx client domain apiKey, Attributed "digitorus" Subdomain item := by
  unfold runDigitorus
  dsimp only
  repeat' first
    | exact attributed_nil _ _
    | refine attributed_cons _ _ _ _ ?_ ?_
    | refine attributed_append _ _ _ _ ?_ ?_
    | refine attributed_map _ _ _ _ ?_
    | refine attributed_flatMap _ _ _ _ ?_
    | refine attributed_yieldError _ _ _ ?_
    | refine attributed_yieldResult _ _ _ _ ?_ ?_
    | decide
    | refine HasPrefix_append_right _ ?_
    | split
    | intro _

theorem runHackerTarget_attributed (up : Upstream) (ctx : Context) (client : Client)
    (domain apiKey : String) :
    ∀ item ∈ runHackerTarget up ctx client domain apiKey, Attributed "hackertarget" Subdomain item := by
  unfold runHackerTarget
  dsimp only
  repeat' first
    | exact attributed_nil _ _
    | refine attributed_cons _ _ _ _ ?_ ?_
    | refine attributed_append _ _ _ _ ?_ ?_
    | refine attributed_map _ _ _ _ ?_
    | refine attributed_flatMap _ _ _ _ ?_
    | refine attributed_yieldError _ _ _ ?_
    | refine attributed_yieldResult _ _ _ _ ?_ ?_
    | decide
    | refine HasPrefix_append_right _ ?_
    | split
    | intro _

theorem runHudsonRock_attributed (up : Upstream) (ctx : Context) (client : Client)
    (domain apiKey : String) :
    ∀ item ∈ runHudsonRock up ctx client domain apiKey, Attributed "hudsonrock" (Subdomain ||| URL) item := by
  unfold runHudsonRock
  dsimp only
  repeat' first
    | exact attributed_nil _ _
    | refine attributed_cons _ _ _ _ ?_ ?_
    | refine attributed_append _ _ _ _ ?_ ?_
    | refine attributed_map _ _ _ _ ?_
    | refine attributed_flatMap _ _ _ _ ?_
    | refine attributed_yieldError _ _ _ ?_
    | refine attributed_yieldResult _ _ _ _ ?_ ?_
    | decide
    | refine HasPrefix_append_right _ ?_
    | split
    | intro _

theorem runRapidDNS_pages_attributed (up : Upstream) (ctx : Context) (domain : String)
    (extractor : SubdomainExtractor) :
    ∀ (remaining : Nat) (page : Int) (replies : List Reply),
      ∀ item ∈ runRapidDNS.pages up ctx domain extractor remaining page replies,
        Attributed "rapiddns" Subdomain item := by
  intro remaining
  induction remaining with
  | zero =>
    intro page replies
    unfold runRapidDNS.pages
    exact attributed_nil _ _
  | succ n ih =>
    intro page replies
    unfold runRapidDNS.pages
    repeat' first
      | exact attributed_nil _ _
      | exact ih _ _
      | refine attributed_cons _ _ _ _ ?_ ?_
      | refine attributed_append _ _ _ _ ?_ ?_
      | refine attributed_map _ _ _ _ ?_
      | refine attributed_yieldError _ _ _ ?_
      | refine attributed_yieldResult _ _ _ _ ?_ ?_
      | decide
      | refine HasPrefix_append_right _ ?_
      | split
      | intro _

theorem runRapidDNS_attributed (up : Upstream) (ctx : Context) (client : Client)
    (domain apiKey : String) :
    ∀ item ∈ runRapidDNS up ctx client domain apiKey, Attributed "rapiddns" Subdomain item := by
  unfold runRapidDNS
  repeat' first
    | exact attributed_nil _ _
    | exact runRapidDNS_pages_attributed up ctx domain _ _ _ _
    | refine attributed_cons _ _ _ _ ?_ ?_
    | refine attributed_append _ _ _ _ ?_ ?_
    | refine attributed_map _ _ _ _ ?_
    | refine attributed_yieldError _ _ _ ?_
    | refine attributed_yieldResult _ _ _ _ ?_ ?_
    | decide
    | refine HasPrefix_append_right _ ?_
    | split
    | intro _

theorem runReconeer_attributed (up : Upstream) (ctx : Context) (client : Client)
    (domain apiKey : String) :
    ∀ item ∈ runReconeer up ctx client domain apiKey, Attributed "reconeer" Subdomain item := by
  unfold runReconeer
  dsimp only
  repeat' first
    | exact attributed_nil _ _
    | refine attributed_cons _ _ _ _ ?_ ?_
    | refine attributed_append _ _ _ _ ?_ ?_
    | refine attributed_map _ _ _ _ ?_
    | refine attributed_flatMap _ _ _ _ ?_
    | refine attributed_yieldError _ _ _ ?_
    | refine attributed_yieldResult _ _ _ _ ?_ ?_
    | decide
    | refine HasPrefix_append_right _ ?_
    | split
    | intro _

theorem runSiteDossier_pages_attributed (up : Upstream) (ctx : Context)
    (extractor : SubdomainExtractor) :
    ∀ (replies : List Reply) (currentURL : String),
      ∀ item ∈ runSiteDossier.pages up ctx extractor currentURL replies,
        Attributed "sitedossier" Subdomain item := by
  intro replies
  induction replies with
  | nil =>
    intro currentURL
    unfold runSiteDossier.pages
    dsimp only
    repeat' first
      | exact attributed_nil _ _
      | refine attributed_cons _ _ _ _ ?_ ?_
      | refine attributed_append _ _ _ _ ?_ ?_
      | refine attributed_map _ _ _ _ ?_
      | refine attributed_flatMap _ _ _ _ ?_
      | refine attributed_yieldError _ _ _ ?_
      | refine attributed_yieldResult _ _ _ _ ?_ ?_
      | decide
      | refine HasPrefix_append_right _ ?_
      | split
      | intro _
  | cons reply rest ih =>
    intro currentURL
    unfold runSiteDossier.pages
    dsimp only
    repeat' first
      | exact attributed_nil _ _
      | exact ih _
      | refine attributed_cons _ _ _ _ ?_ ?_
      | refine attributed_append _ _ _ _ ?_ ?_
      | refine attributed_map _ _ _ _ ?_
      | refine attributed_flatMap _ _ _ _ ?_
      | refine attributed_yieldError _ _ _ ?_
      | refine attributed_yieldResult _ _ _ _ ?_ ?_
      | decide
      | refine HasPrefix_append_right _ ?_
      | split
      | intro _

theorem runSiteDossier_attributed (up : Upstream) (ctx : Context) (client : Client)
    (domain apiKey : String) :
    ∀ item ∈ runSiteDossier up ctx client domain apiKey,
      Attributed "sitedossier" Subdomain item := by
  unfold runSiteDossier
  split
  · refine attributed_cons _ _ _ _ (attributed_yieldError _ _ _ ?_) (attributed_nil _ _)
    exact HasPrefix_append_right _ (by decide)
  · exact runSiteDossier_pages_attributed up ctx _ _ _

theorem runTHC_pages_attributed (up : Upstream) (ctx : Context) (domain : String) :
    ∀ (replies : List Reply) (pageState : String),
      ∀ item ∈ runTHC.pages up ctx domain pageState replies,
        Attributed "thc" Subdomain item := by
  intro replies
  induction replies with
  | nil =>
    intro pageState
    unfold runTHC.pages
    dsimp only
    repeat' first
      | exact attributed_nil _ _
      | refine attributed_cons _ _ _ _ ?_ ?_
      | refine attributed_append _ _ _ _ ?_ ?_
      | refine attributed_map _ _ _ _ ?_
      | refine attributed_flatMap _ _ _ _ ?_
      | refine attributed_yieldError _ _ _ ?_
      | refine attributed_yieldResult _ _ _ _ ?_ ?_
      | decide
      | refine HasPrefix_append_right _ ?_
      | split
  | cons reply rest ih =>
    intro pageState
    cases reply <;> unfold runTHC.pages <;> dsimp only
    all_goals repeat' first
      | exact attributed_nil _ _
      | exact ih _
      | refine attributed_cons _ _ _ _ ?_ ?_
      | refine attributed_append _ _ _ _ ?_ ?_
      | refine attributed_map _ _ _ _ ?_
      | refine attributed_flatMap _ _ _ _ ?_
      | refine attributed_yieldError _ _ _ ?_
      | refine attributed_yieldResult _ _ _ _ ?_ ?_
      | decide
      | refine HasPrefix_append_right _ ?_
      | split
      | intro _

theorem runTHC_attributed (up : Upstream) (ctx : Context) (client : Client)
    (domain apiKey : String) :
    ∀ item ∈ runTHC up ctx client domain apiKey, Attributed "thc" Subdomain item :=
  runTHC_pages_attributed up ctx domain _ _

theorem adapters_attributed (up : Upstream) :
    ∀ s ∈ adapters up, ∀ (ctx : Context) (client : Client) (domain apiKey : String),
      ∀ item ∈ s.Run ctx client domain apiKey, Attributed s.Name s.Yields item := by
  intro s hs ctx client domain apiKey
  simp only [adapters, List.mem_cons, List.mem_singleton, List.not_mem_nil, or_false] at hs
  rcases hs with rfl | rfl | rfl | rfl | rfl | rfl | rfl | rfl | rfl | rfl | rfl
  · exact runAlienVault_attributed up ctx client domain apiKey
  · exact runAnubis_attributed up ctx client domain apiKey
  · exact runCommonCrawl_attributed up ctx client domain apiKey
  · exact runCrtSh_attributed up ctx client domain apiKey
  · exact runDigitorus_attributed up ctx client domain apiKey
  · exact runHackerTarget_attributed up ctx client domain apiKey
  · exact runHudsonRock_attributed up ctx client domain apiKey
  · exact runRapidDNS_attributed up ctx client domain apiKey
  · exact runReconeer_attributed up ctx client domain apiKey
  · exact runSiteDossier_attributed up ctx client domain apiKey
  · exact runTHC_attributed up ctx client domain apiKey

theorem adapters_registered (up : Upstream) :
    ∀ s ∈ adapters up, ByName (registered up) s.Name = some s := by
  intro s hs
  simp only [adapters, List.mem_cons, List.mem_singleton, List.not_mem_nil, or_false] at hs
  rcases hs with rfl | rfl | rfl | rfl | rfl | rfl | rfl | rfl | rfl | rfl | rfl <;>
    simp [registered, adapters, ByName_Register, AlienVault, Anubis, CommonCrawl, CrtSh,
      Digitorus, HackerTarget, HudsonRock, RapidDNS, Reconeer, SiteDossier, THC]

/-- C22: every adapter is registered under its name, the names being the
eleven of the specification; and for every behaviour of the surroundings
(every outcome of the HTTP calls included), every error a registered adapter
yields has a message that begins with the adapter's `Name` followed by `": "`
and is yielded with the empty `Result`. -/
theorem adapter_errors_attributed (up : Upstream) :
    (adapters up).map (fun s => s.Name) =
      ["alienvault", "anubis", "commoncrawl", "crtsh", "digitorus", "hackertarget",
       "hudsonrock", "rapiddns", "reconeer", "sitedossier", "thc"] ∧
    ∀ s ∈ adapters up, ByName (registered up) s.Name = some s ∧
      ∀ (ctx : Context) (client : Client) (domain apiKey : String),
        ∀ item ∈ s.Run ctx client domain apiKey, ∀ e, item.err = some e →
          HasPrefix e (s.Name ++ ": ") = true ∧ item.result = default := by
  refine ⟨rfl, ?_⟩
  intro s hs
  refine ⟨adapters_registered up s hs, ?_⟩
  intro ctx client domain apiKey item hitem e he
  have h := adapters_attributed up s hs ctx client domain apiKey item hitem
  unfold Attributed at h
  rw [he] at h
  exact h

/-- Witness of C22: crt.sh answers with status 503. -/
theorem adapter_errors_attributed_witness :
    CrtSh (sampleUpstream (.ok (fun _ => [])) [.response 503 ""]) ∈
      adapters (sampleUpstream (.ok (fun _ => [])) [.response 503 ""]) ∧
    yieldError "crtsh: unexpected status 503" ∈
      (CrtSh (sampleUpstream (.ok (fun _ => [])) [.response 503 ""])).Run
        ⟨false, none⟩ testClient "example.com" "" ∧
    HasPrefix "crtsh: unexpected status 503" "crtsh: " = true :=
  have hs : CrtSh (sampleUpstream (.ok (fun _ => [])) [.response 503 ""]) ∈
      adapters (sampleUpstream (.ok (fun _ => [])) [.response 503 ""]) := by
    simp [adapters]
  have hitem : yieldError "crtsh: unexpected status 503" ∈
      (CrtSh (sampleUpstream (.ok (fun _ => [])) [.response 503 ""])).Run
        ⟨false, none⟩ testClient "example.com" "" := by
    decide
  ⟨hs, hitem,
    (((adapter_errors_attributed (sampleUpstream (.ok (fun _ => [])) [.response 503 ""])).2
      _ hs).2 ⟨false, none⟩ testClient "example.com" "" _ hitem _ rfl).1⟩

/-- C23: for every behaviour of the surroundings (every response of the
upstream included), each non-error result a registered adapter yields has as
its `Type` a single kind contained in the adapter's declared `Yields`, and as
its `Source` the adapter's `Name`, under which the adapter is registered. -/
theorem adapter_results_honest (up : Upstream) :
    ∀ s ∈ adapters up, ∀ (ctx : Context) (client : Client) (domain apiKey : String),
      ∀ item ∈ s.Run ctx client domain apiKey, item.err = none →
        (item.result.Kind = Subdomain ∨ item.result.Kind = URL) ∧
        item.result.Kind &&& s.Yields = item.result.Kind ∧
        item.result.Source = s.Name ∧
        ByName (registered up) item.result.Source = some s := by
  intro s hs ctx client domain apiKey item hitem he
  have h := adapters_attributed up s hs ctx client domain apiKey item hitem
  unfold Attributed at h
  rw [he] at h
  refine ⟨h.1, h.2.1, h.2.2, ?_⟩
  rw [h.2.2]
  exact adapters_registered up s hs

/-- Witness of C23: HudsonRock answers with one URL, in which the extractor
finds one subdomain. -/
theorem adapter_results_honest_witness :
    HudsonRock hudsonRockUpstream ∈ adapters hudsonRockUpstream ∧
    (HudsonRock hudsonRockUpstream).Run ⟨false, none⟩ testClient "example.com" "" =
      [yieldResult URL "https://api.example.com/login" "hudsonrock",
       yieldResult Subdomain "api.example.com" "hudsonrock"] ∧
    (Subdomain &&& (HudsonRock hudsonRockUpstream).Yields = Subdomain ∧
      ByName (registered hudsonRockUpstream) "hudsonrock" = some (HudsonRock hudsonRockUpstream)) :=
  have hs : HudsonRock hudsonRockUpstream ∈ adapters hudsonRockUpstream := by
    simp [adapters]
  have hrun : (HudsonRock hudsonRockUpstream).Run ⟨false, none⟩ testClient "example.com" "" =
      [yieldResult URL "https://api.example.com/login" "hudsonrock",
       yieldResult Subdomain "api.example.com" "hudsonrock"] := by
    decide
  have h := adapter_results_honest hudsonRockUpstream _ hs ⟨false, none⟩ testClient
    "example.com" "" (yieldResult Subdomain "api.example.com" "hudsonrock")
    (by rw [hrun]; simp) rfl
  ⟨hs, hrun, h.2.1, h.2.2.2⟩

/-! ## sources: a domain the extractor rejects -/

theorem runCrtSh_invalid (up : Upstream) (ctx : Context) (client : Client)
    (domain apiKey : String) (e : GoError) (h : up.NewSubdomainExtractor domain = .error e) :
    (runCrtSh up ctx client domain apiKey = [] ∨
      ∃ msg, runCrtSh up ctx client domain apiKey = [yieldError msg]) ∧
    (runCrtSh up ctx client domain apiKey = [yieldError ("crtsh: " ++ e)] ∨
      ∀ build, runCrtSh { up with NewSubdomainExtractor := build } ctx client domain apiKey =
        runCrtSh up ctx client domain apiKey) := by
  constructor
  · unfold runCrtSh
    simp only [h]
    repeat' split
    all_goals first
      | exact Or.inl rfl
      | exact Or.inr ⟨_, rfl⟩
  · unfold runCrtSh
    simp only [h]
    repeat' split
    all_goals first
      | exact Or.inl rfl
      | (right; intro build; simp [*])

theorem runDigitorus_invalid (up : Upstream) (ctx : Context) (client : Client)
    (domain apiKey : String) (e : GoError) (h : up.NewSubdomainExtractor domain = .error e) :
    (runDigitorus up ctx client domain apiKey = [] ∨
      ∃ msg, runDigitorus up ctx client domain apiKey = [yieldError msg]) ∧
    (runDigitorus up ctx client domain apiKey = [yieldError ("digitorus: " ++ e)] ∨
      ∀ build, runDigitorus { up with NewSubdomainExtractor := build } ctx client domain apiKey =
        runDigitorus up ctx client domain apiKey) := by
  constructor
  · unfold runDigitorus
    simp only [h]
    repeat' split
    all_goals first
      | exact Or.inl rfl
      | exact Or.inr ⟨_, rfl⟩
  · unfold runDigitorus
    simp only [h]
    repeat' split
    all_goals first
      | exact Or.inl rfl
      | (right; intro build; simp [*])

theorem runHackerTarget_invalid (up : Upstream) (ctx : Context) (client : Client)
    (domain apiKey : String) (e : GoError) (h : up.NewSubdomainExtractor domain = .error e) :
    (runHackerTarget up ctx client domain apiKey = [] ∨
      ∃ msg, runHackerTarget up ctx client domain apiKey = [yieldError msg]) ∧
    (runHackerTarget up ctx client domain apiKey = [yieldError ("hackertarget: " ++ e)] ∨
      ∀ build, runHackerTarget { up with NewSubdomainExtractor := build } ctx client domain apiKey =
        runHackerTarget up ctx client domain apiKey) := by
  constructor
  · unfold runHackerTarget
    simp only [h]
    repeat' split
    all_goals first
      | exact Or.inl rfl
      | exact Or.inr ⟨_, rfl⟩
  · unfold runHackerTarget
    simp only [h]
    repeat' split
    all_goals first
      | exact Or.inl rfl
      | (right; intro build; simp [*])

theorem runHudsonRock_invalid (up : Upstream) (ctx : Context) (client : Client)
    (domain apiKey : String) (e : GoError) (h : up.NewSubdomainExtractor domain = .error e) :
    (runHudsonRock up ctx client domain apiKey = [] ∨
      ∃ msg, runHudsonRock up ctx client domain apiKey = [yieldError msg]) ∧
    (runHudsonRock up ctx client domain apiKey = [yieldError ("hudsonrock: " ++ e)] ∨
      ∀ build, runHudsonRock { up with NewSubdomainExtractor := build } ctx client domain apiKey =
        runHudsonRock up ctx client domain apiKey) := by
  constructor
  · unfold runHudsonRock
    simp only [h]
    repeat' split
    all_goals first
      | exact Or.inl rfl
      | exact Or.inr ⟨_, rfl⟩
  · unfold runHudsonRock
    simp only [h]
    repeat' split
    all_goals first
      | exact Or.inl rfl
      | (right; intro build; simp [*])

theorem fetchCommonCrawlIndexes_build (up : Upstream) (ctx : Context)
    (build : String → Except GoError SubdomainExtractor) (reply : Option Reply) :
    fetchCommonCrawlIndexes { up with NewSubdomainExtractor := build } ctx reply =
      fetchCommonCrawlIndexes up ctx reply :=
  rfl

theorem runCommonCrawl_invalid (up : Upstream) (ctx : Context) (client : Client)
    (domain apiKey : String) (e : GoError) (h : up.NewSubdomainExtractor domain = .error e) :
    (runCommonCrawl up ctx client domain apiKey = [] ∨
      ∃ msg, runCommonCrawl up ctx client domain apiKey = [yieldError msg]) ∧
    (runCommonCrawl up ctx client domain apiKey = [yieldError ("commoncrawl: " ++ e)] ∨
      ∀ build, runCommonCrawl { up with NewSubdomainExtractor := build } ctx client domain apiKey =
        runCommonCrawl up ctx client domain apiKey) := by
  constructor
  · unfold runCommonCrawl
    simp only [h]
    repeat' split
    all_goals first
      | exact Or.inl rfl
      | exact Or.inr ⟨_, rfl⟩
  · unfold runCommonCrawl
    simp only [h]
    repeat' split
    all_goals first
      | exact Or.inl rfl
      | (right; intro build; simp only [fetchCommonCrawlIndexes_build, *, if_true])

theorem runAlienVault_invalid (up : Upstream) (ctx : Context) (client : Client)
    (domain apiKey : String) (e : GoError) (h : up.NewSubdomainExtractor domain = .error e) :
    runAlienVault up ctx client domain apiKey = [yieldError ("alienvault: " ++ e)] := by
  unfold runAlienVault
  simp only [h]

theorem runRapidDNS_invalid (up : Upstream) (ctx : Context) (client : Client)
    (domain apiKey : String) (e : GoError) (h : up.NewSubdomainExtractor domain = .error e) :
    runRapidDNS up ctx client domain apiKey = [yieldError ("rapiddns: " ++ e)] := by
  unfold runRapidDNS
  simp only [h]

theorem runSiteDossier_invalid (up : Upstream) (ctx : Context) (client : Client)
    (domain apiKey : String) (e : GoError) (h : up.NewSubdomainExtractor domain = .error e) :
    runSiteDossier up ctx client domain apiKey = [yieldError ("sitedossier: " ++ e)] := by
  unfold runSiteDossier
  simp only [h]

theorem single_error_of_attributed (name : String) (yields : ResultType)
    (run : List resultItem) (hshape : run = [] ∨ ∃ msg, run = [yieldError msg])
    (hatt : ∀ item ∈ run, Attributed name yields item) :
    run.length ≤ 1 ∧
    ∀ item ∈ run, ∃ msg, item = yieldError msg ∧ HasPrefix msg (name ++ ": ") = true := by
  rcases hshape with hnil | ⟨msg, hmsg⟩
  · rw [hnil]
    exact ⟨Nat.zero_le _, fun item hitem => nomatch hitem⟩
  · have hm := hatt (yieldError msg) (by rw [hmsg]; exact List.mem_singleton.2 rfl)
    rw [hmsg]
    refine ⟨Nat.le_refl _, ?_⟩
    intro item hitem
    rw [List.mem_singleton.1 hitem]
    exact ⟨msg, rfl, hm.1⟩

theorem runCrtSh_rejected (up : Upstream) (ctx : Context) (client : Client)
    (domain apiKey : String) (e : GoError) (h : up.NewSubdomainExtractor domain = .error e) :
    runCrtSh up ctx client domain apiKey =
      rejectedRun "crtsh" e
        (firstExchange
          (up.NewRequestWithContext ctx "GET" ("https://crt.sh/?q=%25." ++ domain ++ "&output=json")
            none)
          (up.Do ctx client) (fun code => code = 200)
          (fun body => errorOf (up.DecodeRecords body))) := by
  unfold runCrtSh firstExchange
  simp only [h]
  repeat' split
  all_goals simp_all [rejectedRun, errorOf, ← String.append_assoc]

theorem runDigitorus_rejected (up : Upstream) (ctx : Context) (client : Client)
    (domain apiKey : String) (e : GoError) (h : up.NewSubdomainExtractor domain = .error e) :
    runDigitorus up ctx client domain apiKey =
      rejectedRun "digitorus" e
        (firstExchange
          (up.NewRequestWithContext ctx "GET"
            ("https://certificatedetails.com/" ++ domain)
            none)
          (up.Do ctx client) (fun code => code = 200 ∨ code = 404)
          (fun _ => none)) := by
  unfold runDigitorus firstExchange
  simp only [h]
  repeat' split
  all_goals simp_all [rejectedRun, errorOf, ← String.append_assoc]

theorem runHackerTarget_rejected (up : Upstream) (ctx : Context) (client : Client)
    (domain apiKey : String) (e : GoError) (h : up.NewSubdomainExtractor domain = .error e) :
    runHackerTarget up ctx client domain apiKey =
      rejectedRun "hackertarget" e
        (firstExchange
          (up.NewRequestWithContext ctx "GET"
            (if apiKey ≠ "" then
              "https://api.hackertarget.com/hostsearch/?q=" ++ domain ++ ("&apikey=" ++ apiKey)
             else "https://api.hackertarget.com/hostsearch/?q=" ++ domain)
            none)
          (up.Do ctx client) (fun code => code = 200)
          (fun _ => none)) := by
  unfold runHackerTarget firstExchange
  simp only [h]
  repeat' split
  all_goals simp_all [rejectedRun, errorOf, ← String.append_assoc]

theorem runHudsonRock_rejected (up : Upstream) (ctx : Context) (client : Client)
    (domain apiKey : String) (e : GoError) (h : up.NewSubdomainExtractor domain = .error e) :
    runHudsonRock up ctx client domain apiKey =
      rejectedRun "hudsonrock" e
        (firstExchange
          (up.NewRequestWithContext ctx "GET"
            ("https://cavalier.hudsonrock.com/api/json/v2/osint-tools/urls-by-domain?domain=" ++
              domain)
            none)
          (up.Do ctx client) (fun code => code = 200)
          (fun body => errorOf (up.DecodeHudsonRock body))) := by
  unfold runHudsonRock firstExchange
  simp only [h]
  repeat' split
  all_goals simp_all [rejectedRun, errorOf, ← String.append_assoc]

theorem runCommonCrawl_rejected (up : Upstream) (ctx : Context) (client : Client)
    (domain apiKey : String) (e : GoError) (h : up.NewSubdomainExtractor domain = .error e) :
    runCommonCrawl up ctx client domain apiKey =
      match fetchCommonCrawlIndexes up ctx (up.Do ctx client).head? with
      | none => []
      | some (.error err) => [yieldError ("commoncrawl: " ++ err)]
      | some (.ok indexes) =>
        if indexes.any (fun idx => idx.year ≥ up.Year - 2) then
          [yieldError ("commoncrawl: " ++ e)]
        else [] := by
  unfold runCommonCrawl
  simp only [h]
  cases fetchCommonCrawlIndexes up ctx (up.Do ctx client).head? with
  | none => rfl
  | some fetched =>
    cases fetched with
    | error err => rfl
    | ok indexes =>
      simp only [List.length_eq_zero, List.filter_eq_nil_iff, List.any_eq_true]
      by_cases hany : ∃ idx ∈ indexes, decide (idx.year ≥ up.Year - 2) = true
      · rw [if_pos hany, if_neg]
        intro hall
        obtain ⟨idx, hidx, hrecent⟩ := hany
        exact hall idx hidx hrecent
      · rw [if_neg hany, if_pos]
        intro idx hidx hrecent
        exact hany ⟨idx, hidx, hrecent⟩

/-- C24 (as amended): when `NewSubdomainExtractor(domain)` fails, each of the
eight adapters that build an extractor yields no successful result and at most
one item, an error whose message begins with the adapter's name. AlienVault,
RapidDNS and SiteDossier, which build the extractor first, yield exactly the
construction error. CrtSh, Digitorus, HackerTarget, HudsonRock and CommonCrawl
build it after their first HTTP exchange: their run is exactly the
construction error, or it ends before the constructor is called and is the
same for every constructor. Which of the two: CrtSh, Digitorus, HackerTarget
and HudsonRock yield the construction error as their only item when the first
exchange succeeds (request built, call answered, status 200, or 404 too for
Digitorus, body decoded), the error of the exchange as their only item when it
fails, and nothing while it is unanswered. CommonCrawl yields the error of
fetching the index list when that fails, the construction error when the list
holds an index of the last two years, and nothing otherwise. -/
theorem construction_error_ends_run (up : Upstream) (ctx : Context) (client : Client)
    (domain apiKey : String) (e : GoError)
    (h : up.NewSubdomainExtractor domain = .error e) :
    (∀ s ∈ extracting up,
      (s.Run ctx client domain apiKey).length ≤ 1 ∧
      ∀ item ∈ s.Run ctx client domain apiKey,
        ∃ msg, item = yieldError msg ∧ HasPrefix msg (s.Name ++ ": ") = true) ∧
    runAlienVault up ctx client domain apiKey = [yieldError ("alienvault: " ++ e)] ∧
    runRapidDNS up ctx client domain apiKey = [yieldError ("rapiddns: " ++ e)] ∧
    runSiteDossier up ctx client domain apiKey = [yieldError ("sitedossier: " ++ e)] ∧
    (∀ p ∈ [("crtsh", runCrtSh), ("digitorus", runDigitorus), ("hackertarget", runHackerTarget),
        ("hudsonrock", runHudsonRock), ("commoncrawl", runCommonCrawl)],
      p.2 up ctx client domain apiKey = [yieldError (p.1 ++ ": " ++ e)] ∨
      ∀ build, p.2 { up with NewSubdomainExtractor := build } ctx client domain apiKey =
        p.2 up ctx client domain apiKey) ∧
    runCrtSh up ctx client domain apiKey =
      rejectedRun "crtsh" e
        (firstExchange
          (up.NewRequestWithContext ctx "GET" ("https://crt.sh/?q=%25." ++ domain ++ "&output=json")
            none)
          (up.Do ctx client) (fun code => code = 200)
          (fun body => errorOf (up.DecodeRecords body))) ∧
    runDigitorus up ctx client domain apiKey =
      rejectedRun "digitorus" e
        (firstExchange
          (up.NewRequestWithContext ctx "GET" ("https://certificatedetails.com/" ++ domain) none)
          (up.Do ctx client) (fun code => code = 200 ∨ code = 404) (fun _ => none)) ∧
    runHackerTarget up ctx client domain apiKey =
      rejectedRun "hackertarget" e
        (firstExchange
          (up.NewRequestWithContext ctx "GET"
            (if apiKey ≠ "" then
              "https://api.hackertarget.com/hostsearch/?q=" ++ domain ++ ("&apikey=" ++ apiKey)
             else "https://api.hackertarget.com/hostsearch/?q=" ++ domain)
            none)
          (up.Do ctx client) (fun code => code = 200) (fun _ => none)) ∧
    runHudsonRock up ctx client domain apiKey =
      rejectedRun "hudsonrock" e
        (firstExchange
          (up.NewRequestWithContext ctx "GET"
            ("https://cavalier.hudsonrock.com/api/json/v2/osint-tools/urls-by-domain?domain=" ++
              domain)
            none)
          (up.Do ctx client) (fun code => code = 200)
          (fun body => errorOf (up.DecodeHudsonRock body))) ∧
    runCommonCrawl up ctx client domain apiKey =
      (match fetchCommonCrawlIndexes up ctx (up.Do ctx client).head? with
       | none => []
       | some (.error err) => [yieldError ("commoncrawl: " ++ err)]
       | some (.ok indexes) =>
         if indexes.any (fun idx => idx.year ≥ up.Year - 2) then
           [yieldError ("commoncrawl: " ++ e)]
         else []) := by
  have hav := runAlienVault_invalid up ctx client domain apiKey e h
  have hrd := runRapidDNS_invalid up ctx client domain apiKey e h
  have hsd := runSiteDossier_invalid up ctx client domain apiKey e h
  refine ⟨?_, hav, hrd, hsd, ?_, runCrtSh_rejected up ctx client domain apiKey e h,
    runDigitorus_rejected up ctx client domain apiKey e h,
    runHackerTarget_rejected up ctx client domain apiKey e h,
    runHudsonRock_rejected up ctx client domain apiKey e h,
    runCommonCrawl_rejected up ctx client domain apiKey e h⟩
  · intro s hs
    simp only [extracting, List.mem_cons, List.mem_singleton, List.not_mem_nil, or_false] at hs
    rcases hs with rfl | rfl | rfl | rfl | rfl | rfl | rfl | rfl
    · exact single_error_of_attributed _ _ _ (Or.inr ⟨_, hav⟩)
        (runAlienVault_attributed up ctx client domain apiKey)
    · exact single_error_of_attributed _ _ _
        (runCommonCrawl_invalid up ctx client domain apiKey e h).1
        (runCommonCrawl_attributed up ctx client domain apiKey)
    · exact single_error_of_attributed _ _ _
        (runCrtSh_invalid up ctx client domain apiKey e h).1
        (runCrtSh_attributed up ctx client domain apiKey)
    · exact single_error_of_attributed _ _ _
        (runDigitorus_invalid up ctx client domain apiKey e h).1
        (runDigitorus_attributed up ctx client domain apiKey)
    · exact single_error_of_attributed _ _ _
        (runHackerTarget_invalid up ctx client domain apiKey e h).1
        (runHackerTarget_attributed up ctx client domain apiKey)
    · exact single_error_of_attributed _ _ _
        (runHudsonRock_invalid up ctx client domain apiKey e h).1
        (runHudsonRock_attributed up ctx client domain apiKey)
    · exact single_error_of_attributed _ _ _ (Or.inr ⟨_, hrd⟩)
        (runRapidDNS_attributed up ctx client domain apiKey)
    · exact single_error_of_attributed _ _ _ (Or.inr ⟨_, hsd⟩)
        (runSiteDossier_attributed up ctx client domain apiKey)
  · intro p hp
    simp only [List.mem_cons, List.mem_singleton, List.not_mem_nil, or_false] at hp
    rcases hp with rfl | rfl | rfl | rfl | rfl
    · exact (runCrtSh_invalid up ctx client domain apiKey e h).2
    · exact (runDigitorus_invalid up ctx client domain apiKey e h).2
    · exact (runHackerTarget_invalid up ctx client domain apiKey e h).2
    · exact (runHudsonRock_invalid up ctx client domain apiKey e h).2
    · exact (runCommonCrawl_invalid up ctx client domain apiKey e h).2

/-- Witness of C24: the empty domain is rejected; SiteDossier yields the
construction error at once, and CrtSh yields it after its exchange succeeded. -/
theorem construction_error_ends_run_witness :
    (sampleUpstream (.error "invalid domain") [.response 200 "[]"]).NewSubdomainExtractor "" =
      .error "invalid domain" ∧
    runSiteDossier (sampleUpstream (.error "invalid domain") [.response 200 "[]"])
      ⟨false, none⟩ testClient "" "" = [yieldError "sitedossier: invalid domain"] ∧
    runCrtSh (sampleUpstream (.error "invalid domain") [.response 200 "[]"])
      ⟨false, none⟩ testClient "" "" = [yieldError "crtsh: invalid domain"] :=
  ⟨rfl,
    (construction_error_ends_run (sampleUpstream (.error "invalid domain")
      [.response 200 "[]"]) ⟨false, none⟩ testClient "" "" "invalid domain" rfl).2.2.2.1,
    (construction_error_ends_run (sampleUpstream (.error "invalid domain")
      [.response 200 "[]"]) ⟨false, none⟩ testClient "" "" "invalid domain" rfl).2.2.2.2.2.1.trans
      (by decide)⟩

/-- Counterexample to C24 as stated: the extractor rejects the domain, yet the
first item CrtSh yields is the error of its HTTP call, and CommonCrawl yields
nothing when the index list holds no recent index. -/
theorem construction_error_not_first :
    (sampleUpstream (.error "invalid domain") [.failed "connection refused"]).NewSubdomainExtractor
      "" = .error "invalid domain" ∧
    runCrtSh (sampleUpstream (.error "invalid domain") [.failed "connection refused"])
      ⟨false, none⟩ testClient "" "" = [yieldError "crtsh: connection refused"] ∧
    yieldError "crtsh: connection refused" ≠ yieldError "crtsh: invalid domain" ∧
    runCommonCrawl (sampleUpstream (.error "invalid domain") [.response 200 "[]"])
      ⟨false, none⟩ testClient "" "" = [] := by
  refine ⟨rfl, ?_, ?_, ?_⟩ <;> decide

/-! ## The invariant of the results on the registered adapters -/

/-- C20 (the code at the failing input): the upstream of Anubis answers 200
with the list `["", "a.example.com"]`. `runAnubis` yields every decoded string,
the empty one too, and `Query` forwards it: a successful result with an empty
`Value`, which the invariant excludes, next to one that satisfies it. Reconeer
and THC skip the empty name of the same list. -/
theorem Query_yields_empty_value_of_anubis :
    runAnubis (emptyNameUpstream "[\"\",\"a.example.com\"]") ⟨false, none⟩ testClient
      "example.com" "" =
      [yieldResult Subdomain "" "anubis", yieldResult Subdomain "a.example.com" "anubis"] ∧
    successes (Query asciiEnv (registered (emptyNameUpstream "[\"\",\"a.example.com\"]")) 0
      ⟨false, none⟩ "example.com"
      [WithSources (some [Anubis (emptyNameUpstream "[\"\",\"a.example.com\"]")]),
        WithParallelism 1]
      [] consumeAll ()).trace =
      [⟨Subdomain, "", "anubis"⟩, ⟨Subdomain, "a.example.com", "anubis"⟩] ∧
    ¬ wellFormed (registered (emptyNameUpstream "[\"\",\"a.example.com\"]"))
      ⟨Subdomain, "", "anubis"⟩ ∧
    wellFormed (registered (emptyNameUpstream "[\"\",\"a.example.com\"]"))
      ⟨Subdomain, "a.example.com", "anubis"⟩ ∧
    runReconeer
      (emptyNameUpstream
        "\x7b\"subdomains\":[\x7b\"subdomain\":\"\"\x7d,\x7b\"subdomain\":\"a.example.com\"\x7d]\x7d")
      ⟨false, none⟩ testClient "example.com" "" =
      [yieldResult Subdomain "a.example.com" "reconeer"] ∧
    runTHC
      (emptyNameUpstream
        "\x7b\"domains\":[\x7b\"domain\":\"\"\x7d,\x7b\"domain\":\"a.example.com\"\x7d],\"next_page_state\":\"\"\x7d")
      ⟨false, none⟩ testClient "example.com" "" =
      [yieldResult Subdomain "a.example.com" "thc"] := by
  refine ⟨by decide, by decide, fun hw => hw.2.1 rfl, ?_, by decide, by decide⟩
  have hreg := adapters_registered (emptyNameUpstream "[\"\",\"a.example.com\"]")
    (Anubis (emptyNameUpstream "[\"\",\"a.example.com\"]")) (by simp [adapters])
  exact ⟨by decide, by decide, Anubis (emptyNameUpstream "[\"\",\"a.example.com\"]"), hreg,
    by decide, by decide⟩

end Scout
